import Mathlib

/-!
Action_DihedralScan: a shallow embedding of `Action_DihedralScan.cpp` (cpptraj): the setup of the
rotatable backbone dihedrals (`GetBondedAtomIdx`, `VisitAtom`, `Setup`), the
argument validation of `Init`, and the random-mode scan with clash repair and
backtracking (`RandomizeAngles`).

Conventions of the embedding

* atom and residue indices are natural numbers; the `-1` that
  `GetBondedAtomIdx` returns for "not found" is `none`;
* `std::vector<char> Visited` with its marks `'T'` / `'F'` is a `List Bool`;
* list iterators (`dih`, `next_dih`) are integer positions into
  `BB_dihedrals_`; dereferencing a position outside `[0, size)` is reported as
  the outcome `outOfBounds` (undefined behaviour in the C++);
* `double` values are rationals; `int` counters are unbounded integers;
* the recursion of `VisitAtom` and the loops of `RandomizeAngles` take a fuel
  argument and return `none` when it runs out; the theorems show how much fuel
  suffices.
-/

namespace DihedralScan

/-! ## Topology -/

/-- Modelled from the spec: the `Atom` class (its header is not among the
sources): the atom name (4 characters, blank padded), the number of the
residue the atom belongs to, and the list of the atoms it is bonded to. -/
structure Atom where
  name : String
  resnum : Nat
  bonds : List Nat
deriving DecidableEq, Repr, Inhabited

/-- Modelled from the spec: the `Topology` class (its header is not among the
sources): the atoms, the half-open atom range `(ResFirstAtom, ResLastAtom)` of
each residue, and `FinalSoluteRes`. -/
structure Topology where
  atoms : List Atom
  residues : List (Nat × Nat)
  finalSoluteRes : Nat
deriving DecidableEq, Repr, Inhabited

namespace Topology

/-- The value of `Natom()`. -/
def Natom (top : Topology) : Nat := top.atoms.length

/-- The value of `top[atom].Name()`. -/
def Name (top : Topology) (atom : Nat) : String := (top.atoms.getD atom default).name

/-- The value of `top[atom].ResNum()`. -/
def ResNum (top : Topology) (atom : Nat) : Nat := (top.atoms.getD atom default).resnum

/-- The atoms between `top[atom].bondbegin()` and `top[atom].bondend()`. -/
def bonds (top : Topology) (atom : Nat) : List Nat := (top.atoms.getD atom default).bonds

/-- The value of `ResFirstAtom(res)`. -/
def ResFirstAtom (top : Topology) (res : Nat) : Nat := (top.residues.getD res default).1

/-- The value of `ResLastAtom(res)`. -/
def ResLastAtom (top : Topology) (res : Nat) : Nat := (top.residues.getD res default).2

end Topology

/-! ## The class data -/

/-- The descriptor `DihedralScanType` of one rotatable dihedral. -/
structure DihedralScanType where
  Rmask : List Nat
  checkAtoms : List Nat
  atom1 : Nat
  atom2 : Nat
  resnum : Nat
  currentVal : Int
  interval : ℚ
  maxVal : Int
deriving DecidableEq, Repr

/-- The record `ResidueCheckType` of the residue proximity index. -/
structure ResidueCheckType where
  checkatom : Nat
  start : Nat
  stop : Nat
  resnum : Nat
deriving DecidableEq, Repr

/-- The values of `ModeType`. -/
inductive ModeType where
  | RANDOM
  | INTERVAL
  | IMPOSE
deriving DecidableEq, Repr

/-- The values of `Action::RetType` that the action returns. -/
inductive RetType where
  | OK
  | ERR
deriving DecidableEq, Repr

/-- The data members of `Action_DihedralScan` that the setup and the scans
read or write. -/
structure Action_DihedralScan where
  mode_ : ModeType
  check_for_clashes_ : Bool
  outframe_ : Int
  interval_ : ℚ
  max_rotations_ : Int
  max_factor_ : Int
  cutoff_ : ℚ
  rescutoff_ : ℚ
  backtrack_ : Int
  increment_ : Int
  max_increment_ : Int
  outfilename_ : String
  BB_dihedrals_ : List DihedralScanType
  ResCheck_ : List ResidueCheckType
deriving DecidableEq, Repr

/-- The state the constructor leaves: the member initialisers, empty lists. -/
def Action_DihedralScan.new : Action_DihedralScan :=
  { mode_ := ModeType.RANDOM
    check_for_clashes_ := false
    outframe_ := 0
    interval_ := 60
    max_rotations_ := 0
    max_factor_ := 2
    cutoff_ := 64 / 100
    rescutoff_ := 100
    backtrack_ := 5
    increment_ := 1
    max_increment_ := 360
    outfilename_ := ""
    BB_dihedrals_ := []
    ResCheck_ := [] }

/-! ## GetBondedAtomIdx, VisitAtom -/

/-- The function `GetBondedAtomIdx`: the first atom in the bond list of `atom` whose name is
`nameIn`; `none` stands for the returned `-1`. -/
def GetBondedAtomIdx (topIn : Topology) (atom : Nat) (nameIn : String) : Option Nat :=
  (topIn.bonds atom).find? (fun bndatm => topIn.Name bndatm == nameIn)

/-- The function `VisitAtom`: return at once when `atm` is marked, otherwise mark it and
visit each atom bonded to it, in bond-list order. The first argument bounds
the depth of the recursion. -/
def VisitAtom (topIn : Topology) : Nat → Nat → List Bool → Option (List Bool)
  | 0, _, _ => none
  | fuel + 1, atm, Visited =>
    if Visited.getD atm false then some Visited
    else
      (topIn.bonds atm).foldlM (fun V bondedatom => VisitAtom topIn fuel bondedatom V)
        (Visited.set atm true)

/-! ## Setup -/

/-- The marks of `Visited` when the loop over the bonds of `atom2` in `Setup`
is done: all `'F'`, then `atom` marked, then `VisitAtom` on every atom bonded
to `atom2` other than `atom`. -/
def visitAroundBond (currentParm : Topology) (atom atom2 : Nat) : Option (List Bool) :=
  (currentParm.bonds atom2).foldlM
    (fun V bndatm =>
      if bndatm ≠ atom then VisitAtom currentParm (currentParm.Natom + 1) bndatm V else some V)
    ((List.replicate currentParm.Natom false).set atom true)

/-- The descriptor `dst` that `Setup` pushes for the bond `atom`-`atom2`, given
the marks `Visited` left by the traversal. -/
def makeDihedral (currentParm : Topology) (interval_ : ℚ) (atom atom2 : Nat)
    (Visited : List Bool) : DihedralScanType :=
  let a1res := currentParm.ResNum atom
  let a1res_start := currentParm.ResFirstAtom a1res
  let a1res_stop := currentParm.ResLastAtom a1res
  { Rmask := (List.range Visited.length).filter (fun maskatom => Visited.getD maskatom false)
    checkAtoms :=
      (List.range Visited.length).filter
        (fun maskatom => !Visited.getD maskatom false
          && decide (a1res_start ≤ maskatom) && decide (maskatom < a1res_stop))
      ++ [atom2]
    atom1 := atom
    atom2 := atom2
    resnum := currentParm.ResNum atom2
    currentVal := 0
    interval := interval_
    maxVal := if 0 ≤ 360 / interval_ then ⌊360 / interval_⌋ else ⌈360 / interval_⌉ }

/-- The partner `atom2` that `Setup` looks up for `atom`: the bonded `"CA  "`
of an `"N   "`, the bonded `"C   "` of a `"CA  "`, none for other names. -/
def partnerAtom (currentParm : Topology) (atom : Nat) : Option Nat :=
  if currentParm.Name atom = "N   " then GetBondedAtomIdx currentParm atom "CA  "
  else if currentParm.Name atom = "CA  " then GetBondedAtomIdx currentParm atom "C   "
  else none

/-- The body of the loop over the atoms in `Setup`, from atom index `atom` on
(`todo` is the list of the atom indices still to do): the descriptors pushed
to `BB_dihedrals_`, in order. -/
def setupDihedrals (currentParm : Topology) (Mask1_ : List Bool) (interval_ : ℚ) :
    List Nat → Option (List DihedralScanType)
  | [] => some []
  | atom :: todo =>
    if Mask1_.getD atom false then
      match partnerAtom currentParm atom with
      | some atom2 =>
        if Mask1_.getD atom2 false then
          match visitAroundBond currentParm atom atom2 with
          | none => none
          | some Visited =>
            (setupDihedrals currentParm Mask1_ interval_ todo).map
              (fun rest => makeDihedral currentParm interval_ atom atom2 Visited :: rest)
        else setupDihedrals currentParm Mask1_ interval_ todo
      | none => setupDihedrals currentParm Mask1_ interval_ todo
    else setupDihedrals currentParm Mask1_ interval_ todo

/-- The records pushed to `ResCheck_` by the loop over the residues. -/
def residueChecks (currentParm : Topology) : List ResidueCheckType :=
  (List.range currentParm.finalSoluteRes).map (fun res =>
    { resnum := res
      start := currentParm.ResFirstAtom res
      stop := currentParm.ResLastAtom res
      checkatom := currentParm.ResFirstAtom res })

/-- The value that the result `x` of an `int` calculation has in the 32-bit
`int` of the program: `x` reduced modulo `2^32` into the range from `-2^31` to
`2^31 - 1`. -/
def wrapInt32 (x : Int) : Int := (x + 2147483648) % 4294967296 - 2147483648

/-- The function `Action_DihedralScan::Setup`. The collaborators are arguments: `charMask`
is the character mask that `SetupCharMask` builds for `Mask1_` (`none` when it
fails), `checkStructureOk` tells whether `checkStructure_.Setup` succeeds.
The member `max_rotations_` is an `int`: both the conversion
`(int) BB_dihedrals_.size()` and the product `max_rotations_ *= max_factor_`
are reduced to 32 bits. The result is `none` only when a traversal runs out of
fuel. -/
def Setup (A : Action_DihedralScan) (currentParm : Topology) (charMask : Option (List Bool))
    (checkStructureOk : Bool) : Option (RetType × Action_DihedralScan) :=
  match charMask with
  | none => some (RetType.ERR, A)
  | some Mask1_ =>
    if (List.range currentParm.Natom).all (fun atom => !Mask1_.getD atom false) then
      some (RetType.ERR, A)
    else
      match setupDihedrals currentParm Mask1_ A.interval_ (List.range currentParm.Natom) with
      | none => none
      | some added =>
        let A1 := { A with BB_dihedrals_ := A.BB_dihedrals_ ++ added }
        if !checkStructureOk then some (RetType.ERR, A1)
        else
          let A2 := { A1 with
            max_rotations_ :=
              wrapInt32 (wrapInt32 (A1.BB_dihedrals_.length : Int) * A1.max_factor_) }
          let A3 :=
            if A2.check_for_clashes_ then
              { A2 with ResCheck_ := A2.ResCheck_ ++ residueChecks currentParm }
            else A2
          some (RetType.OK, A3)

/-! ## Notions used to state what the traversal and Setup guarantee -/

/-- The number of atoms not yet marked in `Visited`. -/
def unvisited (Visited : List Bool) : Nat := Visited.count false

/-- What a completed traversal that takes the marks `V` to the marks `V'`
guarantees: no mark is added or removed from the vector's length, marks are
kept, and every newly marked atom has all its (in-range) bonded atoms marked. -/
structure VisitPost (top : Topology) (V V' : List Bool) : Prop where
  length_eq : V'.length = V.length
  mono : ∀ i, V.getD i false = true → V'.getD i false = true
  closed : ∀ x, V'.getD x false = true → V.getD x false = false →
    ∀ b ∈ top.bonds x, b < V.length → V'.getD b false = true

/-- How a descriptor pushed by the loop over the atoms came about. -/
def BuiltFrom (top : Topology) (Mask1_ : List Bool) (iv : ℚ) (d : DihedralScanType) : Prop :=
  ∃ atom atom2 V, atom < top.Natom ∧ Mask1_.getD atom false = true ∧
    partnerAtom top atom = some atom2 ∧ Mask1_.getD atom2 false = true ∧
    visitAroundBond top atom atom2 = some V ∧ d = makeDihedral top iv atom atom2 V

/-! ## Examples of topologies -/

/-- A tripeptide-like chain fragment `N - CA - C` in one residue. -/
def topNCaC : Topology :=
  { atoms := [⟨"N   ", 0, [1]⟩, ⟨"CA  ", 0, [0, 2]⟩, ⟨"C   ", 0, [1]⟩]
    residues := [(0, 3)]
    finalSoluteRes := 1 }

/-- Two bonded atoms `N - CA` and nothing else. -/
def topNCa : Topology :=
  { atoms := [⟨"N   ", 0, [1]⟩, ⟨"CA  ", 0, [0]⟩]
    residues := [(0, 2)]
    finalSoluteRes := 1 }

/-! ## Init -/

/-- The values the `ArgList` accessors and the other collaborators hand to
`Init` (their classes are not among the sources): which mode keywords are
present, the value after the mode keyword, the keyword values (`none` when the
keyword is absent, so that the default applies), and whether the output
topology is found, the data set is added, the output trajectory is set up and
the structure check is initialised. -/
structure InitArgs where
  hasRandom : Bool
  hasInterval : Bool
  hasImpose : Bool
  nextDouble : Option ℚ
  outtraj : String
  outtopFound : Bool
  hasCheck : Bool
  cutoff : Option ℚ
  rescutoff : Option ℚ
  backtrack : Option Int
  increment : Option Int
  maxfactor : Option Int
  dataSetAdded : Bool
  trajSetupOk : Bool
  checkStructureInitOk : Bool

/-- The block `if (mode_ == RANDOM) { ... }` of `Init`: the keywords of the
random mode are read and checked and `max_increment_` is calculated; `SMALL`
is the constant of `Constants.h` (not among the sources). -/
def initRandom (SMALL : ℚ) (A : Action_DihedralScan) (args : InitArgs) :
    RetType × Action_DihedralScan :=
  let A4 := { A with
    check_for_clashes_ := args.hasCheck
    cutoff_ := args.cutoff.getD (8 / 10)
    rescutoff_ := args.rescutoff.getD 10
    backtrack_ := args.backtrack.getD 4
    increment_ := args.increment.getD 1
    max_factor_ := args.maxfactor.getD 2 }
  if A4.cutoff_ < SMALL then (RetType.ERR, A4)
  else if A4.rescutoff_ < SMALL then (RetType.ERR, A4)
  else if A4.backtrack_ < 0 then (RetType.ERR, A4)
  else if A4.increment_ < 1 ∨ Int.tmod 360 A4.increment_ ≠ 0 then (RetType.ERR, A4)
  else (RetType.OK, { A4 with max_increment_ := Int.tdiv 360 A4.increment_ })

/-- The part of `Init` after the mode blocks: the data set, the `switch` on
the mode, the output trajectory, the squaring of the cutoffs, `++backtrack_`
and the initialisation of the structure check. -/
def initFinish (A5 : Action_DihedralScan) (args : InitArgs) : RetType × Action_DihedralScan :=
  if args.dataSetAdded = false then (RetType.ERR, A5)
  else if A5.mode_ = ModeType.IMPOSE then (RetType.ERR, A5)
  else if A5.outfilename_ ≠ "" ∧ args.trajSetupOk = false then (RetType.ERR, A5)
  else
    let A6 := if A5.outfilename_ ≠ "" then { A5 with outframe_ := 0 } else A5
    let A7 := { A6 with
      cutoff_ := A6.cutoff_ * A6.cutoff_
      rescutoff_ := A6.rescutoff_ * A6.rescutoff_
      backtrack_ := A6.backtrack_ + 1 }
    if args.checkStructureInitOk = false then (RetType.ERR, A7)
    else (RetType.OK, A7)

/-- The mode that the keywords of `Init` select; without a mode keyword the
mode stays. -/
def initMode (A : Action_DihedralScan) (args : InitArgs) : ModeType :=
  if args.hasRandom then ModeType.RANDOM
  else if args.hasInterval then ModeType.INTERVAL
  else if args.hasImpose then ModeType.RANDOM
  else A.mode_

/-- The function `Action_DihedralScan::Init`. The result is the return value and the
members as they are at the return. -/
def Init (SMALL : ℚ) (A : Action_DihedralScan) (args : InitArgs) :
    RetType × Action_DihedralScan :=
  let A1 := { A with mode_ := initMode A args }
  let A2 := if A1.mode_ ≠ ModeType.RANDOM then
    { A1 with interval_ := args.nextDouble.getD 60 } else A1
  let A3 := if A2.mode_ = ModeType.INTERVAL then
    { A2 with outfilename_ := args.outtraj } else A2
  if A3.mode_ = ModeType.INTERVAL ∧ A3.outfilename_ ≠ "" ∧ args.outtopFound = false then
    (RetType.ERR, A3)
  else if A3.mode_ = ModeType.RANDOM then
    match initRandom SMALL A3 args with
    | (RetType.ERR, A4) => (RetType.ERR, A4)
    | (RetType.OK, A5) => initFinish A5 args
  else initFinish A3 args

/-- The members when the scans run: `Setup` writes only `BB_dihedrals_`,
`max_rotations_` and `ResCheck_` and keeps the others as `Init` left them. -/
def afterSetup (A : Action_DihedralScan) (dihs : List DihedralScanType) (max_rot : Int)
    (rc : List ResidueCheckType) : Action_DihedralScan :=
  { A with BB_dihedrals_ := dihs, max_rotations_ := max_rot, ResCheck_ := rc }

/-! ## RandomizeAngles -/

/-- What `RandomizeAngles` does to its collaborators, in order: `rotate i θ`
is a call `currentFrame.Rotate(rotationMatrix, (*dih).Rmask)` with `dih` at
list position `i` and the rotation matrix of `θ` degrees; `check i r` is a call
`CheckResidue(currentFrame, *dih, next_resnum, &clash)` with `dih` at list
position `i` and `next_resnum = r`. -/
inductive ScanEvent where
  | rotate (dih : Int) (theta_in_degrees : Int)
  | check (dih : Int) (next_resnum : Int)
deriving DecidableEq, Repr

/-- The local variables of `RandomizeAngles` that live across the dihedrals:
the two iterators (as list positions) and the counter, together with the
number of calls made so far to `RN_.rn_gen` and to `CheckResidue`, and the
calls made so far to the frame and to `CheckResidue`. -/
structure ScanState where
  dih : Int
  next_dih : Int
  number_of_rotations : Int
  draws : Nat
  checks : Nat
  trace : List ScanEvent
deriving DecidableEq, Repr

/-- Why the loop over the dihedrals stopped: `dih` reached
`BB_dihedrals_.end()`, the safety valve on `number_of_rotations` fired, or an
iterator was dereferenced outside the list. -/
inductive Outcome where
  | completed
  | aborted
  | outOfBounds
deriving DecidableEq, Repr

/-- How the `while (rotate_dihedral)` loop was left: by the `break` without
clash check or by its condition after `checkresidue == 0` (`accepted`), by the
`break` of `checkresidue == -1` (`unresolvable`), or by the `break` of
`loop_count == max_increment_` (`exhausted`). -/
inductive LoopExit where
  | accepted
  | unresolvable
  | exhausted
deriving DecidableEq, Repr

/-- The value `*it` of an iterator at list position `i`, if there is one. -/
def dihAt (A : Action_DihedralScan) (i : Int) : Option DihedralScanType :=
  if 0 ≤ i then A.BB_dihedrals_.get? i.toNat else none

/-- The conversion `(int)x` of a `double`: truncation toward zero. -/
def truncToInt (x : ℚ) : Int := if 0 ≤ x then ⌊x⌋ else ⌈x⌉

/-- The `while (rotate_dihedral)` loop, entered with the rotation matrix of
`theta_in_degrees` and with `loop_count`; `checkResidue k` is the value
returned by the `k`-th call of `CheckResidue` of the frame. The bookkeeping of
`clash`, `bestClash` and `bestLoop` (only printed) is left out. -/
def rotateLoop (A : Action_DihedralScan) (checkResidue : Nat → Int) (next_resnum : Int) :
    Nat → Int → Int → ScanState → Option (LoopExit × ScanState)
  | 0, _, _, _ => none
  | fuel + 1, theta_in_degrees, loop_count, s =>
    let s1 := { s with trace := s.trace ++ [ScanEvent.rotate s.dih theta_in_degrees] }
    if A.check_for_clashes_ = false then some (LoopExit.accepted, s1)
    else
      let checkresidue := checkResidue s1.checks
      let s2 := { s1 with
        checks := s1.checks + 1
        trace := s1.trace ++ [ScanEvent.check s1.dih next_resnum] }
      if checkresidue ≠ 0 ∧ checkresidue = -1 then
        some (LoopExit.unresolvable,
          { s2 with dih := s2.dih - 1 - 1, next_dih := s2.dih - 1 - 1 + 1 })
      else
        let rotate_dihedral : Bool := decide (checkresidue ≠ 0)
        let theta_in_degrees :=
          if loop_count = 0 ∧ rotate_dihedral = true then A.increment_ else theta_in_degrees
        let loop_count := loop_count + 1
        if loop_count = A.max_increment_ then
          some (LoopExit.exhausted,
            { s2 with
              dih := s2.dih - max A.backtrack_ 0
              next_dih := s2.dih - max A.backtrack_ 0 + 1 })
        else if rotate_dihedral = true then
          rotateLoop A checkResidue next_resnum fuel theta_in_degrees loop_count s2
        else some (LoopExit.accepted, s2)

/-- The value given to `next_resnum` at the head of the loop body: the residue
of `*next_dih` when `next_dih` is not `BB_dihedrals_.end()`, else the residue
of `*dih` minus one; `none` when the iterator read is outside the list. -/
def nextResnum (A : Action_DihedralScan) (dih next_dih : Int) : Option Int :=
  if next_dih ≠ (A.BB_dihedrals_.length : Int) then
    (dihAt A next_dih).map (fun d => (d.resnum : Int))
  else (dihAt A dih).map (fun d => (d.resnum : Int) - 1)

/-- One pass through the body of the loop over the dihedrals and its `dih++`,
on the integer draws `draw k = (int)(RN_.rn_gen()*100000)`: the first
component is `none` when the loop goes on. -/
def visit (A : Action_DihedralScan) (draw : Nat → Int) (checkResidue : Nat → Int)
    (fuel : Nat) (s : ScanState) : Option (Option Outcome × ScanState) :=
  let s1 := { s with number_of_rotations := s.number_of_rotations + 1 }
  match nextResnum A s1.dih s1.next_dih, dihAt A s1.dih with
  | some next_resnum, some _ =>
    let theta_in_degrees := Int.tmod (draw s1.draws) 360 + 1
    let s2 := { s1 with draws := s1.draws + 1 }
    match rotateLoop A checkResidue next_resnum fuel theta_in_degrees 0 s2 with
    | none => none
    | some (_, s3) =>
      let s4 := { s3 with next_dih := s3.next_dih + 1 }
      if s4.number_of_rotations > A.max_rotations_ then some (some Outcome.aborted, s4)
      else some (none, { s4 with dih := s4.dih + 1 })
  | _, _ => some (some Outcome.outOfBounds, s1)

/-- The loop over the dihedrals, from the state `s` on. -/
def scanLoop (A : Action_DihedralScan) (draw : Nat → Int) (checkResidue : Nat → Int) :
    Nat → ScanState → Option (Outcome × ScanState)
  | 0, _ => none
  | fuel + 1, s =>
    if s.dih = (A.BB_dihedrals_.length : Int) then some (Outcome.completed, s)
    else
      match visit A draw checkResidue fuel s with
      | none => none
      | some (some outcome, s') => some (outcome, s')
      | some (none, s') => scanLoop A draw checkResidue fuel s'

/-- The state in which `RandomizeAngles` enters the loop over the dihedrals. -/
def ScanState.init : ScanState :=
  { dih := 0, next_dih := 1, number_of_rotations := 0, draws := 0, checks := 0, trace := [] }

/-- The function `Action_DihedralScan::RandomizeAngles` on one frame: `rn_gen k` is the value
of the `k`-th call of `RN_.rn_gen()` and `checkResidue k` the value returned by
the `k`-th call of `CheckResidue`. The result is `none` when the fuel runs
out. -/
def RandomizeAngles (A : Action_DihedralScan) (rn_gen : Nat → ℚ) (checkResidue : Nat → Int)
    (fuel : Nat) : Option (Outcome × ScanState) :=
  scanLoop A (fun k => truncToInt (rn_gen k * 100000)) checkResidue fuel ScanState.init

/-- The state at the head of the loop body after `n` passes that all went on,
from the state `s`. -/
def visitN (A : Action_DihedralScan) (draw : Nat → Int) (checkResidue : Nat → Int)
    (fuel : Nat) : Nat → ScanState → Option ScanState
  | 0, s => some s
  | n + 1, s =>
    if s.dih = (A.BB_dihedrals_.length : Int) then none
    else
      match visit A draw checkResidue fuel s with
      | some (none, s') => visitN A draw checkResidue fuel n s'
      | _ => none

/-- The states in which `RandomizeAngles` stands at the head of the loop over
the dihedrals: the state at entry, and the state after a pass that went on. -/
inductive Reaches (A : Action_DihedralScan) (draw : Nat → Int) (checkResidue : Nat → Int) :
    ScanState → Prop where
  | init : Reaches A draw checkResidue ScanState.init
  | step (fuel : Nat) (s s' : ScanState) :
      Reaches A draw checkResidue s → s.dih ≠ (A.BB_dihedrals_.length : Int) →
      visit A draw checkResidue fuel s = some (none, s') → Reaches A draw checkResidue s'

/-- What holds at the head of the loop over the dihedrals: the look-ahead
iterator is one position after `dih`, the counter is the number of draws made,
and `dih` is not past `BB_dihedrals_.end()`. -/
def ScanInv (A : Action_DihedralScan) (s : ScanState) : Prop :=
  s.next_dih = s.dih + 1 ∧ s.number_of_rotations = s.draws ∧
    s.dih ≤ (A.BB_dihedrals_.length : Int)

/-- The largest number of rotations in one pass: `max_increment_` with clash
checking, one without. -/
def perVisit (A : Action_DihedralScan) : Nat :=
  if A.check_for_clashes_ = true then A.max_increment_.toNat else 1

/-- The list positions of the calls of `Rotate` in a trace, in order. -/
def rotatedPositions (trace : List ScanEvent) : List Int :=
  trace.filterMap (fun e => match e with
    | ScanEvent.rotate i _ => some i
    | ScanEvent.check _ _ => none)

/-- The number of calls of `Rotate` in a trace. -/
def rotations (trace : List ScanEvent) : Nat :=
  (trace.filter (fun e => match e with
    | ScanEvent.rotate _ _ => true
    | ScanEvent.check _ _ => false)).length

/-- The calls made by `k` passes through the rotation loop that all end in a
clash: a rotation by `theta` and a check, then `k - 1` times a rotation by
`theta'` and a check. -/
def clashTrace (dih next_resnum : Int) : Int → Int → Nat → List ScanEvent
  | _, _, 0 => []
  | theta, theta', k + 1 =>
    ScanEvent.rotate dih theta :: ScanEvent.check dih next_resnum ::
      clashTrace dih next_resnum theta' theta' k

/-! ## Examples of configurations -/

/-- A descriptor with residue number `res`; the atoms play no part in the
scan logic. -/
def dihOfRes (res : Nat) : DihedralScanType :=
  { Rmask := [], checkAtoms := [], atom1 := 0, atom2 := 0, resnum := res
    currentVal := 0, interval := 60, maxVal := 6 }

/-- The arguments `random [check] backtrack b increment inc maxfactor mf`
with the default cutoffs, all collaborators succeeding. -/
def randomArgs (b inc mf : Int) (check : Bool) : InitArgs :=
  { hasRandom := true, hasInterval := false, hasImpose := false, nextDouble := none
    outtraj := "", outtopFound := true, hasCheck := check, cutoff := none, rescutoff := none
    backtrack := some b, increment := some inc, maxfactor := some mf
    dataSetAdded := true, trajSetupOk := true, checkStructureInitOk := true }

/-- The members that `Init` leaves on the arguments `randomArgs b inc mf check`
when it accepts them. -/
def randomInit (b inc mf : Int) (check : Bool) : Action_DihedralScan :=
  { Action_DihedralScan.new with
    check_for_clashes_ := check
    cutoff_ := 8 / 10 * (8 / 10)
    rescutoff_ := 10 * 10
    backtrack_ := b + 1
    increment_ := inc
    max_increment_ := Int.tdiv 360 inc
    max_factor_ := mf }

/-- The members after `Init` on `randomArgs b inc mf check` and `Setup` on a
topology with `n` dihedrals, the `i`-th in residue `i` (the residue index,
which `RandomizeAngles` does not read, is left empty). -/
def randomScan (n : Nat) (b inc mf : Int) (check : Bool) : Action_DihedralScan :=
  afterSetup (randomInit b inc mf check) ((List.range n).map dihOfRes)
    (wrapInt32 (wrapInt32 (n : Int) * mf)) []

/-- The state at the head of the loop over the dihedrals after `n` passes in
which the first check reported no clash, with every draw giving 1 degree and
the `i`-th dihedral in residue `i`. -/
def acceptedSoFar (n : Nat) : ScanState :=
  { dih := n, next_dih := (n : Int) + 1, number_of_rotations := n, draws := n, checks := n
    trace := (List.range n).flatMap (fun i =>
      [ScanEvent.rotate (i : Int) 1, ScanEvent.check (i : Int) ((i : Int) + 1)]) }

/-! ## CheckResidue -/

/-- Modelled from the spec: the `Frame` class (its header is not among the
sources), as far as `CheckResidue` reads it: the position `XYZ(atom)` of every
atom. -/
abbrev Frame := Nat → ℚ × ℚ × ℚ

/-- Modelled from the spec: the routine `DIST2_NoImage` of `DistRoutines.h`
(not among the sources): the squared distance between two positions. -/
def DIST2_NoImage (a b : ℚ × ℚ × ℚ) : ℚ :=
  (a.1 - b.1) ^ 2 + (a.2.1 - b.2.1) ^ 2 + (a.2.2 - b.2.2) ^ 2

/-- The pairs `(atom1, atom2)` that the loops of the check against self run
through, in order: `rstart ≤ atom1 < rstop - 1`, `atom1 < atom2 < rstop`. -/
def selfPairs (rstart rstop : Nat) : List (Nat × Nat) :=
  (List.range' rstart (rstop - 1 - rstart)).flatMap (fun atom1 =>
    (List.range' (atom1 + 1) (rstop - (atom1 + 1))).map (fun atom2 => (atom1, atom2)))

/-- The pairs `(atom1, atom2)` that the loops of the check against another
residue run through, in order: `rstart ≤ atom1 < rstop`,
`rstart2 ≤ atom2 < rstop2`. -/
def crossPairs (rstart rstop rstart2 rstop2 : Nat) : List (Nat × Nat) :=
  (List.range' rstart (rstop - rstart)).flatMap (fun atom1 =>
    (List.range' rstart2 (rstop2 - rstart2)).map (fun atom2 => (atom1, atom2)))

/-- The first pair of the list whose squared distance is below `cutoff_`, if
there is one: the pair at which the loops return. -/
def firstClose (FrameIn : Frame) (cutoff_ : ℚ) (pairs : List (Nat × Nat)) :
    Option (Nat × Nat) :=
  pairs.find? (fun p => decide (DIST2_NoImage (FrameIn p.1) (FrameIn p.2) < cutoff_))

/-- The loop of `CheckResidue` over the residues `res`, from the list of the
residues still to do: the returned value and the value of `*clash` at the
return; `none` when `ResCheck_` is read outside its range. -/
def checkOthers (A : Action_DihedralScan) (FrameIn : Frame) (dih : DihedralScanType)
    (rstart rstop rcheck : Nat) (clash : ℚ) : List Nat → Option (Int × ℚ)
  | [] => some (0, clash)
  | res :: rest =>
    if res = dih.resnum then checkOthers A FrameIn dih rstart rstop rcheck clash rest
    else
      match A.ResCheck_.get? res with
      | none => none
      | some rc2 =>
        if DIST2_NoImage (FrameIn rcheck) (FrameIn rc2.checkatom) < A.rescutoff_ then
          match firstClose FrameIn A.cutoff_ (crossPairs rstart rstop rc2.start rc2.stop) with
          | some (atom1, atom2) =>
            some (if atom1 ∈ dih.checkAtoms then -1 else 1,
              DIST2_NoImage (FrameIn atom1) (FrameIn atom2))
          | none => checkOthers A FrameIn dih rstart rstop rcheck clash rest
        else checkOthers A FrameIn dih rstart rstop rcheck clash rest

/-- The function `Action_DihedralScan::CheckResidue`: the returned value (1, 0
or -1) and the value of `*clash` at the return, `clash` being its value at the
call; `none` when `ResCheck_` is read outside its range. -/
def CheckResidue (A : Action_DihedralScan) (FrameIn : Frame) (dih : DihedralScanType)
    (nextres : Int) (clash : ℚ) : Option (Int × ℚ) :=
  match A.ResCheck_.get? dih.resnum with
  | none => none
  | some rc =>
    match firstClose FrameIn A.cutoff_ (selfPairs rc.start rc.stop) with
    | some (atom1, atom2) => some (1, DIST2_NoImage (FrameIn atom1) (FrameIn atom2))
    | none =>
      checkOthers A FrameIn dih rc.start rc.stop rc.checkatom clash
        (List.range (nextres + 1).toNat)

/-! ## IntervalAngles -/

/-- What `IntervalAngles` does to its collaborators, in order: `rotate d` is a
call `currentFrame.Rotate(rotationMatrix, (*dih).Rmask)` for the descriptor `d`
with the matrix of `d.interval` degrees about the axis `d.atom1 - d.atom2`;
`write n` is a call `outtraj_.WriteFrame(n, ...)`. -/
inductive IntervalEvent where
  | rotate (d : DihedralScanType)
  | write (outframe : Int)
deriving DecidableEq, Repr

/-- The loop `for (rot = 0; rot < maxVal; ++rot)` of `IntervalAngles`, with
`todo` passes left: the calls made, and `outframe_` afterwards. -/
def intervalRotations (d : DihedralScanType) (trajIsOpen : Bool) :
    Nat → Int → List IntervalEvent × Int
  | 0, outframe_ => ([], outframe_)
  | todo + 1, outframe_ =>
    if trajIsOpen then
      let r := intervalRotations d trajIsOpen todo (outframe_ + 1)
      (IntervalEvent.rotate d :: IntervalEvent.write outframe_ :: r.1, r.2)
    else
      let r := intervalRotations d trajIsOpen todo outframe_
      (IntervalEvent.rotate d :: r.1, r.2)

/-- The loop of `IntervalAngles` over the dihedrals. -/
def intervalDihedrals (trajIsOpen : Bool) :
    List DihedralScanType → Int → List IntervalEvent × Int
  | [], outframe_ => ([], outframe_)
  | d :: rest, outframe_ =>
    let r1 := intervalRotations d trajIsOpen d.maxVal.toNat outframe_
    let r2 := intervalDihedrals trajIsOpen rest r1.2
    (r1.1 ++ r2.1, r2.2)

/-- The function `Action_DihedralScan::IntervalAngles`: the calls made, in
order, and the members afterwards (only `outframe_` changes). The value of
`outtraj_.TrajIsOpen()` (the class `Trajout` is not among the sources) is an
argument. -/
def IntervalAngles (A : Action_DihedralScan) (trajIsOpen : Bool) :
    List IntervalEvent × Action_DihedralScan :=
  let first : List IntervalEvent × Int :=
    if A.outfilename_ ≠ "" then ([IntervalEvent.write A.outframe_], A.outframe_ + 1)
    else ([], A.outframe_)
  let r := intervalDihedrals trajIsOpen A.BB_dihedrals_ first.2
  (first.1 ++ r.1, { A with outframe_ := r.2 })

/-- The rotations of `IntervalAngles` in order: for each dihedral of the list,
as many rotations of it as its loop `rot < maxVal` has passes. -/
def intervalPlan (dihs : List DihedralScanType) : List DihedralScanType :=
  dihs.flatMap (fun d => List.replicate d.maxVal.toNat d)

/-- The calls made when each rotation of the list is followed by a call of
`WriteFrame`, the frame indices counting up from `outframe_`. -/
def rotateAndWrite : List DihedralScanType → Int → List IntervalEvent
  | [], _ => []
  | d :: rest, outframe_ =>
    IntervalEvent.rotate d :: IntervalEvent.write outframe_ :: rotateAndWrite rest (outframe_ + 1)

/-- The descriptors of the calls of `Rotate` in a trace, in order. -/
def intervalRotated (trace : List IntervalEvent) : List DihedralScanType :=
  trace.filterMap (fun e => match e with
    | IntervalEvent.rotate d => some d
    | IntervalEvent.write _ => none)

/-- The frame indices of the calls of `WriteFrame` in a trace, in order. -/
def intervalWritten (trace : List IntervalEvent) : List Int :=
  trace.filterMap (fun e => match e with
    | IntervalEvent.rotate _ => none
    | IntervalEvent.write n => some n)

/-- The cumulative rotation angle (the sum of the intervals of the rotations
made so far, starting from `angle`) at each call of `WriteFrame`, in order. -/
def snapshotAngles : ℚ → List IntervalEvent → List ℚ
  | _, [] => []
  | angle, IntervalEvent.rotate d :: rest => snapshotAngles (angle + d.interval) rest
  | angle, IntervalEvent.write _ :: rest => angle :: snapshotAngles angle rest

/-- Two cumulative rotation angles give the same state when they are congruent
modulo 360 degrees. -/
def sameState (a b : ℚ) : Prop := ∃ k : ℤ, a - b = 360 * k

/-! ## Setup as the specification words it -/

/-- The partner of atom `a` in the words of the specification: for an atom
named `"N   "` the first atom in its bond list named `"CA  "`, for an atom
named `"CA  "` the first atom in its bond list named `"C   "`. -/
def specPartner (top : Topology) (a : Nat) : Option Nat :=
  if top.Name a = "N   " then (top.bonds a).find? (fun b => decide (top.Name b = "CA  "))
  else if top.Name a = "CA  " then (top.bonds a).find? (fun b => decide (top.Name b = "C   "))
  else none

/-- The entry of the dihedral list for atom `a` in the words of the
specification: `(a, b, residue of b)` when `a` is selected, its partner `b`
exists and `b` is selected; nothing otherwise. -/
def specEntry (top : Topology) (Mask1_ : List Bool) (a : Nat) : Option (Nat × Nat × Nat) :=
  if Mask1_.getD a false = true then
    match specPartner top a with
    | some b => if Mask1_.getD b false = true then some (a, b, top.ResNum b) else none
    | none => none
  else none

/-- The dihedral list in the words of the specification: the entries of the
atoms of the topology, in ascending order of the atom index. -/
def specDihedrals (top : Topology) (Mask1_ : List Bool) : List (Nat × Nat × Nat) :=
  (List.range top.Natom).filterMap (specEntry top Mask1_)

/-- A bond path from `n` to `x` that does not pass through `avoid`, in the
words of the specification: `n` itself when `n` is not `avoid`, and a path that
goes on from its last atom `y` to an atom `x` in the bond list of `y`, `x` not
being `avoid`. -/
inductive BondPath (top : Topology) (avoid : Nat) : Nat → Nat → Prop where
  | start (n : Nat) : n ≠ avoid → BondPath top avoid n n
  | step (n y x : Nat) :
      BondPath top avoid n y → x ∈ top.bonds y → x ≠ avoid → BondPath top avoid n x

/-- The angles in degrees of the calls of `Rotate` in a trace, in order. -/
def rotationAngles (trace : List ScanEvent) : List Int :=
  trace.filterMap (fun e => match e with
    | ScanEvent.rotate _ theta => some theta
    | ScanEvent.check _ _ => none)

/-- The random rotation angle in degrees for the value `r` of
`RN_.rn_gen()`: `((int)(r*100000) % 360) + 1`. -/
def drawnAngle (r : ℚ) : Int := Int.tmod (truncToInt (r * 100000)) 360 + 1

/-! ## Examples for CheckResidue and IntervalAngles -/

/-- A frame given by the list of the positions of its atoms. -/
def frameOf (xyz : List (ℚ × ℚ × ℚ)) : Frame := fun atom => xyz.getD atom (0, 0, 0)

/-- Members for calls of `CheckResidue`: the squared cutoffs and the residue
index of residues given by their atom ranges, as `Setup` fills it. -/
def checkScan (cutoff2 rescutoff2 : ℚ) (ranges : List (Nat × Nat)) : Action_DihedralScan :=
  { Action_DihedralScan.new with
    check_for_clashes_ := true
    cutoff_ := cutoff2
    rescutoff_ := rescutoff2
    ResCheck_ := (List.range ranges.length).map (fun res =>
      { resnum := res
        start := (ranges.getD res (0, 0)).1
        stop := (ranges.getD res (0, 0)).2
        checkatom := (ranges.getD res (0, 0)).1 }) }

/-- A descriptor of residue `res` with the given `checkAtoms`. -/
def dihCheck (res : Nat) (checkAtoms : List Nat) : DihedralScanType :=
  { Rmask := [], checkAtoms := checkAtoms, atom1 := 0, atom2 := 0, resnum := res
    currentVal := 0, interval := 60, maxVal := 6 }

/-- The descriptor that `Setup` builds for the bond `N - CA` of `topHNCaC`
(atoms 1 and 2), as far as `CheckResidue` reads it. -/
def dihHNCaC : DihedralScanType :=
  { Rmask := [1, 2, 3], checkAtoms := [0, 2], atom1 := 1, atom2 := 2, resnum := 1
    currentVal := 0, interval := 60, maxVal := 6 }

/-- Four atoms `H - N - CA - C`, the first two in residue 0 and the last two
in residue 1. -/
def topHNCaC : Topology :=
  { atoms := [⟨"H   ", 0, [1]⟩, ⟨"N   ", 0, [0, 2]⟩, ⟨"CA  ", 1, [1, 3]⟩, ⟨"C   ", 1, [2]⟩]
    residues := [(0, 2), (2, 4)]
    finalSoluteRes := 2 }

/-- Members for interval mode with the dihedral list `dihs`, the output file
name `out` and `outframe_ = 0`. -/
def intervalScan (dihs : List DihedralScanType) (out : String) : Action_DihedralScan :=
  { Action_DihedralScan.new with
    mode_ := ModeType.INTERVAL
    outfilename_ := out
    BB_dihedrals_ := dihs }

/-- The arguments `dihedralscan <mask> interval <iv> outtraj <out>` with all
the collaborators succeeding. -/
def intervalArgs (iv : ℚ) (out : String) : InitArgs :=
  { hasRandom := false, hasInterval := true, hasImpose := false, nextDouble := some iv
    outtraj := out, outtopFound := true, hasCheck := false, cutoff := none, rescutoff := none
    backtrack := none, increment := none, maxfactor := none
    dataSetAdded := true, trajSetupOk := true, checkStructureInitOk := true }

/-- The members that `Init` leaves on the arguments `intervalArgs iv out`. -/
def intervalInit (iv : ℚ) (out : String) : Action_DihedralScan :=
  { Action_DihedralScan.new with
    mode_ := ModeType.INTERVAL
    interval_ := iv
    outfilename_ := out
    outframe_ := 0
    cutoff_ := 64 / 100 * (64 / 100)
    rescutoff_ := 100 * 100
    backtrack_ := 5 + 1 }

/-- A descriptor with step `iv` degrees and `m` steps. -/
def dihInterval (iv : ℚ) (m : Int) : DihedralScanType :=
  { Rmask := [1, 2], checkAtoms := [1], atom1 := 0, atom2 := 1, resnum := 0
    currentVal := 0, interval := iv, maxVal := m }
/-! ## Marks -/

theorem getD_set_self (V : List Bool) (i : Nat) (h : i < V.length) :
    (V.set i true).getD i false = true := by
  induction V generalizing i with
  | nil => simp at h
  | cons a V ih =>
    cases i with
    | zero => simp
    | succ i => simpa using ih i (by simpa using h)

theorem getD_set_mono (V : List Bool) (i j : Nat) (h : V.getD j false = true) :
    (V.set i true).getD j false = true := by
  induction V generalizing i j with
  | nil => simp at h
  | cons a V ih =>
    cases i with
    | zero => cases j with
      | zero => simp
      | succ j => simpa using h
    | succ i => cases j with
      | zero => simpa using h
      | succ j => simpa using ih i j (by simpa using h)

theorem getD_set_new (V : List Bool) (i j : Nat) (h : (V.set i true).getD j false = true)
    (h0 : V.getD j false = false) : j = i := by
  induction V generalizing i j with
  | nil => simp at h
  | cons a V ih =>
    cases i with
    | zero => cases j with
      | zero => rfl
      | succ j => simp at h h0; simp [h0] at h
    | succ i => cases j with
      | zero => simp at h h0; simp [h0] at h
      | succ j =>
        have := ih i j (by simpa using h) (by simpa using h0)
        omega

theorem unvisited_set_lt (V : List Bool) (i : Nat) (h : i < V.length)
    (h0 : V.getD i false = false) : unvisited (V.set i true) < unvisited V := by
  induction V generalizing i with
  | nil => simp at h
  | cons a V ih =>
    cases i with
    | zero =>
      simp at h0
      subst h0
      simp [unvisited, List.count_cons]
    | succ i =>
      have := ih i (by simpa using h) (by simpa using h0)
      simp only [unvisited, List.set_cons_succ, List.count_cons] at this ⊢
      omega

theorem unvisited_mono (V V' : List Bool) (hl : V'.length = V.length)
    (hm : ∀ i, V.getD i false = true → V'.getD i false = true) :
    unvisited V' ≤ unvisited V := by
  induction V generalizing V' with
  | nil =>
    cases V' with
    | nil => simp
    | cons b V' => simp at hl
  | cons a V ih =>
    cases V' with
    | nil => simp at hl
    | cons b V' =>
      have h1 := ih V' (by simpa using hl) (fun i hi => by simpa using hm (i + 1) (by simpa using hi))
      have h2 := hm 0
      simp only [List.getD_cons_zero] at h2
      simp only [unvisited, List.count_cons] at h1 ⊢
      cases a <;> cases b <;> simp at h2 ⊢ <;> omega

theorem unvisited_le_length (V : List Bool) : unvisited V ≤ V.length := by
  simp [unvisited, List.count_le_length]

theorem VisitPost.refl (top : Topology) (V : List Bool) : VisitPost top V V :=
  ⟨rfl, fun _ h => h, fun x h h0 => by rw [h] at h0; exact absurd h0 (by decide)⟩

theorem VisitPost.trans {top : Topology} {V V1 V2 : List Bool}
    (h1 : VisitPost top V V1) (h2 : VisitPost top V1 V2) : VisitPost top V V2 := by
  refine ⟨h2.length_eq.trans h1.length_eq, fun i hi => h2.mono i (h1.mono i hi), ?_⟩
  intro x hx hx0 b hb hlt
  by_cases hx1 : V1.getD x false = true
  · exact h2.mono b (h1.closed x hx1 hx0 b hb hlt)
  · exact h2.closed x hx (by simpa using hx1) b hb (by rw [h1.length_eq]; exact hlt)

theorem VisitPost.unvisited_le {top : Topology} {V V' : List Bool} (h : VisitPost top V V') :
    unvisited V' ≤ unvisited V :=
  unvisited_mono V V' h.length_eq h.mono

/-- A fold of a total, mark-keeping visit over a bond list is total; it marks
every in-range atom of the list. -/
theorem foldlM_visit_total (top : Topology) (fuel : Nat)
    (f : List Bool → Nat → Option (List Bool)) (skip : Nat → Prop)
    (hf : ∀ b V, V.length = top.Natom → unvisited V < fuel →
      ∃ V', f V b = some V' ∧ VisitPost top V V' ∧ (¬ skip b → b < V.length → V'.getD b false = true)) :
    ∀ (bs : List Nat) (V : List Bool), V.length = top.Natom → unvisited V < fuel →
      ∃ V', bs.foldlM f V = some V' ∧ VisitPost top V V' ∧
        ∀ b ∈ bs, ¬ skip b → b < V.length → V'.getD b false = true := by
  intro bs
  induction bs with
  | nil =>
    intro V _ _
    exact ⟨V, rfl, VisitPost.refl top V, by simp⟩
  | cons b bs ih =>
    intro V hl hu
    obtain ⟨V1, e1, p1, m1⟩ := hf b V hl hu
    obtain ⟨V2, e2, p2, m2⟩ := ih V1 (p1.length_eq.trans hl)
      (lt_of_le_of_lt p1.unvisited_le hu)
    refine ⟨V2, ?_, p1.trans p2, ?_⟩
    · simp [List.foldlM, e1, e2]
    · intro c hc hs hlt
      rcases List.mem_cons.mp hc with rfl | hc
      · exact p2.mono c (m1 hs hlt)
      · exact m2 c hc hs (by rw [p1.length_eq]; exact hlt)

/-- With more fuel than unmarked atoms `VisitAtom` returns; the atom it is
called on ends up marked. -/
theorem VisitAtom_total (top : Topology) :
    ∀ (fuel atm : Nat) (V : List Bool), V.length = top.Natom → unvisited V < fuel →
      ∃ V', VisitAtom top fuel atm V = some V' ∧ VisitPost top V V' ∧
        (¬ False → atm < V.length → V'.getD atm false = true) := by
  intro fuel
  induction fuel with
  | zero => intro atm V _ h; omega
  | succ fuel ih =>
    intro atm V hl hu
    by_cases hv : V.getD atm false = true
    · exact ⟨V, by rw [VisitAtom, if_pos hv], VisitPost.refl top V, fun _ _ => hv⟩
    · have hv0 : V.getD atm false = false := by simpa using hv
      by_cases hlt : atm < V.length
      · have hu1 : unvisited (V.set atm true) < fuel := by
          have := unvisited_set_lt V atm hlt hv0
          omega
        obtain ⟨V', e, p, m⟩ := foldlM_visit_total top fuel
          (fun V b => VisitAtom top fuel b V) (fun _ => False) (fun b W hW hWu => ih b W hW hWu)
          (top.bonds atm) (V.set atm true) (by simpa using hl) hu1
        refine ⟨V', by rw [VisitAtom, if_neg hv, e], ⟨?_, ?_, ?_⟩, ?_⟩
        · simpa using p.length_eq
        · intro i hi
          exact p.mono i (getD_set_mono V atm i hi)
        · intro x hx hx0 b hb hblt
          by_cases hx1 : (V.set atm true).getD x false = true
          · have hxa : x = atm := getD_set_new V atm x hx1 hx0
            subst hxa
            exact m b hb (by simp) (by simpa using hblt)
          · exact p.closed x hx (by simpa using hx1) b hb (by simpa using hblt)
        · intro _ _
          exact p.mono atm (getD_set_self V atm hlt)
      · have hb : top.bonds atm = [] := by
          have : top.atoms.length ≤ atm := by
            have := hl; unfold Topology.Natom at this; omega
          unfold Topology.bonds
          rw [List.getD_eq_default _ _ this]
          rfl
        have hs : V.set atm true = V := by
          apply List.set_eq_of_length_le; omega
        exact ⟨V, by rw [VisitAtom, if_neg hv, hb, hs]; rfl, VisitPost.refl top V, fun _ h => absurd h hlt⟩

/-! ## What Setup builds -/

/-- The marks before the traversal: only `atom` is marked. -/
theorem getD_initial_marks (n atom x : Nat)
    (h : ((List.replicate n false).set atom true).getD x false = true) : x = atom :=
  getD_set_new _ atom x h (by
    rw [List.getD_eq_getElem?_getD]
    by_cases hx : x < n
    · simp [List.getElem?_replicate, hx]
    · simp [List.getElem?_replicate, hx])

/-- The traversal around a bond always returns (the fuel `Natom + 1` suffices);
the vector keeps its size, `atom` stays marked, every atom bonded to `atom2`
other than `atom` is marked, and every marked atom other than `atom` has all
its bonded atoms marked. -/
theorem visitAroundBond_total (top : Topology) (atom atom2 : Nat) :
    ∃ V, visitAroundBond top atom atom2 = some V ∧ V.length = top.Natom ∧
      (atom < top.Natom → V.getD atom false = true) ∧
      (∀ b ∈ top.bonds atom2, b ≠ atom → b < top.Natom → V.getD b false = true) ∧
      (∀ x, V.getD x false = true → x ≠ atom →
        ∀ b ∈ top.bonds x, b < top.Natom → V.getD b false = true) ∧
      ((∀ b ∈ top.bonds atom2, b = atom) →
        V = (List.replicate top.Natom false).set atom true) := by
  have hl0 : ((List.replicate top.Natom false).set atom true).length = top.Natom := by simp
  have hu0 : unvisited ((List.replicate top.Natom false).set atom true) < top.Natom + 1 := by
    have := unvisited_le_length ((List.replicate top.Natom false).set atom true)
    omega
  obtain ⟨V, e, p, m⟩ := foldlM_visit_total top (top.Natom + 1)
    (fun V bndatm =>
      if bndatm ≠ atom then VisitAtom top (top.Natom + 1) bndatm V else some V)
    (fun b => b = atom)
    (fun b W hW hWu => by
      by_cases hb : b = atom
      · exact ⟨W, by simp [hb], VisitPost.refl top W, fun h => absurd hb h⟩
      · obtain ⟨W', e', p', m'⟩ := VisitAtom_total top (top.Natom + 1) b W hW hWu
        exact ⟨W', by simp [hb, e'], p', fun _ h => m' (by simp) h⟩)
    (top.bonds atom2) _ hl0 hu0
  refine ⟨V, e, p.length_eq.trans hl0, ?_, ?_, ?_, ?_⟩
  · intro h
    exact p.mono atom (getD_set_self _ atom (by simpa using h))
  · intro b hb hne hlt
    exact m b hb hne (by rw [hl0]; exact hlt)
  · intro x hx hne b hb hlt
    refine p.closed x hx ?_ b hb (by rw [hl0]; exact hlt)
    by_contra hc
    exact hne (getD_initial_marks _ _ _ (by simpa using hc))
  · intro hall
    have e2 : visitAroundBond top atom atom2 = some V := e
    unfold visitAroundBond at e2
    have key : ∀ (bs : List Nat) (W : List Bool), (∀ b ∈ bs, b = atom) →
        bs.foldlM (fun V bndatm =>
          if bndatm ≠ atom then VisitAtom top (top.Natom + 1) bndatm V else some V) W
          = some W := by
      intro bs
      induction bs with
      | nil => intro W _; rfl
      | cons b bs ih =>
        intro W hb
        have hb0 : b = atom := hb b (by simp)
        simp only [List.foldlM, hb0, ne_eq, not_true_eq_false, if_false]
        exact ih W (fun c hc => hb c (by simp [hc]))
    rw [key _ _ hall] at e2
    exact (Option.some.inj e2).symm

/-- Membership in the `Rmask` that `makeDihedral` builds. -/
theorem mem_Rmask_makeDihedral (top : Topology) (iv : ℚ) (atom atom2 : Nat) (V : List Bool)
    (x : Nat) : x ∈ (makeDihedral top iv atom atom2 V).Rmask ↔ V.getD x false = true := by
  simp only [makeDihedral, List.mem_filter, List.mem_range]
  constructor
  · exact fun h => h.2
  · intro h
    refine ⟨?_, h⟩
    by_contra hx
    rw [List.getD_eq_default _ _ (by omega)] at h
    exact absurd h (by decide)

/-- The partner found for `atom` is bonded to it and has another name, so it
is another atom. -/
theorem partnerAtom_spec (top : Topology) (atom atom2 : Nat)
    (h : partnerAtom top atom = some atom2) : atom2 ∈ top.bonds atom ∧ atom2 ≠ atom := by
  unfold partnerAtom GetBondedAtomIdx at h
  split at h
  · rename_i hn
    refine ⟨List.mem_of_find?_eq_some h, ?_⟩
    have := List.find?_some h
    rintro rfl
    rw [hn] at this
    exact absurd this (by decide)
  · split at h
    · rename_i hn
      refine ⟨List.mem_of_find?_eq_some h, ?_⟩
      have := List.find?_some h
      rintro rfl
      rw [hn] at this
      exact absurd this (by decide)
    · exact absurd h (by simp)

/-- The loop over the atoms always returns, and each descriptor it pushes is
built from a selected atom, its selected partner and the marks of the
traversal around their bond. -/
theorem setupDihedrals_total (top : Topology) (Mask1_ : List Bool) (iv : ℚ) :
    ∀ todo : List Nat, (∀ a ∈ todo, a < top.Natom) →
      ∃ ds, setupDihedrals top Mask1_ iv todo = some ds ∧
        ∀ d ∈ ds, BuiltFrom top Mask1_ iv d := by
  intro todo
  induction todo with
  | nil => intro _; exact ⟨[], rfl, by simp⟩
  | cons atom todo ih =>
    intro hlt
    obtain ⟨ds, e, hds⟩ := ih (fun a ha => hlt a (by simp [ha]))
    unfold setupDihedrals
    by_cases hm : Mask1_.getD atom false = true
    · rw [if_pos hm]
      cases hp : partnerAtom top atom with
      | none => exact ⟨ds, e, hds⟩
      | some atom2 =>
        by_cases hm2 : Mask1_.getD atom2 false = true
        · obtain ⟨V, eV, _⟩ := visitAroundBond_total top atom atom2
          refine ⟨makeDihedral top iv atom atom2 V :: ds, ?_, ?_⟩
          · simp only [hm2, if_true, eV, e, Option.map_some']
          · intro d hd
            rcases List.mem_cons.mp hd with rfl | hd
            · exact ⟨atom, atom2, V, hlt atom (by simp), hm, hp, hm2, eV, rfl⟩
            · exact hds d hd
        · simp only [hm2]
          exact ⟨ds, e, hds⟩
    · rw [if_neg hm]
      exact ⟨ds, e, hds⟩

/-- The function `Setup` always returns, and the dihedral list it leaves is the list it
found followed by the descriptors it pushed, each built as `BuiltFrom` says. -/
theorem Setup_total (A : Action_DihedralScan) (top : Topology) (charMask : Option (List Bool))
    (checkStructureOk : Bool) :
    ∃ r A' added, Setup A top charMask checkStructureOk = some (r, A') ∧
      A'.BB_dihedrals_ = A.BB_dihedrals_ ++ added ∧
      ∀ d ∈ added, ∃ Mask1_, charMask = some Mask1_ ∧ BuiltFrom top Mask1_ A.interval_ d := by
  cases charMask with
  | none => exact ⟨RetType.ERR, A, [], rfl, by simp, by simp⟩
  | some Mask1_ =>
    obtain ⟨ds, e, hds⟩ := setupDihedrals_total top Mask1_ A.interval_
      (List.range top.Natom) (fun a ha => List.mem_range.mp ha)
    unfold Setup
    simp only [e]
    split
    · exact ⟨RetType.ERR, A, [], rfl, by simp, by simp⟩
    · split
      · exact ⟨_, _, ds, rfl, rfl, fun d hd => ⟨Mask1_, rfl, hds d hd⟩⟩
      · refine ⟨_, _, ds, rfl, ?_, fun d hd => ⟨Mask1_, rfl, hds d hd⟩⟩
        split <;> rfl

/-! ## The masks of the descriptors (C1, C2, C3) -/

/-- The axis atom `atom1` is in the `Rmask` of every descriptor that `Setup`
pushes, whatever the topology and the mask: the mark that keeps the traversal
from crossing `atom1` is read back as membership of `Rmask`. -/
theorem Setup_atom1_mem_Rmask (A : Action_DihedralScan) (top : Topology)
    (charMask : Option (List Bool)) (checkStructureOk : Bool) :
    ∃ r A' added, Setup A top charMask checkStructureOk = some (r, A') ∧
      A'.BB_dihedrals_ = A.BB_dihedrals_ ++ added ∧ ∀ d ∈ added, d.atom1 ∈ d.Rmask := by
  obtain ⟨r, A', added, e, hBB, hd⟩ := Setup_total A top charMask checkStructureOk
  refine ⟨r, A', added, e, hBB, ?_⟩
  intro d hmem
  obtain ⟨Mask1_, _, atom, atom2, V, hlt, _, _, _, eV, rfl⟩ := hd d hmem
  obtain ⟨V', eV', _, hatom, _⟩ := visitAroundBond_total top atom atom2
  rw [eV] at eV'
  cases eV'
  rw [mem_Rmask_makeDihedral]
  exact hatom hlt

/-- C1, on the chain `N - CA - C` with all three atoms selected: `Setup`
succeeds and pushes the descriptors of the bonds `N - CA` (atoms 0, 1) and
`CA - C` (atoms 1, 2); the `Rmask` of the first is `[0, 1, 2]` and that of the
second is `[1]`, so each contains its own `atom1`. -/
theorem C1_atom1_in_Rmask_on_NCaC :
    (Setup Action_DihedralScan.new topNCaC (some [true, true, true]) true).map
        (fun r => (r.1, r.2.BB_dihedrals_.map (fun d => (d.atom1, d.atom2, d.Rmask))))
      = some (RetType.OK, [(0, 1, [0, 1, 2]), (1, 2, [1])]) ∧
    (0 ∈ [0, 1, 2] ∧ 1 ∈ [1]) := by
  decide

/-- C2 fails on the chain `N - CA - C`: the descriptor of the bond `N - CA`
has atom 1 (its `atom2`) both in `Rmask` and in `checkAtoms`. -/
theorem C2_counterexample_NCaC :
    ∃ r A', Setup Action_DihedralScan.new topNCaC (some [true, true, true]) true = some (r, A') ∧
      ∃ d ∈ A'.BB_dihedrals_, ∃ x, x ∈ d.Rmask ∧ x ∈ d.checkAtoms := by
  refine ⟨RetType.OK, _, rfl, ?_⟩
  decide

/-- C2 as amended: for every topology and mask, `Setup` returns and every
descriptor it pushes has `checkAtoms = cs ++ [atom2]` where no atom of `cs` is
in `Rmask`; hence an atom that is both in `Rmask` and in `checkAtoms` can only
be `atom2`. -/
theorem C2_Rmask_checkAtoms_share_only_atom2 (A : Action_DihedralScan) (top : Topology)
    (charMask : Option (List Bool)) (checkStructureOk : Bool) :
    ∃ r A' added, Setup A top charMask checkStructureOk = some (r, A') ∧
      A'.BB_dihedrals_ = A.BB_dihedrals_ ++ added ∧
      ∀ d ∈ added,
        (∃ cs, d.checkAtoms = cs ++ [d.atom2] ∧ ∀ x ∈ cs, x ∉ d.Rmask) ∧
        (∀ x, x ∈ d.Rmask → x ∈ d.checkAtoms → x = d.atom2) := by
  obtain ⟨r, A', added, e, hBB, hd⟩ := Setup_total A top charMask checkStructureOk
  refine ⟨r, A', added, e, hBB, ?_⟩
  intro d hmem
  obtain ⟨Mask1_, _, atom, atom2, V, _, _, _, _, _, rfl⟩ := hd d hmem
  have hcs : ∀ x ∈ (List.range V.length).filter
      (fun maskatom => !V.getD maskatom false
        && decide (top.ResFirstAtom (top.ResNum atom) ≤ maskatom)
        && decide (maskatom < top.ResLastAtom (top.ResNum atom))),
      x ∉ (makeDihedral top A.interval_ atom atom2 V).Rmask := by
    intro x hx
    rw [mem_Rmask_makeDihedral]
    simp only [List.mem_filter, Bool.and_eq_true, Bool.not_eq_true'] at hx
    rw [hx.2.1.1]
    decide
  refine ⟨⟨_, rfl, hcs⟩, ?_⟩
  intro x hxR hxC
  rcases List.mem_append.mp hxC with h | h
  · exact absurd hxR (hcs x h)
  · simpa [makeDihedral] using h

/-- An instance of the amended C2: the chain `N - CA - C`. -/
theorem C2_Rmask_checkAtoms_share_only_atom2_witness :
    ∃ r A' added,
      Setup Action_DihedralScan.new topNCaC (some [true, true, true]) true = some (r, A') ∧
      A'.BB_dihedrals_ = Action_DihedralScan.new.BB_dihedrals_ ++ added ∧
      ∀ d ∈ added,
        (∃ cs, d.checkAtoms = cs ++ [d.atom2] ∧ ∀ x ∈ cs, x ∉ d.Rmask) ∧
        (∀ x, x ∈ d.Rmask → x ∈ d.checkAtoms → x = d.atom2) :=
  C2_Rmask_checkAtoms_share_only_atom2 Action_DihedralScan.new topNCaC
    (some [true, true, true]) true

/-- C3 fails on the two bonded atoms `N - CA`: `Setup` succeeds and pushes the
descriptor of the bond (atoms 0, 1), whose `Rmask` is `[0]`: `atom2 = 1` is
not in it. -/
theorem C3_counterexample_NCa :
    ∃ r A', Setup Action_DihedralScan.new topNCa (some [true, true]) true = some (r, A') ∧
      ∃ d ∈ A'.BB_dihedrals_, d.atom2 ∉ d.Rmask := by
  refine ⟨RetType.OK, _, rfl, ?_⟩
  decide

/-- C3 as amended: for every topology and mask, `Setup` returns and every
descriptor it pushes has `atom2` in `Rmask` when some atom `n` other than
`atom1` is bonded to `atom2` and lists `atom2` in its own bond list, and has
`atom2` outside `Rmask` when no atom other than `atom1` is bonded to `atom2`. -/
theorem C3_atom2_mem_Rmask_iff_other_neighbour (A : Action_DihedralScan) (top : Topology)
    (charMask : Option (List Bool)) (checkStructureOk : Bool) :
    ∃ r A' added, Setup A top charMask checkStructureOk = some (r, A') ∧
      A'.BB_dihedrals_ = A.BB_dihedrals_ ++ added ∧
      ∀ d ∈ added,
        ((∃ n ∈ top.bonds d.atom2, n ≠ d.atom1 ∧ d.atom2 ∈ top.bonds n) → d.atom2 ∈ d.Rmask) ∧
        ((∀ n ∈ top.bonds d.atom2, n = d.atom1) → d.atom2 ∉ d.Rmask) := by
  obtain ⟨r, A', added, e, hBB, hd⟩ := Setup_total A top charMask checkStructureOk
  refine ⟨r, A', added, e, hBB, ?_⟩
  intro d hmem
  obtain ⟨Mask1_, _, atom, atom2, V, hlt, _, hp, _, eV, rfl⟩ := hd d hmem
  obtain ⟨V', eV', _, _, hseed, hclosed, hnone⟩ := visitAroundBond_total top atom atom2
  rw [eV] at eV'
  cases eV'
  have inRange : ∀ a b : Nat, b ∈ top.bonds a → a < top.Natom := by
    intro a b hb
    by_contra hge
    have hlen : top.atoms.length ≤ a := by unfold Topology.Natom at hge; omega
    unfold Topology.bonds at hb
    rw [List.getD_eq_default _ _ hlen] at hb
    exact absurd hb (List.not_mem_nil b)
  constructor
  · rintro ⟨n, hn, hne, hback⟩
    rw [mem_Rmask_makeDihedral]
    have hnV : V.getD n false = true := hseed n hn hne (inRange n _ hback)
    exact hclosed n hnV hne atom2 hback (inRange atom2 n hn)
  · intro hall
    rw [mem_Rmask_makeDihedral, hnone hall]
    intro h
    exact (partnerAtom_spec top atom atom2 hp).2 (getD_initial_marks _ _ _ h)

/-- An instance of the amended C3: the chain `N - CA - C`. -/
theorem C3_atom2_mem_Rmask_iff_other_neighbour_witness :
    ∃ r A' added,
      Setup Action_DihedralScan.new topNCaC (some [true, true, true]) true = some (r, A') ∧
      A'.BB_dihedrals_ = Action_DihedralScan.new.BB_dihedrals_ ++ added ∧
      ∀ d ∈ added,
        ((∃ n ∈ topNCaC.bonds d.atom2, n ≠ d.atom1 ∧ d.atom2 ∈ topNCaC.bonds n) →
          d.atom2 ∈ d.Rmask) ∧
        ((∀ n ∈ topNCaC.bonds d.atom2, n = d.atom1) → d.atom2 ∉ d.Rmask) :=
  C3_atom2_mem_Rmask_iff_other_neighbour Action_DihedralScan.new topNCaC
    (some [true, true, true]) true

/-! ## The rotation loop of one dihedral -/

/-- The state after one rotation by `theta` and one call of `CheckResidue`. -/
theorem rotateLoop_nocheck (A : Action_DihedralScan) (ck : Nat → Int) (nr : Int) (fuel : Nat)
    (theta c : Int) (s : ScanState) (hc : A.check_for_clashes_ = false) :
    rotateLoop A ck nr (fuel + 1) theta c s =
      some (LoopExit.accepted, { s with trace := s.trace ++ [ScanEvent.rotate s.dih theta] }) := by
  simp [rotateLoop, hc]

theorem rotateLoop_unresolvable (A : Action_DihedralScan) (ck : Nat → Int) (nr : Int)
    (fuel : Nat) (theta c : Int) (s : ScanState) (hc : A.check_for_clashes_ = true)
    (h : ck s.checks = -1) :
    rotateLoop A ck nr (fuel + 1) theta c s =
      some (LoopExit.unresolvable,
        { s with
          dih := s.dih - 1 - 1
          next_dih := s.dih - 1 - 1 + 1
          checks := s.checks + 1
          trace := s.trace ++ [ScanEvent.rotate s.dih theta] ++ [ScanEvent.check s.dih nr] }) := by
  simp [rotateLoop, hc, h]

theorem rotateLoop_exhausted (A : Action_DihedralScan) (ck : Nat → Int) (nr : Int)
    (fuel : Nat) (theta c : Int) (s : ScanState) (hc : A.check_for_clashes_ = true)
    (h : ck s.checks ≠ -1) (hmax : c + 1 = A.max_increment_) :
    rotateLoop A ck nr (fuel + 1) theta c s =
      some (LoopExit.exhausted,
        { s with
          dih := s.dih - max A.backtrack_ 0
          next_dih := s.dih - max A.backtrack_ 0 + 1
          checks := s.checks + 1
          trace := s.trace ++ [ScanEvent.rotate s.dih theta] ++ [ScanEvent.check s.dih nr] }) := by
  simp [rotateLoop, hc, h, hmax]

theorem rotateLoop_accepted (A : Action_DihedralScan) (ck : Nat → Int) (nr : Int)
    (fuel : Nat) (theta c : Int) (s : ScanState) (hc : A.check_for_clashes_ = true)
    (h : ck s.checks = 0) (hmax : c + 1 ≠ A.max_increment_) :
    rotateLoop A ck nr (fuel + 1) theta c s =
      some (LoopExit.accepted,
        { s with
          checks := s.checks + 1
          trace := s.trace ++ [ScanEvent.rotate s.dih theta] ++ [ScanEvent.check s.dih nr] }) := by
  simp [rotateLoop, hc, h, hmax]

theorem rotateLoop_retry (A : Action_DihedralScan) (ck : Nat → Int) (nr : Int)
    (fuel : Nat) (theta c : Int) (s : ScanState) (hc : A.check_for_clashes_ = true)
    (h0 : ck s.checks ≠ 0) (h : ck s.checks ≠ -1) (hmax : c + 1 ≠ A.max_increment_) :
    rotateLoop A ck nr (fuel + 1) theta c s =
      rotateLoop A ck nr fuel (if c = 0 then A.increment_ else theta) (c + 1)
        { s with
          checks := s.checks + 1
          trace := s.trace ++ [ScanEvent.rotate s.dih theta] ++ [ScanEvent.check s.dih nr] } := by
  simp [rotateLoop, hc, h, h0, hmax]

theorem rotations_append (t u : List ScanEvent) :
    rotations (t ++ u) = rotations t + rotations u := by
  simp [rotations, List.filter_append]

theorem rotations_nil : rotations [] = 0 := rfl

theorem rotations_cons_rotate (i theta : Int) (t : List ScanEvent) :
    rotations (ScanEvent.rotate i theta :: t) = rotations t + 1 := by
  simp [rotations]

theorem rotations_cons_check (i nr : Int) (t : List ScanEvent) :
    rotations (ScanEvent.check i nr :: t) = rotations t := by
  simp [rotations]

/-- What holds when the rotation loop is left: the counter and the number of
draws are as before, the iterators are as the kind of exit says, at least one
rotation was made, and at most `max_increment_ - loop_count` when the loop is
entered with `loop_count < max_increment_`; with clash checking there is one
check per rotation, without it there is one rotation and no check. -/
theorem rotateLoop_post (A : Action_DihedralScan) (ck : Nat → Int) (nr : Int) :
    ∀ (fuel : Nat) (theta c : Int) (s : ScanState) (e : LoopExit) (s' : ScanState),
      rotateLoop A ck nr fuel theta c s = some (e, s') →
      s'.number_of_rotations = s.number_of_rotations ∧ s'.draws = s.draws ∧
      (e = LoopExit.accepted → s'.dih = s.dih ∧ s'.next_dih = s.next_dih) ∧
      (e = LoopExit.unresolvable → s'.dih = s.dih - 2 ∧ s'.next_dih = s.dih - 1) ∧
      (e = LoopExit.exhausted → s'.dih = s.dih - max A.backtrack_ 0 ∧
        s'.next_dih = s.dih - max A.backtrack_ 0 + 1) ∧
      rotations s.trace + 1 ≤ rotations s'.trace ∧
      (A.check_for_clashes_ = false →
        s'.trace = s.trace ++ [ScanEvent.rotate s.dih theta] ∧ s'.checks = s.checks ∧
        e = LoopExit.accepted) ∧
      (A.check_for_clashes_ = true →
        s'.checks + rotations s.trace = s.checks + rotations s'.trace) ∧
      (c < A.max_increment_ →
        (rotations s'.trace : Int) ≤ rotations s.trace + (A.max_increment_ - c)) ∧
      ∃ evs, s'.trace = s.trace ++ ScanEvent.rotate s.dih theta :: evs := by
  intro fuel
  induction fuel with
  | zero => intro theta c s e s' h; simp [rotateLoop] at h
  | succ fuel ih =>
    intro theta c s e s' h
    by_cases hc : A.check_for_clashes_ = false
    · rw [rotateLoop_nocheck A ck nr fuel theta c s hc] at h
      cases h
      refine ⟨rfl, rfl, fun _ => ⟨rfl, rfl⟩, (by intro h; cases h), (by intro h; cases h), ?_,
        fun _ => ⟨rfl, rfl, rfl⟩, ?_, ?_, ⟨[], rfl⟩⟩
      · simp [rotations_append, rotations_cons_rotate, rotations_nil]
      · intro h; rw [hc] at h; exact absurd h (by decide)
      · intro hlt
        simp only [rotations_append, rotations_cons_rotate, rotations_nil]
        push_cast
        omega
    · have hc : A.check_for_clashes_ = true := by simpa using hc
      have hcf : A.check_for_clashes_ = false → False := by
        intro h; rw [h] at hc; exact absurd hc (by decide)
      have hrot : rotations (s.trace ++ [ScanEvent.rotate s.dih theta]
          ++ [ScanEvent.check s.dih nr]) = rotations s.trace + 1 := by
        simp [rotations_append, rotations_cons_rotate, rotations_cons_check, rotations_nil]
      by_cases h1 : ck s.checks = -1
      · rw [rotateLoop_unresolvable A ck nr fuel theta c s hc h1] at h
        cases h
        refine ⟨rfl, rfl, (by intro h; cases h), fun _ => ⟨?_, ?_⟩, (by intro h; cases h), ?_,
          fun h => (hcf h).elim, ?_, ?_, ⟨[ScanEvent.check s.dih nr], by simp⟩⟩
        · show s.dih - 1 - 1 = s.dih - 2
          omega
        · show s.dih - 1 - 1 + 1 = s.dih - 1
          omega
        · show rotations s.trace + 1 ≤ rotations (_ ++ _ ++ _)
          rw [hrot]
        · intro _
          show s.checks + 1 + rotations s.trace = s.checks + rotations (_ ++ _ ++ _)
          rw [hrot]; omega
        · intro hlt
          show (rotations (_ ++ _ ++ _) : Int) ≤ _
          rw [hrot]; push_cast; omega
      · by_cases hmax : c + 1 = A.max_increment_
        · rw [rotateLoop_exhausted A ck nr fuel theta c s hc h1 hmax] at h
          cases h
          refine ⟨rfl, rfl, (by intro h; cases h), (by intro h; cases h), fun _ => ⟨rfl, rfl⟩, ?_,
            fun h => (hcf h).elim, ?_, ?_, ⟨[ScanEvent.check s.dih nr], by simp⟩⟩
          · show rotations s.trace + 1 ≤ rotations (_ ++ _ ++ _)
            rw [hrot]
          · intro _
            show s.checks + 1 + rotations s.trace = s.checks + rotations (_ ++ _ ++ _)
            rw [hrot]; omega
          · intro hlt
            show (rotations (_ ++ _ ++ _) : Int) ≤ _
            rw [hrot]; push_cast; omega
        · by_cases h0 : ck s.checks = 0
          · rw [rotateLoop_accepted A ck nr fuel theta c s hc h0 hmax] at h
            cases h
            refine ⟨rfl, rfl, fun _ => ⟨rfl, rfl⟩, (by intro h; cases h), (by intro h; cases h), ?_,
              fun h => (hcf h).elim, ?_, ?_, ⟨[ScanEvent.check s.dih nr], by simp⟩⟩
            · show rotations s.trace + 1 ≤ rotations (_ ++ _ ++ _)
              rw [hrot]
            · intro _
              show s.checks + 1 + rotations s.trace = s.checks + rotations (_ ++ _ ++ _)
              rw [hrot]; omega
            · intro hlt
              show (rotations (_ ++ _ ++ _) : Int) ≤ _
              rw [hrot]; push_cast; omega
          · rw [rotateLoop_retry A ck nr fuel theta c s hc h0 h1 hmax] at h
            obtain ⟨p1, p2, p3, p4, p5, p6, _, p8, p9, evs, p10⟩ := ih _ _ _ e s' h
            simp only [hrot] at p6 p8 p9
            refine ⟨p1, p2, p3, p4, p5, by omega, fun h => (hcf h).elim, ?_, ?_, ?_⟩
            · intro _
              have := p8 hc
              omega
            · intro hlt
              have := p9 (by omega)
              push_cast at this
              omega
            · exact ⟨ScanEvent.check s.dih nr ::
                ScanEvent.rotate s.dih (if c = 0 then A.increment_ else theta) :: evs,
                by rw [p10]; simp⟩

/-- The rotation loop is left: without clash checking after one pass, with
clash checking after at most `max_increment_ - loop_count` passes. -/
theorem rotateLoop_total (A : Action_DihedralScan) (ck : Nat → Int) (nr : Int) :
    ∀ (fuel : Nat) (theta c : Int) (s : ScanState),
      (A.check_for_clashes_ = false → 1 ≤ fuel) →
      (A.check_for_clashes_ = true → c < A.max_increment_ ∧ A.max_increment_ - c ≤ fuel) →
      ∃ r, rotateLoop A ck nr fuel theta c s = some r := by
  intro fuel
  induction fuel with
  | zero =>
    intro theta c s h1 h2
    cases hc : A.check_for_clashes_ with
    | false => have := h1 hc; omega
    | true => have := h2 hc; omega
  | succ fuel ih =>
    intro theta c s h1 h2
    by_cases hc : A.check_for_clashes_ = false
    · exact ⟨_, rotateLoop_nocheck A ck nr fuel theta c s hc⟩
    · have hc : A.check_for_clashes_ = true := by simpa using hc
      by_cases hu : ck s.checks = -1
      · exact ⟨_, rotateLoop_unresolvable A ck nr fuel theta c s hc hu⟩
      · by_cases hmax : c + 1 = A.max_increment_
        · exact ⟨_, rotateLoop_exhausted A ck nr fuel theta c s hc hu hmax⟩
        · by_cases h0 : ck s.checks = 0
          · exact ⟨_, rotateLoop_accepted A ck nr fuel theta c s hc h0 hmax⟩
          · rw [rotateLoop_retry A ck nr fuel theta c s hc h0 hu hmax]
            have := h2 hc
            exact ih _ _ _ (fun hf => by rw [hf] at hc; exact absurd hc (by decide))
              (fun _ => ⟨by omega, by push_cast at this ⊢; omega⟩)

/-- While `CheckResidue` reports a clash and `max_increment_` is not reached,
the loop goes round: after `k` such passes from `loop_count = 0` it stands at
`loop_count = k`, having made the calls of `clashTrace`, and goes on with the
rotation matrix of `increment_` (of `theta` when `k = 0`). -/
theorem rotateLoop_clashes (A : Action_DihedralScan) (ck : Nat → Int) (nr : Int)
    (hc : A.check_for_clashes_ = true) :
    ∀ (k fuel : Nat) (theta theta' c : Int) (s : ScanState),
      (∀ j, j < k → ck (s.checks + j) ≠ 0 ∧ ck (s.checks + j) ≠ -1) →
      (∀ j : Nat, j < k → c + j + 1 ≠ A.max_increment_) →
      (0 ≤ c) → (theta' = if c = 0 then A.increment_ else theta) →
      rotateLoop A ck nr (fuel + k) theta c s =
        rotateLoop A ck nr fuel (if k = 0 then theta else theta') (c + k)
          { s with
            checks := s.checks + k
            trace := s.trace ++ clashTrace s.dih nr theta theta' k } := by
  intro k
  induction k with
  | zero =>
    intro fuel theta theta' c s _ _ _ _
    simp [clashTrace]
  | succ k ih =>
    intro fuel theta theta' c s hck hmax hc0 ht
    have h00 := hck 0 (by omega)
    have hm0 := hmax 0 (by omega)
    simp only [Nat.add_zero, Nat.cast_zero, add_zero] at h00 hm0
    rw [show fuel + (k + 1) = (fuel + k) + 1 by omega,
      rotateLoop_retry A ck nr (fuel + k) theta c s hc h00.1 h00.2 hm0, ← ht]
    rw [ih fuel theta' theta' (c + 1) _
      (fun j hj => by
        have := hck (j + 1) (by omega)
        simpa [Nat.add_assoc, Nat.add_comm 1 j] using this)
      (fun j hj => by
        have := hmax (j + 1) (by omega)
        push_cast at this
        intro h
        apply this
        omega)
      (by omega)
      (by rw [if_neg (by omega)])]
    have e1 : (if k = 0 then theta' else theta') = theta' := by split <;> rfl
    have e2 : c + 1 + (k : Int) = c + ((k + 1 : Nat) : Int) := by push_cast; ring
    rw [e1, e2]
    simp [clashTrace, Nat.add_assoc, Nat.add_comm 1 k]

/-! ## One pass through the loop over the dihedrals -/

theorem dihAt_some (A : Action_DihedralScan) (i : Int) (d : DihedralScanType)
    (h : dihAt A i = some d) : 0 ≤ i ∧ i < (A.BB_dihedrals_.length : Int) := by
  unfold dihAt at h
  split at h
  · rename_i h0
    refine ⟨h0, ?_⟩
    have := (List.get?_eq_some.mp h).1
    omega
  · exact absurd h (by simp)

theorem dihAt_of_lt (A : Action_DihedralScan) (i : Int) (h0 : 0 ≤ i)
    (h1 : i < (A.BB_dihedrals_.length : Int)) : ∃ d, dihAt A i = some d := by
  unfold dihAt
  rw [if_pos h0]
  have hlt : i.toNat < A.BB_dihedrals_.length := by omega
  exact ⟨A.BB_dihedrals_.get ⟨i.toNat, hlt⟩, List.get?_eq_get hlt⟩

theorem dihAt_none_of_neg (A : Action_DihedralScan) (i : Int) (h : i < 0) :
    dihAt A i = none := by
  unfold dihAt
  rw [if_neg (by omega)]

/-- At a list position with the look-ahead iterator one position further,
`next_resnum` gets a value. -/
theorem nextResnum_some (A : Action_DihedralScan) (i : Int) (d : DihedralScanType)
    (hd : dihAt A i = some d) : ∃ nr, nextResnum A i (i + 1) = some nr := by
  obtain ⟨h0, h1⟩ := dihAt_some A i d hd
  unfold nextResnum
  by_cases hn : i + 1 ≠ (A.BB_dihedrals_.length : Int)
  · rw [if_pos hn]
    obtain ⟨d', hd'⟩ := dihAt_of_lt A (i + 1) (by omega) (by omega)
    exact ⟨_, by rw [hd']; rfl⟩
  · rw [if_neg hn, hd]
    exact ⟨_, rfl⟩

/-- A pass with `dih` outside the list stops with `outOfBounds`. -/
theorem visit_outOfBounds (A : Action_DihedralScan) (draw ck : Nat → Int) (fuel : Nat)
    (s : ScanState) (hd : dihAt A s.dih = none) :
    visit A draw ck fuel s =
      some (some Outcome.outOfBounds,
        { s with number_of_rotations := s.number_of_rotations + 1 }) := by
  unfold visit
  simp only [hd]
  split
  · rename_i h; cases h
  · rfl

/-- A pass with both iterators inside the list: the rotation loop, then
`next_dih++`, then the safety valve or `dih++`. -/
theorem visit_inrange (A : Action_DihedralScan) (draw ck : Nat → Int) (fuel : Nat)
    (s : ScanState) (d : DihedralScanType) (nr : Int) (e : LoopExit) (s3 : ScanState)
    (hd : dihAt A s.dih = some d) (hnr : nextResnum A s.dih s.next_dih = some nr)
    (hloop : rotateLoop A ck nr fuel (Int.tmod (draw s.draws) 360 + 1) 0
      { s with number_of_rotations := s.number_of_rotations + 1, draws := s.draws + 1 }
        = some (e, s3)) :
    visit A draw ck fuel s =
      if s3.number_of_rotations > A.max_rotations_ then
        some (some Outcome.aborted, { s3 with next_dih := s3.next_dih + 1 })
      else some (none, { s3 with next_dih := s3.next_dih + 1, dih := s3.dih + 1 }) := by
  unfold visit
  simp only [hd, hnr, hloop]

theorem visit_loop_none (A : Action_DihedralScan) (draw ck : Nat → Int) (fuel : Nat)
    (s : ScanState) (d : DihedralScanType) (nr : Int)
    (hd : dihAt A s.dih = some d) (hnr : nextResnum A s.dih s.next_dih = some nr)
    (hloop : rotateLoop A ck nr fuel (Int.tmod (draw s.draws) 360 + 1) 0
      { s with number_of_rotations := s.number_of_rotations + 1, draws := s.draws + 1 }
        = none) :
    visit A draw ck fuel s = none := by
  unfold visit
  simp only [hd, hnr, hloop]

/-- What one pass does, from a state in which the invariant holds. -/
theorem visit_post (A : Action_DihedralScan) (draw ck : Nat → Int) (fuel : Nat)
    (hinc : A.check_for_clashes_ = true → 1 ≤ A.max_increment_)
    (s : ScanState) (o : Option Outcome) (s' : ScanState) (hs : ScanInv A s)
    (hne : s.dih ≠ (A.BB_dihedrals_.length : Int))
    (h : visit A draw ck fuel s = some (o, s')) :
    (o = none → ScanInv A s' ∧ s'.number_of_rotations ≤ A.max_rotations_) ∧
    (o ≠ some Outcome.outOfBounds →
      s'.number_of_rotations = s.number_of_rotations + 1 ∧ s'.draws = s.draws + 1 ∧
      0 ≤ s.dih ∧ rotations s.trace + 1 ≤ rotations s'.trace ∧
      rotations s'.trace ≤ rotations s.trace + perVisit A ∧
      (A.check_for_clashes_ = false → s'.checks = s.checks) ∧
      ∃ evs, s'.trace = s.trace ++
        ScanEvent.rotate s.dih (Int.tmod (draw s.draws) 360 + 1) :: evs) ∧
    (o = some Outcome.aborted → A.max_rotations_ < s'.number_of_rotations) ∧
    (o = some Outcome.outOfBounds →
      s.dih < 0 ∧ s' = { s with number_of_rotations := s.number_of_rotations + 1 }) ∧
    o ≠ some Outcome.completed := by
  obtain ⟨hn, hcnt, hle⟩ := hs
  cases hd : dihAt A s.dih with
  | none =>
    rw [visit_outOfBounds A draw ck fuel s hd] at h
    cases h
    refine ⟨(by intro h; cases h), (by intro h; exact absurd rfl h), (by intro h; cases h), ?_,
      (by intro h; cases h)⟩
    intro _
    refine ⟨?_, rfl⟩
    by_contra hge
    obtain ⟨d, hd'⟩ := dihAt_of_lt A s.dih (by omega) (by omega)
    rw [hd] at hd'
    cases hd'
  | some d =>
    obtain ⟨h0, h1⟩ := dihAt_some A s.dih d hd
    obtain ⟨nr, hnr⟩ := nextResnum_some A s.dih d hd
    rw [← hn] at hnr
    cases hloop : rotateLoop A ck nr fuel (Int.tmod (draw s.draws) 360 + 1) 0
        { s with number_of_rotations := s.number_of_rotations + 1, draws := s.draws + 1 } with
    | none =>
      rw [visit_loop_none A draw ck fuel s d nr hd hnr hloop] at h
      cases h
    | some r =>
      obtain ⟨e, s3⟩ := r
      rw [visit_inrange A draw ck fuel s d nr e s3 hd hnr hloop] at h
      obtain ⟨p1, p2, p3, p4, p5, p6, p7, _, p9, evs, p10⟩ :=
        rotateLoop_post A ck nr fuel _ _ _ e s3 hloop
      simp only at p1 p2 p3 p4 p5 p6 p7 p9 p10
      have hper : rotations s3.trace ≤ rotations s.trace + perVisit A := by
        unfold perVisit
        cases hc : A.check_for_clashes_ with
        | false =>
          rw [(p7 hc).1]
          simp [rotations_append, rotations_cons_rotate, rotations_nil]
        | true =>
          have h1' := hinc hc
          have := p9 (by omega)
          simp only [if_true]
          omega
      have hdih : s3.next_dih + 1 = s3.dih + 1 + 1 ∧ s3.dih + 1 ≤ (A.BB_dihedrals_.length : Int) := by
        cases e with
        | accepted =>
          obtain ⟨a, b⟩ := p3 rfl
          omega
        | unresolvable =>
          obtain ⟨a, b⟩ := p4 rfl
          omega
        | exhausted =>
          obtain ⟨a, b⟩ := p5 rfl
          have := le_max_right A.backtrack_ 0
          omega
      split at h
      · rename_i hgt
        cases h
        refine ⟨(by intro h; cases h), ?_, fun _ => hgt, (by intro h; cases h), (by intro h; cases h)⟩
        intro _
        exact ⟨p1, p2, h0, p6, hper, fun hc => (p7 hc).2.1, evs, p10⟩
      · rename_i hgt
        cases h
        refine ⟨?_, ?_, (by intro h; cases h), (by intro h; cases h), (by intro h; cases h)⟩
        · intro _
          refine ⟨⟨hdih.1, ?_, hdih.2⟩, ?_⟩
          · show s3.number_of_rotations = (s3.draws : Int)
            rw [p1, p2]; push_cast; omega
          · show s3.number_of_rotations ≤ A.max_rotations_
            omega
        · intro _
          exact ⟨p1, p2, h0, p6, hper, fun hc => (p7 hc).2.1, evs, p10⟩

/-- One pass returns when the fuel covers the rotations of one pass. -/
theorem visit_total (A : Action_DihedralScan) (draw ck : Nat → Int) (fuel : Nat)
    (hinc : A.check_for_clashes_ = true → 1 ≤ A.max_increment_)
    (hfuel : 1 ≤ fuel ∧ perVisit A ≤ fuel) (s : ScanState) :
    ∃ r, visit A draw ck fuel s = some r := by
  cases hd : dihAt A s.dih with
  | none => exact ⟨_, visit_outOfBounds A draw ck fuel s hd⟩
  | some d =>
    cases hnr : nextResnum A s.dih s.next_dih with
    | none =>
      refine ⟨(some Outcome.outOfBounds,
        { s with number_of_rotations := s.number_of_rotations + 1 }), ?_⟩
      unfold visit
      simp only [hd, hnr]
    | some nr =>
      obtain ⟨r, hr⟩ := rotateLoop_total A ck nr fuel (Int.tmod (draw s.draws) 360 + 1) 0
        { s with number_of_rotations := s.number_of_rotations + 1, draws := s.draws + 1 }
        (fun _ => hfuel.1)
        (fun hc => by
          have h1 := hinc hc
          have h2 := hfuel.2
          unfold perVisit at h2
          rw [if_pos hc] at h2
          constructor <;> omega)
      obtain ⟨e, s3⟩ := r
      rw [visit_inrange A draw ck fuel s d nr e s3 hd hnr hr]
      split
      · exact ⟨_, rfl⟩
      · exact ⟨_, rfl⟩

/-- The loop over the dihedrals returns when the fuel covers the passes that
the safety valve allows and the rotations of one pass; the counter is then the
number of draws (one more when an iterator left the list), it is at most
`max (max_rotations_, counter at the start) + 1`, and the rotations made are
at most `perVisit` per draw. -/
theorem scanLoop_spec (A : Action_DihedralScan) (draw ck : Nat → Int)
    (hinc : A.check_for_clashes_ = true → 1 ≤ A.max_increment_) :
    ∀ (fuel : Nat) (s : ScanState), ScanInv A s →
      (A.max_rotations_ - s.number_of_rotations).toNat + perVisit A + 2 ≤ fuel →
      ∃ o s', scanLoop A draw ck fuel s = some (o, s') ∧
        (o = Outcome.completed → s'.dih = (A.BB_dihedrals_.length : Int) ∧
          s'.number_of_rotations = s'.draws ∧
          s'.number_of_rotations ≤ max A.max_rotations_ s.number_of_rotations) ∧
        (o = Outcome.aborted → A.max_rotations_ < s'.number_of_rotations ∧
          s'.number_of_rotations = s'.draws) ∧
        (o = Outcome.outOfBounds → s'.dih < 0 ∧ s'.number_of_rotations = s'.draws + 1) ∧
        s'.number_of_rotations ≤ max A.max_rotations_ s.number_of_rotations + 1 ∧
        s.draws ≤ s'.draws ∧
        rotations s'.trace ≤ rotations s.trace + (s'.draws - s.draws) * perVisit A ∧
        (A.check_for_clashes_ = false → s'.checks = s.checks) := by
  intro fuel
  induction fuel with
  | zero => intro s _ h; omega
  | succ fuel ih =>
    intro s hs hfuel
    by_cases hend : s.dih = (A.BB_dihedrals_.length : Int)
    · refine ⟨Outcome.completed, s, by simp [scanLoop, hend], fun _ => ⟨hend, hs.2.1, ?_⟩,
        (by intro h; cases h), (by intro h; cases h), ?_, le_refl _, by simp, fun _ => rfl⟩
      · exact le_max_right _ _
      · have := le_max_right A.max_rotations_ s.number_of_rotations
        omega
    · obtain ⟨r, hr⟩ := visit_total A draw ck fuel hinc ⟨by omega, by omega⟩ s
      obtain ⟨o, s1⟩ := r
      obtain ⟨v1, v2, v3, v4, v5⟩ := visit_post A draw ck fuel hinc s o s1 hs hend hr
      have hml := le_max_left A.max_rotations_ s.number_of_rotations
      have hmr := le_max_right A.max_rotations_ s.number_of_rotations
      cases o with
      | none =>
        obtain ⟨hinv, hbud⟩ := v1 rfl
        obtain ⟨q1, q2, _, _, q5, q6, _⟩ := v2 (by intro h; cases h)
        obtain ⟨o', s', e', c1, c2, c3, c4, c5, c6, c7⟩ := ih s1 hinv (by omega)
        refine ⟨o', s', by simp [scanLoop, hend, hr, e'], ?_, c2, c3, ?_, by omega, ?_, ?_⟩
        · intro ho
          obtain ⟨a, b, c⟩ := c1 ho
          refine ⟨a, b, ?_⟩
          have : max A.max_rotations_ s1.number_of_rotations = A.max_rotations_ :=
            max_eq_left hbud
          omega
        · have : max A.max_rotations_ s1.number_of_rotations = A.max_rotations_ :=
            max_eq_left hbud
          omega
        · have e1 : s'.draws - s.draws = (s'.draws - s1.draws) + 1 := by omega
          rw [e1, Nat.add_mul]
          omega
        · intro hc
          rw [c7 hc, q6 hc]
      | some oc =>
        cases oc with
        | completed => exact absurd rfl v5
        | aborted =>
          obtain ⟨q1, q2, _, _, q5, q6, _⟩ := v2 (by intro h; cases h)
          have hab := v3 rfl
          refine ⟨Outcome.aborted, s1, by simp [scanLoop, hend, hr], (by intro h; cases h),
            fun _ => ⟨hab, ?_⟩, (by intro h; cases h), by omega, by omega, ?_, q6⟩
          · rw [q1, q2, hs.2.1]; push_cast; rfl
          · have e1 : s1.draws - s.draws = 1 := by omega
            rw [e1]; omega
        | outOfBounds =>
          obtain ⟨hneg, hs1⟩ := v4 rfl
          subst hs1
          refine ⟨Outcome.outOfBounds,
            { s with number_of_rotations := s.number_of_rotations + 1 },
            by simp [scanLoop, hend, hr], (by intro h; cases h),
            (by intro h; cases h), fun _ => ⟨hneg, ?_⟩, ?_, le_refl _, by simp, fun _ => rfl⟩
          · show s.number_of_rotations + 1 = (s.draws : Int) + 1
            rw [hs.2.1]
          · show s.number_of_rotations + 1 ≤ _
            omega

theorem ScanInv_init (A : Action_DihedralScan) : ScanInv A ScanState.init :=
  ⟨rfl, rfl, by simp [ScanState.init]⟩

/-- Passes that go on keep the invariant, and after at least one of them the
counter is within `max_rotations_`. -/
theorem visitN_inv (A : Action_DihedralScan) (draw ck : Nat → Int) (fuel : Nat)
    (hinc : A.check_for_clashes_ = true → 1 ≤ A.max_increment_) :
    ∀ (n : Nat) (s s' : ScanState), ScanInv A s →
      visitN A draw ck fuel n s = some s' →
      ScanInv A s' ∧ (s' = s ∨ s'.number_of_rotations ≤ A.max_rotations_) := by
  intro n
  induction n with
  | zero =>
    intro s s' hs h
    simp only [visitN] at h
    cases h
    exact ⟨hs, Or.inl rfl⟩
  | succ n ih =>
    intro s s' hs h
    simp only [visitN] at h
    split at h
    · cases h
    · rename_i hend
      split at h
      · rename_i s1 hv
        obtain ⟨v1, _⟩ := visit_post A draw ck fuel hinc s none s1 hs hend hv
        obtain ⟨hinv, hbud⟩ := v1 rfl
        obtain ⟨i1, i2⟩ := ih s1 s' hinv h
        refine ⟨i1, Or.inr ?_⟩
        rcases i2 with rfl | h2
        · exact hbud
        · exact h2
      · cases h

/-- At the head of the loop over the dihedrals the invariant holds. -/
theorem Reaches.inv {A : Action_DihedralScan} {draw ck : Nat → Int} {s : ScanState}
    (hinc : A.check_for_clashes_ = true → 1 ≤ A.max_increment_)
    (h : Reaches A draw ck s) : ScanInv A s := by
  induction h with
  | init => exact ScanInv_init A
  | step fuel s s' _ hne hv ih =>
    exact ((visit_post A draw ck fuel hinc s none s' ih hne hv).1 rfl).1

/-- The state after passes that all went on is a state at the head of the
loop. -/
theorem Reaches.of_visitN {A : Action_DihedralScan} {draw ck : Nat → Int} (fuel : Nat) :
    ∀ (n : Nat) (s s' : ScanState), Reaches A draw ck s →
      visitN A draw ck fuel n s = some s' → Reaches A draw ck s' := by
  intro n
  induction n with
  | zero =>
    intro s s' hs h
    simp only [visitN] at h
    cases h
    exact hs
  | succ n ih =>
    intro s s' hs h
    simp only [visitN] at h
    split at h
    · cases h
    · rename_i hend
      split at h
      · rename_i s1 hv
        exact ih s1 s' (Reaches.step fuel s s1 hs hend hv) h
      · cases h

/-! ## Init and Setup as seen by the scan -/

/-- The function `Setup` writes only `BB_dihedrals_`, `max_rotations_` and `ResCheck_`. -/
theorem Setup_eq_afterSetup (A : Action_DihedralScan) (top : Topology)
    (charMask : Option (List Bool)) (checkStructureOk : Bool) (r : RetType)
    (A' : Action_DihedralScan) (h : Setup A top charMask checkStructureOk = some (r, A')) :
    A' = afterSetup A A'.BB_dihedrals_ A'.max_rotations_ A'.ResCheck_ := by
  unfold Setup at h
  split at h
  · cases h; rfl
  · split at h
    · cases h; rfl
    · split at h
      · cases h
      · split at h
        · cases h; rfl
        · cases h
          split <;> rfl

/-- When `Init` succeeds in random mode it leaves `backtrack_` one above the
value of the keyword (default 4), which is not negative, `increment_ ≥ 1`
dividing 360, `max_increment_ = 360 / increment_ ≥ 1` with
`max_increment_ * increment_ = 360`, and the values of `check` and
`maxfactor` (default 2). -/
theorem Init_random_ok (SMALL : ℚ) (A0 A1 : Action_DihedralScan) (args : InitArgs)
    (hr : args.hasRandom = true) (h : Init SMALL A0 args = (RetType.OK, A1)) :
    A1.mode_ = ModeType.RANDOM ∧
    A1.backtrack_ = args.backtrack.getD 4 + 1 ∧ 0 ≤ args.backtrack.getD 4 ∧
    A1.increment_ = args.increment.getD 1 ∧ 1 ≤ A1.increment_ ∧
    A1.max_increment_ = Int.tdiv 360 A1.increment_ ∧ 1 ≤ A1.max_increment_ ∧
    A1.max_increment_ * A1.increment_ = 360 ∧
    A1.check_for_clashes_ = args.hasCheck ∧ A1.max_factor_ = args.maxfactor.getD 2 := by
  have key : ∀ inc : Int, 1 ≤ inc → Int.tmod 360 inc = 0 →
      1 ≤ Int.tdiv 360 inc ∧ Int.tdiv 360 inc * inc = 360 := by
    intro inc h1 h2
    have hmul := Int.tdiv_mul_cancel_of_tmod_eq_zero h2
    refine ⟨?_, hmul⟩
    have hnn : 0 ≤ Int.tdiv 360 inc := Int.tdiv_nonneg (by decide) (by omega)
    by_contra hlt
    have : Int.tdiv 360 inc = 0 := by omega
    rw [this] at hmul
    simp at hmul
  have hI : Init SMALL A0 args =
      match initRandom SMALL { A0 with mode_ := ModeType.RANDOM } args with
      | (RetType.ERR, A4) => (RetType.ERR, A4)
      | (RetType.OK, A5) => initFinish A5 args := by
    simp [Init, initMode, hr]
  rw [hI] at h
  cases hR : initRandom SMALL { A0 with mode_ := ModeType.RANDOM } args with
  | mk r A5 =>
    rw [hR] at h
    cases r with
    | ERR => simp at h
    | OK =>
      simp only at h
      unfold initRandom at hR
      simp only at hR
      split_ifs at hR with c1 c2 c3 c4
      · simp at hR
      · simp at hR
      · simp at hR
      · simp at hR
      · have hA5 := (congrArg Prod.snd hR).symm
        simp only at hA5
        unfold initFinish at h
        split_ifs at h with d1 d2 d3 d4 d5 d6
        all_goals first
          | (have hfst := congrArg Prod.fst h
             simp at hfst
             done)
          | skip
        all_goals
          have hA1 := (congrArg Prod.snd h).symm
          simp only at hA1
          push_neg at c4
          have c3' : (0 : Int) ≤ args.backtrack.getD 4 := by simpa using c3
          have c4a : (1 : Int) ≤ args.increment.getD 1 := by simpa using c4.1
          have c4b : Int.tmod 360 (args.increment.getD 1) = 0 := by simpa using c4.2
          obtain ⟨k1, k2⟩ := key _ c4a c4b
          subst hA1
          subst hA5
          exact ⟨rfl, rfl, c3', rfl, c4a, rfl, k1, k2, rfl, rfl⟩

/-! ## Passes that end in a backtrack -/

theorem clashTrace_succ (dih nr : Int) :
    ∀ (k : Nat) (theta theta' : Int),
      clashTrace dih nr theta theta' (k + 1) =
        clashTrace dih nr theta theta' k ++
          [ScanEvent.rotate dih (if k = 0 then theta else theta'), ScanEvent.check dih nr] := by
  intro k
  induction k with
  | zero => intro theta theta'; simp [clashTrace]
  | succ k ih =>
    intro theta theta'
    rw [clashTrace, ih theta' theta']
    simp [clashTrace]

theorem rotations_clashTrace (dih nr : Int) :
    ∀ (k : Nat) (theta theta' : Int), rotations (clashTrace dih nr theta theta' k) = k := by
  intro k
  induction k with
  | zero => intro _ _; rfl
  | succ k ih =>
    intro theta theta'
    rw [clashTrace, rotations_cons_rotate, rotations_cons_check, ih]

/-- A pass in which `CheckResidue` reports `k` clashes and then `-1`: the
rotation loop is left at once, and the loop over the dihedrals goes on one
position back. -/
theorem visit_unresolvable (A : Action_DihedralScan) (draw ck : Nat → Int) (fuel : Nat)
    (s : ScanState) (d : DihedralScanType) (nr : Int) (k : Nat)
    (hc : A.check_for_clashes_ = true)
    (hd : dihAt A s.dih = some d) (hnr : nextResnum A s.dih s.next_dih = some nr)
    (hk : (k : Int) < A.max_increment_)
    (hclash : ∀ j, j < k → ck (s.checks + j) ≠ 0 ∧ ck (s.checks + j) ≠ -1)
    (hu : ck (s.checks + k) = -1)
    (hfuel : k + 1 ≤ fuel) (hbud : s.number_of_rotations + 1 ≤ A.max_rotations_) :
    visit A draw ck fuel s = some (none,
      { dih := s.dih - 1
        next_dih := s.dih
        number_of_rotations := s.number_of_rotations + 1
        draws := s.draws + 1
        checks := s.checks + k + 1
        trace := s.trace ++
          clashTrace s.dih nr (Int.tmod (draw s.draws) 360 + 1) A.increment_ (k + 1) }) := by
  obtain ⟨f, rfl⟩ : ∃ f, fuel = (f + 1) + k := ⟨fuel - (k + 1), by omega⟩
  have hloop := rotateLoop_clashes A ck nr hc k (f + 1) (Int.tmod (draw s.draws) 360 + 1)
    A.increment_ 0
    { s with number_of_rotations := s.number_of_rotations + 1, draws := s.draws + 1 }
    hclash (fun j hj => by omega) (le_refl 0) (by simp)
  rw [rotateLoop_unresolvable A ck nr f _ _ _ hc hu] at hloop
  rw [visit_inrange A draw ck _ s d nr _ _ hd hnr hloop]
  rw [if_neg (by simp only; omega)]
  simp only [clashTrace_succ, List.append_assoc, List.singleton_append]
  congr 2
  simp only [ScanState.mk.injEq, and_true, true_and]
  constructor
  · omega
  · omega

/-- A pass in which `CheckResidue` reports a clash `max_increment_` times: the
rotation loop is left by the `break` of `loop_count == max_increment_`, and
the loop over the dihedrals goes on `backtrack_ - 1` positions back. -/
theorem visit_exhausted (A : Action_DihedralScan) (draw ck : Nat → Int) (fuel : Nat)
    (s : ScanState) (d : DihedralScanType) (nr : Int) (m : Nat)
    (hc : A.check_for_clashes_ = true)
    (hd : dihAt A s.dih = some d) (hnr : nextResnum A s.dih s.next_dih = some nr)
    (hm : ((m + 1 : Nat) : Int) = A.max_increment_)
    (hclash : ∀ j, j < m → ck (s.checks + j) ≠ 0 ∧ ck (s.checks + j) ≠ -1)
    (hlast : ck (s.checks + m) ≠ -1)
    (hfuel : m + 1 ≤ fuel) (hbud : s.number_of_rotations + 1 ≤ A.max_rotations_) :
    visit A draw ck fuel s = some (none,
      { dih := s.dih - max A.backtrack_ 0 + 1
        next_dih := s.dih - max A.backtrack_ 0 + 1 + 1
        number_of_rotations := s.number_of_rotations + 1
        draws := s.draws + 1
        checks := s.checks + m + 1
        trace := s.trace ++
          clashTrace s.dih nr (Int.tmod (draw s.draws) 360 + 1) A.increment_ (m + 1) }) := by
  obtain ⟨f, rfl⟩ : ∃ f, fuel = (f + 1) + m := ⟨fuel - (m + 1), by omega⟩
  have hloop := rotateLoop_clashes A ck nr hc m (f + 1) (Int.tmod (draw s.draws) 360 + 1)
    A.increment_ 0
    { s with number_of_rotations := s.number_of_rotations + 1, draws := s.draws + 1 }
    hclash (fun j hj => by push_cast at hm; omega) (le_refl 0) (by simp)
  rw [rotateLoop_exhausted A ck nr f _ _ _ hc hlast (by push_cast at hm; omega)] at hloop
  rw [visit_inrange A draw ck _ s d nr _ _ hd hnr hloop]
  rw [if_neg (by simp only; omega)]
  simp only [clashTrace_succ, List.append_assoc, List.singleton_append]

/-- A pass without clash checking: one rotation by the drawn angle, no call of
`CheckResidue`, and the loop over the dihedrals goes on at the next position
unless the safety valve fires. -/
theorem visit_nocheck (A : Action_DihedralScan) (draw ck : Nat → Int) (fuel : Nat)
    (s : ScanState) (d : DihedralScanType) (nr : Int)
    (hc : A.check_for_clashes_ = false)
    (hd : dihAt A s.dih = some d) (hnr : nextResnum A s.dih s.next_dih = some nr) :
    visit A draw ck (fuel + 1) s =
      if s.number_of_rotations + 1 > A.max_rotations_ then
        some (some Outcome.aborted,
          { s with
            next_dih := s.next_dih + 1
            number_of_rotations := s.number_of_rotations + 1
            draws := s.draws + 1
            trace := s.trace ++ [ScanEvent.rotate s.dih (Int.tmod (draw s.draws) 360 + 1)] })
      else
        some (none,
          { dih := s.dih + 1
            next_dih := s.next_dih + 1
            number_of_rotations := s.number_of_rotations + 1
            draws := s.draws + 1
            checks := s.checks
            trace := s.trace ++ [ScanEvent.rotate s.dih (Int.tmod (draw s.draws) 360 + 1)] }) := by
  rw [visit_inrange A draw ck _ s d nr _ _ hd hnr (rotateLoop_nocheck A ck nr fuel _ _ _ hc)]

/-- The function `Init` accepts the arguments `randomArgs b inc mf check` when `b` is not
negative and `inc ≥ 1` divides 360, and leaves the members `randomInit`. -/
theorem Init_randomArgs (b inc mf : Int) (check : Bool) (hb : 0 ≤ b) (hinc : 1 ≤ inc)
    (hdiv : Int.tmod 360 inc = 0) :
    Init (1 / 100000000000000) Action_DihedralScan.new (randomArgs b inc mf check) =
      (RetType.OK, randomInit b inc mf check) := by
  have h1 : ¬ ((8 : ℚ) / 10 < 1 / 100000000000000) := by norm_num
  have h2 : ¬ ((10 : ℚ) < 1 / 100000000000000) := by norm_num
  have hR : initRandom (1 / 100000000000000)
      { Action_DihedralScan.new with mode_ := ModeType.RANDOM } (randomArgs b inc mf check) =
      (RetType.OK,
        { Action_DihedralScan.new with
          check_for_clashes_ := check
          cutoff_ := 8 / 10
          rescutoff_ := 10
          backtrack_ := b
          increment_ := inc
          max_increment_ := Int.tdiv 360 inc
          max_factor_ := mf }) := by
    unfold initRandom
    simp only [randomArgs, Option.getD_some, Option.getD_none]
    rw [if_neg h1, if_neg h2, if_neg (by omega), if_neg (by rw [hdiv]; simp; omega)]
    rfl
  have hI : Init (1 / 100000000000000) Action_DihedralScan.new (randomArgs b inc mf check) =
      match initRandom (1 / 100000000000000)
        { Action_DihedralScan.new with mode_ := ModeType.RANDOM } (randomArgs b inc mf check) with
      | (RetType.ERR, A4) => (RetType.ERR, A4)
      | (RetType.OK, A5) => initFinish A5 (randomArgs b inc mf check) := by
    rfl
  rw [hI, hR]
  rfl

/-! ## The random scan (C4 - C10) -/

/-- Draws that are all `0.0` give the integer draws `0`. -/
theorem draws_zero :
    (fun k : Nat => truncToInt ((fun _ : Nat => (0 : ℚ)) k * 100000)) = fun _ => 0 := by
  funext k
  simp [truncToInt]

/-- C4, on one dihedral with the keywords `check backtrack 4 increment 1
maxfactor 2` (which `Init` accepts): the first call of `CheckResidue` returns
`-1` at list position 0; `dih` is then moved to position `-2`, the loop's
`dih++` brings it to `-1`, and the next pass reads the list at position `-1`,
before its first element. Nothing clamps the iterator. -/
theorem C4_unresolvable_at_first_dihedral_leaves_list :
    Init (1 / 100000000000000) Action_DihedralScan.new (randomArgs 4 1 2 true) =
      (RetType.OK, randomInit 4 1 2 true) ∧
    RandomizeAngles (randomScan 1 4 1 2 true) (fun _ => 0) (fun _ => -1) 10 =
      some (Outcome.outOfBounds,
        { dih := -1, next_dih := 0, number_of_rotations := 2, draws := 1, checks := 1
          trace := [ScanEvent.rotate 0 1, ScanEvent.check 0 (-1)] }) := by
  refine ⟨Init_randomArgs 4 1 2 true (by decide) (by decide) (by decide), ?_⟩
  unfold RandomizeAngles
  rw [draws_zero]
  decide

/-- C5 fails for `b = 4`, `i = 10`: eleven dihedrals, keywords `check
backtrack 4 increment 180 maxfactor 2`; the first ten checks report no clash,
the two checks at list position 10 report a clash (the retry loop of
`360 / 180 = 2` attempts is exhausted), and all later checks report no clash.
The positions rotated are `0 .. 10`, `10` again, and then `6` (not `5`), `7`,
`8`, `9`, `10`. -/
theorem C5_counterexample_b4_i10 :
    (RandomizeAngles (randomScan 11 4 180 2 true) (fun _ => 0)
        (fun k => if k = 10 ∨ k = 11 then 1 else 0) 40).map
        (fun r => (r.1, rotatedPositions r.2.trace)) =
      some (Outcome.completed, [0, 1, 2, 3, 4, 5, 6, 7, 8, 9, 10, 10, 6, 7, 8, 9, 10]) := by
  unfold RandomizeAngles
  rw [draws_zero]
  decide

/-- C5 as amended: after `Init` has accepted the keyword `backtrack b` in
random mode with `check`, when at a list position `i ≥ 0` inside the list all
`max_increment_ = 360 / increment` checks of the pass report a clash and the
counter stays within `max_rotations_`, the pass goes on and the next pass is at
list position `i - b` (with the look-ahead iterator at `i - b + 1`), after
`max_increment_` rotations of the dihedral at position `i`. -/
theorem C5_exhausted_retry_resumes_b_positions_back
    (SMALL : ℚ) (A0 A1 : Action_DihedralScan) (args : InitArgs) (b : Int)
    (dihs : List DihedralScanType) (max_rot : Int) (rc : List ResidueCheckType)
    (draw ck : Nat → Int) (fuel : Nat) (s : ScanState)
    (hrandom : args.hasRandom = true) (hcheck : args.hasCheck = true)
    (hb : args.backtrack = some b)
    (hInit : Init SMALL A0 args = (RetType.OK, A1))
    (hs : Reaches (afterSetup A1 dihs max_rot rc) draw ck s)
    (hi : 0 ≤ s.dih) (hne : s.dih ≠ (dihs.length : Int))
    (hclash : ∀ j : Nat, (j : Int) < A1.max_increment_ →
      ck (s.checks + j) ≠ 0 ∧ ck (s.checks + j) ≠ -1)
    (hbud : s.number_of_rotations + 1 ≤ max_rot)
    (hfuel : A1.max_increment_ ≤ fuel) :
    ∃ s', visit (afterSetup A1 dihs max_rot rc) draw ck fuel s = some (none, s') ∧
      s'.dih = s.dih - b ∧ s'.next_dih = s.dih - b + 1 ∧
      rotations s'.trace = rotations s.trace + A1.max_increment_.toNat ∧
      rotatedPositions s'.trace =
        rotatedPositions s.trace ++ List.replicate A1.max_increment_.toNat s.dih := by
  obtain ⟨_, hbt, hb0, _, _, _, hmi, _, hck, _⟩ := Init_random_ok SMALL A0 A1 args hrandom hInit
  rw [hb] at hbt hb0
  simp only [Option.getD_some] at hbt hb0
  rw [hcheck] at hck
  have hinc : (afterSetup A1 dihs max_rot rc).check_for_clashes_ = true →
      1 ≤ (afterSetup A1 dihs max_rot rc).max_increment_ := fun _ => hmi
  obtain ⟨hn, _, hle⟩ := hs.inv hinc
  have hle' : s.dih ≤ (dihs.length : Int) := hle
  obtain ⟨d, hd⟩ := dihAt_of_lt (afterSetup A1 dihs max_rot rc) s.dih hi
    (by show s.dih < (dihs.length : Int); omega)
  obtain ⟨nr, hnr⟩ := nextResnum_some _ s.dih d hd
  rw [← hn] at hnr
  obtain ⟨m, hm⟩ : ∃ m : Nat, ((m + 1 : Nat) : Int) = A1.max_increment_ :=
    ⟨A1.max_increment_.toNat - 1, by omega⟩
  have hv := visit_exhausted (afterSetup A1 dihs max_rot rc) draw ck fuel s d nr m hck hd hnr
    hm (fun j hj => hclash j (by omega)) (hclash m (by omega)).2
    (by omega) hbud
  refine ⟨_, hv, ?_, ?_, ?_, ?_⟩
  · show s.dih - max A1.backtrack_ 0 + 1 = s.dih - b
    rw [hbt, max_eq_left (by omega)]
    omega
  · show s.dih - max A1.backtrack_ 0 + 1 + 1 = s.dih - b + 1
    rw [hbt, max_eq_left (by omega)]
    omega
  · show rotations (s.trace ++ _) = _
    rw [rotations_append, rotations_clashTrace]
    omega
  · show rotatedPositions (s.trace ++ _) = _
    have hpos : ∀ (k : Nat) (t t' : Int),
        rotatedPositions (clashTrace s.dih nr t t' k) = List.replicate k s.dih := by
      intro k
      induction k with
      | zero => intro _ _; rfl
      | succ k ih =>
        intro t t'
        have := ih t' t'
        simp only [rotatedPositions] at this ⊢
        simp [clashTrace, List.replicate_succ, this]
    have e : A1.max_increment_.toNat = m + 1 := by omega
    rw [e]
    simp only [rotatedPositions, List.filterMap_append] at hpos ⊢
    rw [hpos]

/-- The instance `b = 4`, `i = 10` of the amended C5: eleven dihedrals,
keywords `check backtrack 4 increment 180 maxfactor 2`, ten passes accepted at
the first check, then two clashes at list position 10; the next pass is at
list position `10 - 4 = 6`. -/
theorem C5_exhausted_retry_resumes_b_positions_back_witness :
    ∃ s', visit
        (afterSetup (randomInit 4 180 2 true) ((List.range 11).map dihOfRes) 22 [])
        (fun _ => 0) (fun k => if k < 10 then 0 else 1) 5 (acceptedSoFar 10) = some (none, s') ∧
      s'.dih = (acceptedSoFar 10).dih - 4 ∧ s'.next_dih = (acceptedSoFar 10).dih - 4 + 1 ∧
      rotations s'.trace =
        rotations (acceptedSoFar 10).trace + (randomInit 4 180 2 true).max_increment_.toNat ∧
      rotatedPositions s'.trace =
        rotatedPositions (acceptedSoFar 10).trace ++
          List.replicate (randomInit 4 180 2 true).max_increment_.toNat (acceptedSoFar 10).dih :=
  C5_exhausted_retry_resumes_b_positions_back (1 / 100000000000000) Action_DihedralScan.new
    (randomInit 4 180 2 true) (randomArgs 4 180 2 true) 4 ((List.range 11).map dihOfRes) 22 []
    (fun _ => 0) (fun k => if k < 10 then 0 else 1) 5 (acceptedSoFar 10)
    rfl rfl rfl
    (Init_randomArgs 4 180 2 true (by decide) (by decide) (by decide))
    (Reaches.of_visitN 5 10 ScanState.init (acceptedSoFar 10) Reaches.init (by decide))
    (by decide) (by decide)
    (fun j _ => by
      have h : ¬ ((acceptedSoFar 10).checks + j < 10) := by
        show ¬ (10 + j < 10)
        omega
      simp [h])
    (by decide) (by decide)

/-- C6, on two dihedrals with the keywords `check backtrack 0 increment 360
maxfactor 2` (which `Init` accepts; `max_increment_ = 1`): every call of
`CheckResidue` returns 0 (no clash). The first rotation of the dihedral at list
position 0 is followed by the `break` of `loop_count == max_increment_`, so the
next pass is at position 0 again; the scan rotates that dihedral five times,
never reaches position 1 and is stopped by the safety valve. -/
theorem C6_noclash_on_last_attempt_backtracks :
    Init (1 / 100000000000000) Action_DihedralScan.new (randomArgs 0 360 2 true) =
      (RetType.OK, randomInit 0 360 2 true) ∧
    RandomizeAngles (randomScan 2 0 360 2 true) (fun _ => 0) (fun _ => 0) 10 =
      some (Outcome.aborted,
        { dih := -1, next_dih := 1, number_of_rotations := 5, draws := 5, checks := 5
          trace := [ScanEvent.rotate 0 1, ScanEvent.check 0 1, ScanEvent.rotate 0 1,
            ScanEvent.check 0 1, ScanEvent.rotate 0 1, ScanEvent.check 0 1,
            ScanEvent.rotate 0 1, ScanEvent.check 0 1, ScanEvent.rotate 0 1,
            ScanEvent.check 0 1] }) := by
  refine ⟨Init_randomArgs 0 360 2 true (by decide) (by decide) (by decide), ?_⟩
  unfold RandomizeAngles
  rw [draws_zero]
  decide

/-- C7: with clash checking, at a list position `i ≥ 1` inside the list, when
the checks of the pass report `k` clashes and then `-1` (`k < max_increment_`)
and the counter stays within `max_rotations_`, the pass goes on; its calls are
the `k` rotations with their checks, one more rotation and the check that
returned `-1`, and nothing after it; the next pass is at list position `i - 1`
(look-ahead iterator at `i`), and it starts with a rotation of the dihedral at
`i - 1` by the angle of the next draw. -/
theorem C7_unresolvable_retries_previous_dihedral
    (A : Action_DihedralScan) (draw ck : Nat → Int) (fuel : Nat) (s : ScanState) (k : Nat)
    (hc : A.check_for_clashes_ = true)
    (hs : Reaches A draw ck s)
    (hi : 1 ≤ s.dih) (hne : s.dih ≠ (A.BB_dihedrals_.length : Int))
    (hk : (k : Int) < A.max_increment_)
    (hclash : ∀ j, j < k → ck (s.checks + j) ≠ 0 ∧ ck (s.checks + j) ≠ -1)
    (hu : ck (s.checks + k) = -1)
    (hbud : s.number_of_rotations + 1 ≤ A.max_rotations_)
    (hfuel : A.max_increment_ ≤ fuel) :
    ∃ nr s', visit A draw ck fuel s = some (none, s') ∧
      s'.dih = s.dih - 1 ∧ s'.next_dih = s.dih ∧ s'.draws = s.draws + 1 ∧
      s'.trace = s.trace ++
        clashTrace s.dih nr (Int.tmod (draw s.draws) 360 + 1) A.increment_ k ++
        [ScanEvent.rotate s.dih (if k = 0 then Int.tmod (draw s.draws) 360 + 1
            else A.increment_),
          ScanEvent.check s.dih nr] ∧
      ∃ o t evs, visit A draw ck fuel s' = some (o, t) ∧
        t.trace = s'.trace ++
          ScanEvent.rotate (s.dih - 1) (Int.tmod (draw (s.draws + 1)) 360 + 1) :: evs := by
  have hinc : A.check_for_clashes_ = true → 1 ≤ A.max_increment_ := fun _ => by omega
  have hinv := hs.inv hinc
  have hn := hinv.1
  have hle := hinv.2.2
  obtain ⟨d, hd⟩ := dihAt_of_lt A s.dih (by omega) (by omega)
  obtain ⟨nr, hnr⟩ := nextResnum_some A s.dih d hd
  rw [← hn] at hnr
  have hv := visit_unresolvable A draw ck fuel s d nr k hc hd hnr hk hclash hu (by omega) hbud
  have hinv' := ((visit_post A draw ck fuel hinc s none _ hinv hne hv).1 rfl).1
  refine ⟨nr, _, hv, rfl, rfl, rfl, ?_, ?_⟩
  · show s.trace ++ clashTrace _ _ _ _ (k + 1) = _
    rw [clashTrace_succ, List.append_assoc]
  · obtain ⟨r, hr⟩ := visit_total A draw ck fuel hinc
      ⟨by omega, by unfold perVisit; rw [if_pos hc]; omega⟩
      { dih := s.dih - 1, next_dih := s.dih
        number_of_rotations := s.number_of_rotations + 1, draws := s.draws + 1
        checks := s.checks + k + 1
        trace := s.trace ++
          clashTrace s.dih nr (Int.tmod (draw s.draws) 360 + 1) A.increment_ (k + 1) }
    obtain ⟨o, t⟩ := r
    obtain ⟨_, v2, _, v4, _⟩ := visit_post A draw ck fuel hinc _ o t hinv'
      (by show s.dih - 1 ≠ _; omega) hr
    have hno : o ≠ some Outcome.outOfBounds := by
      intro ho
      have := (v4 ho).1
      simp only at this
      omega
    obtain ⟨_, _, _, _, _, _, evs, hevs⟩ := v2 hno
    exact ⟨o, t, evs, hr, hevs⟩

/-- An instance of C7: two dihedrals, default keywords with `check`; the check
at position 0 reports no clash, the first check at position 1 returns `-1`;
the next pass is at position 0. -/
theorem C7_unresolvable_retries_previous_dihedral_witness :
    ∃ nr s', visit (randomScan 2 4 1 2 true) (fun _ => 0) (fun k => if k = 0 then 0 else -1)
        360 (acceptedSoFar 1) = some (none, s') ∧
      s'.dih = (acceptedSoFar 1).dih - 1 ∧ s'.next_dih = (acceptedSoFar 1).dih ∧
      s'.draws = (acceptedSoFar 1).draws + 1 ∧
      s'.trace = (acceptedSoFar 1).trace ++
        clashTrace (acceptedSoFar 1).dih nr
          (Int.tmod ((fun _ => 0) (acceptedSoFar 1).draws) 360 + 1)
          (randomScan 2 4 1 2 true).increment_ 0 ++
        [ScanEvent.rotate (acceptedSoFar 1).dih
            (if 0 = 0 then Int.tmod ((fun _ => 0) (acceptedSoFar 1).draws) 360 + 1
              else (randomScan 2 4 1 2 true).increment_),
          ScanEvent.check (acceptedSoFar 1).dih nr] ∧
      ∃ o t evs, visit (randomScan 2 4 1 2 true) (fun _ => 0)
          (fun k => if k = 0 then 0 else -1) 360 s' = some (o, t) ∧
        t.trace = s'.trace ++
          ScanEvent.rotate ((acceptedSoFar 1).dih - 1)
            (Int.tmod ((fun _ => 0) ((acceptedSoFar 1).draws + 1)) 360 + 1) :: evs :=
  C7_unresolvable_retries_previous_dihedral (randomScan 2 4 1 2 true) (fun _ => 0)
    (fun k => if k = 0 then 0 else -1) 360 (acceptedSoFar 1) 0
    rfl
    (Reaches.of_visitN 3 1 ScanState.init (acceptedSoFar 1) Reaches.init (by decide))
    (by decide) (by decide) (by decide)
    (fun j hj => absurd hj (Nat.not_lt_zero j))
    (by decide) (by decide) (by decide)

/-- C8 fails on one dihedral with the keywords `check backtrack 0 increment
120 maxfactor 1` when every check reports a clash: the scan is stopped by the
safety valve with the counter at 2 after 6 rotations, more than
`N * maxFactor + 1 = 2`. -/
theorem C8_counterexample_six_rotations :
    (RandomizeAngles (randomScan 1 0 120 1 true) (fun _ => 0) (fun _ => 1) 10).map
        (fun r => (r.1, r.2.number_of_rotations, rotations r.2.trace)) =
      some (Outcome.aborted, 2, 6) := by
  unfold RandomizeAngles
  rw [draws_zero]
  decide

theorem wrapInt32_eq_self (x : Int) (h1 : -2147483648 ≤ x) (h2 : x ≤ 2147483647) :
    wrapInt32 x = x := by
  unfold wrapInt32
  omega

theorem wrapInt32_range (x : Int) :
    -2147483648 ≤ wrapInt32 x ∧ wrapInt32 x ≤ 2147483647 := by
  unfold wrapInt32
  omega

/-- Reducing a factor to 32 bits first does not change the 32-bit product. -/
theorem wrapInt32_wrap_mul (a b : Int) : wrapInt32 (wrapInt32 a * b) = wrapInt32 (a * b) := by
  have h : (wrapInt32 a * b + 2147483648) % 4294967296 =
      (a * b + 2147483648) % 4294967296 := by
    have e : wrapInt32 a * b + 2147483648 =
        (a * b + 2147483648) + 4294967296 * (-((a + 2147483648) / 4294967296) * b) := by
      unfold wrapInt32
      rw [Int.emod_def]
      ring
    rw [e, Int.add_mul_emod_self_left]
  unfold wrapInt32 at h ⊢
  rw [h]

/-- The threshold that `Setup` stores is the product `N * max_factor_` itself
when that product is an `int`. -/
theorem max_rotations_of_range (A : Action_DihedralScan)
    (hmax : A.max_rotations_ =
      wrapInt32 (wrapInt32 (A.BB_dihedrals_.length : Int) * A.max_factor_))
    (h1 : -2147483648 ≤ (A.BB_dihedrals_.length : Int) * A.max_factor_)
    (h2 : (A.BB_dihedrals_.length : Int) * A.max_factor_ ≤ 2147483647) :
    A.max_rotations_ = (A.BB_dihedrals_.length : Int) * A.max_factor_ := by
  rw [hmax, wrapInt32_wrap_mul, wrapInt32_eq_self _ h1 h2]

/-- Outside the range of `int` the threshold wraps: with the two dihedrals of
`N - CA - C` and `maxfactor 2147483647`, `Setup` stores `max_rotations_ = -2`,
and with three dihedrals and `maxfactor -1431655765` the 32-bit product is 1,
not the negative product `3 * -1431655765`. -/
theorem max_rotations_wraps :
    (Setup { Action_DihedralScan.new with max_factor_ := 2147483647 } topNCaC
        (some [true, true, true]) true).map
        (fun r => (r.1, r.2.BB_dihedrals_.length, r.2.max_rotations_))
      = some (RetType.OK, 2, -2) ∧
    (randomScan 2 4 1 2147483647 false).max_rotations_ = -2 ∧
    (randomScan 3 4 1 (-1431655765) true).max_rotations_ = 1 := by
  refine ⟨by decide, by decide, by decide⟩

/-- With the wrapped threshold `-2` of two dihedrals and `maxfactor
2147483647`, without clash checking, the safety valve fires after the first
rotation. -/
theorem maxfactor_large_aborts_after_one_rotation :
    RandomizeAngles (randomScan 2 4 1 2147483647 false) (fun _ => 0) (fun _ => 0) 10 =
      some (Outcome.aborted,
        { dih := 0, next_dih := 2, number_of_rotations := 1, draws := 1, checks := 0
          trace := [ScanEvent.rotate 0 1] }) := by
  unfold RandomizeAngles
  rw [draws_zero]
  decide

/-- C8 as amended: with `max_rotations_` the 32-bit product of `N` and
`max_factor_` as `Setup` stores it, this product being an `int` below
`2^31 - 1` (so that neither it nor the counter overflows), and
`max_increment_ ≥ 1` when clash checking is on, `RandomizeAngles` returns
when the fuel covers `max (N * max_factor_, 0) + 1` passes; unless an iterator
left the list, the counter is the number of passes made (one draw of the
random generator each), not the number of rotations; the scan is stopped by
the safety valve only with the counter above `N * max_factor_`, and it ends at
the end of the list only with the counter within it; the counter never
exceeds `max (N * max_factor_, 0) + 1`, and the rotations made are at most
`perVisit` (`max_increment_` with clash checking, one without) per pass. -/
theorem C8_counter_counts_passes
    (A : Action_DihedralScan) (rn_gen : Nat → ℚ) (ck : Nat → Int) (fuel : Nat)
    (hinc : A.check_for_clashes_ = true → 1 ≤ A.max_increment_)
    (hmax : A.max_rotations_ =
      wrapInt32 (wrapInt32 (A.BB_dihedrals_.length : Int) * A.max_factor_))
    (hlo : -2147483648 ≤ (A.BB_dihedrals_.length : Int) * A.max_factor_)
    (hhi : (A.BB_dihedrals_.length : Int) * A.max_factor_ < 2147483647)
    (hfuel : ((A.BB_dihedrals_.length : Int) * A.max_factor_).toNat + perVisit A + 2 ≤ fuel) :
    ∃ o s, RandomizeAngles A rn_gen ck fuel = some (o, s) ∧
      (o ≠ Outcome.outOfBounds → s.number_of_rotations = s.draws) ∧
      (o = Outcome.aborted → (A.BB_dihedrals_.length : Int) * A.max_factor_
        < s.number_of_rotations) ∧
      (o = Outcome.completed → s.number_of_rotations
        ≤ max ((A.BB_dihedrals_.length : Int) * A.max_factor_) 0) ∧
      s.number_of_rotations ≤ max ((A.BB_dihedrals_.length : Int) * A.max_factor_) 0 + 1 ∧
      rotations s.trace ≤ s.draws * perVisit A := by
  have hmax := max_rotations_of_range A hmax hlo (by omega)
  obtain ⟨o, s, e, c1, c2, c3, c4, _, c6, _⟩ :=
    scanLoop_spec A (fun k => truncToInt (rn_gen k * 100000)) ck hinc fuel ScanState.init
      (ScanInv_init A) (by
        show (A.max_rotations_ - 0).toNat + perVisit A + 2 ≤ fuel
        rw [hmax]
        simpa using hfuel)
  rw [hmax] at c1 c2 c4
  refine ⟨o, s, e, ?_, fun h => (c2 h).1, fun h => (c1 h).2.2, c4, ?_⟩
  · intro hne
    cases o with
    | completed => exact (c1 rfl).2.1
    | aborted => exact (c2 rfl).2
    | outOfBounds => exact absurd rfl hne
  · simpa [rotations_nil, ScanState.init] using c6

/-- An instance of the amended C8: one dihedral, keywords `check backtrack 0
increment 120 maxfactor 1`. -/
theorem C8_counter_counts_passes_witness :
    ∃ o s, RandomizeAngles (randomScan 1 0 120 1 true) (fun _ => 0) (fun _ => 1) 10
        = some (o, s) ∧
      (o ≠ Outcome.outOfBounds → s.number_of_rotations = s.draws) ∧
      (o = Outcome.aborted →
        (((randomScan 1 0 120 1 true).BB_dihedrals_.length : Nat) : Int) *
          (randomScan 1 0 120 1 true).max_factor_ < s.number_of_rotations) ∧
      (o = Outcome.completed → s.number_of_rotations
        ≤ max ((((randomScan 1 0 120 1 true).BB_dihedrals_.length : Nat) : Int) *
          (randomScan 1 0 120 1 true).max_factor_) 0) ∧
      s.number_of_rotations
        ≤ max ((((randomScan 1 0 120 1 true).BB_dihedrals_.length : Nat) : Int) *
          (randomScan 1 0 120 1 true).max_factor_) 0 + 1 ∧
      rotations s.trace ≤ s.draws * perVisit (randomScan 1 0 120 1 true) :=
  C8_counter_counts_passes (randomScan 1 0 120 1 true) (fun _ => 0) (fun _ => 1) 10
    (fun _ => by decide) (by decide) (by decide) (by decide) (by decide)

/-- C9, on two dihedrals with the keywords `check backtrack 4 increment 1
maxfactor 2` (which `Init` accepts): the check at list position 0 reports no
clash, the check at position 1 returns `-1`, and the check of the second pass
at position 0 returns `-1`. The scan then reads the list at position `-1`: it
stops with the counter at 4, within `max_rotations_ = 4`, and with `dih` not
at the end of the list. -/
theorem C9_stops_outside_the_list :
    Init (1 / 100000000000000) Action_DihedralScan.new (randomArgs 4 1 2 true) =
      (RetType.OK, randomInit 4 1 2 true) ∧
    RandomizeAngles (randomScan 2 4 1 2 true) (fun _ => 0) (fun k => if k = 0 then 0 else -1)
        10 =
      some (Outcome.outOfBounds,
        { dih := -1, next_dih := 0, number_of_rotations := 4, draws := 3, checks := 3
          trace := [ScanEvent.rotate 0 1, ScanEvent.check 0 1, ScanEvent.rotate 1 1,
            ScanEvent.check 1 0, ScanEvent.rotate 0 1, ScanEvent.check 0 1] }) := by
  refine ⟨Init_randomArgs 4 1 2 true (by decide) (by decide) (by decide), ?_⟩
  unfold RandomizeAngles
  rw [draws_zero]
  decide

/-- Without clash checking, from list position `s.dih` with `r` dihedrals
left and the counter staying within `max_rotations_`, the loop over the
dihedrals rotates each of them once, in order, and ends at the end of the list
without any call of `CheckResidue`. -/
theorem scanLoop_nocheck (A : Action_DihedralScan) (draw ck : Nat → Int)
    (hc : A.check_for_clashes_ = false) :
    ∀ (r fuel : Nat) (s : ScanState),
      s.dih + r = (A.BB_dihedrals_.length : Int) → 0 ≤ s.dih → s.next_dih = s.dih + 1 →
      s.number_of_rotations + r ≤ A.max_rotations_ → r + 1 ≤ fuel →
      scanLoop A draw ck fuel s = some (Outcome.completed,
        { dih := (A.BB_dihedrals_.length : Int)
          next_dih := (A.BB_dihedrals_.length : Int) + 1
          number_of_rotations := s.number_of_rotations + r
          draws := s.draws + r
          checks := s.checks
          trace := s.trace ++ (List.range r).map (fun j : Nat =>
            ScanEvent.rotate (s.dih + (j : Int))
              (Int.tmod (draw (s.draws + j)) 360 + 1)) }) := by
  intro r
  induction r with
  | zero =>
    intro fuel s hN _ hn _ hfuel
    obtain ⟨f, rfl⟩ : ∃ f, fuel = f + 1 := ⟨fuel - 1, by omega⟩
    have hend : s.dih = (A.BB_dihedrals_.length : Int) := by simpa using hN
    simp only [scanLoop, hend, if_true]
    cases s
    simp_all
  | succ r ih =>
    intro fuel s hN h0 hn hbud hfuel
    obtain ⟨f, rfl⟩ : ∃ f, fuel = (f + 1) + 1 := ⟨fuel - 2, by omega⟩
    have hne : s.dih ≠ (A.BB_dihedrals_.length : Int) := by push_cast at hN; omega
    obtain ⟨d, hd⟩ := dihAt_of_lt A s.dih h0 (by push_cast at hN; omega)
    obtain ⟨nr, hnr⟩ := nextResnum_some A s.dih d hd
    rw [← hn] at hnr
    have hv := visit_nocheck A draw ck f s d nr hc hd hnr
    rw [if_neg (by push_cast at hbud; omega)] at hv
    rw [scanLoop, if_neg hne, hv]
    simp only
    rw [ih (f + 1) _ (by simp only; push_cast at hN; omega) (by simp only; omega)
      (by simp only; omega) (by simp only; push_cast at hbud; omega) (by omega)]
    simp only [List.range_succ_eq_map, List.map_cons, List.map_map, List.append_assoc,
      List.singleton_append, Nat.cast_zero, add_zero, Nat.add_zero]
    have hmap : List.map (fun j : Nat => ScanEvent.rotate (s.dih + 1 + (j : Int))
          (Int.tmod (draw (s.draws + 1 + j)) 360 + 1)) (List.range r) =
        List.map ((fun j : Nat => ScanEvent.rotate (s.dih + (j : Int))
          (Int.tmod (draw (s.draws + j)) 360 + 1)) ∘ Nat.succ) (List.range r) := by
      apply List.map_congr_left
      intro j _
      simp only [Function.comp, Nat.succ_eq_add_one]
      rw [show s.dih + 1 + (j : Int) = s.dih + ((j + 1 : Nat) : Int) by push_cast; ring,
        show s.draws + 1 + j = s.draws + (j + 1) by omega]
    rw [hmap]
    congr 3
    · push_cast; ring
    · omega

/-- C10 fails for `maxfactor 0`, which `Init` accepts: with two dihedrals and
without clash checking, the safety valve fires after the first rotation
(counter `1 > 2 * 0`), so one rotation is made instead of two. -/
theorem C10_counterexample_maxfactor_zero :
    Init (1 / 100000000000000) Action_DihedralScan.new (randomArgs 4 1 0 false) =
      (RetType.OK, randomInit 4 1 0 false) ∧
    RandomizeAngles (randomScan 2 4 1 0 false) (fun _ => 0) (fun _ => 0) 10 =
      some (Outcome.aborted,
        { dih := 0, next_dih := 2, number_of_rotations := 1, draws := 1, checks := 0
          trace := [ScanEvent.rotate 0 1] }) := by
  refine ⟨Init_randomArgs 4 1 0 false (by decide) (by decide) (by decide), ?_⟩
  unfold RandomizeAngles
  rw [draws_zero]
  decide

/-- C10 as amended: without clash checking, with `max_rotations_` the 32-bit
product of `N` and `max_factor_` as `Setup` stores it, `max_factor_ ≥ 1` and
`N * max_factor_ ≤ 2^31 - 1` (the product is an `int`), for every list of `N`
dihedrals and every sequence of draws, `RandomizeAngles` returns (fuel `N + 1`
suffices) at the end of the list, not by the safety valve; it makes no call of
`CheckResidue` and exactly `N` rotations, one of each dihedral in list order,
the `i`-th by the angle `((int)(r_i * 100000) % 360) + 1` of the `i`-th
draw. -/
theorem C10_nocheck_rotates_each_dihedral_once
    (A : Action_DihedralScan) (rn_gen : Nat → ℚ) (ck : Nat → Int) (fuel : Nat)
    (hc : A.check_for_clashes_ = false)
    (hmax : A.max_rotations_ =
      wrapInt32 (wrapInt32 (A.BB_dihedrals_.length : Int) * A.max_factor_))
    (hmf : 1 ≤ A.max_factor_)
    (hhi : (A.BB_dihedrals_.length : Int) * A.max_factor_ ≤ 2147483647)
    (hfuel : A.BB_dihedrals_.length + 1 ≤ fuel) :
    RandomizeAngles A rn_gen ck fuel = some (Outcome.completed,
      { dih := (A.BB_dihedrals_.length : Int)
        next_dih := (A.BB_dihedrals_.length : Int) + 1
        number_of_rotations := (A.BB_dihedrals_.length : Int)
        draws := A.BB_dihedrals_.length
        checks := 0
        trace := (List.range A.BB_dihedrals_.length).map (fun i : Nat =>
          ScanEvent.rotate (i : Int)
            (Int.tmod (truncToInt (rn_gen i * 100000)) 360 + 1)) }) := by
  have hN : (0 : Int) ≤ (A.BB_dihedrals_.length : Int) := Int.natCast_nonneg _
  have hge : (A.BB_dihedrals_.length : Int) ≤
      (A.BB_dihedrals_.length : Int) * A.max_factor_ := by
    nlinarith
  have hle : (A.BB_dihedrals_.length : Int) ≤ A.max_rotations_ := by
    rw [max_rotations_of_range A hmax (by omega) hhi]
    exact hge
  unfold RandomizeAngles
  rw [scanLoop_nocheck A _ ck hc A.BB_dihedrals_.length fuel ScanState.init
    (by simp [ScanState.init]) (by simp [ScanState.init]) rfl
    (by simpa [ScanState.init] using hle) hfuel]
  simp [ScanState.init]

/-- An instance of the amended C10: three dihedrals, `maxfactor 2`, no clash
checking. -/
theorem C10_nocheck_rotates_each_dihedral_once_witness :
    RandomizeAngles (randomScan 3 4 1 2 false) (fun _ => 0) (fun _ => 1) 4 =
      some (Outcome.completed,
        { dih := ((randomScan 3 4 1 2 false).BB_dihedrals_.length : Int)
          next_dih := ((randomScan 3 4 1 2 false).BB_dihedrals_.length : Int) + 1
          number_of_rotations := ((randomScan 3 4 1 2 false).BB_dihedrals_.length : Int)
          draws := (randomScan 3 4 1 2 false).BB_dihedrals_.length
          checks := 0
          trace := (List.range (randomScan 3 4 1 2 false).BB_dihedrals_.length).map (fun i : Nat =>
            ScanEvent.rotate (i : Int)
              (Int.tmod (truncToInt ((fun _ => (0 : ℚ)) i * 100000)) 360 + 1)) }) :=
  C10_nocheck_rotates_each_dihedral_once (randomScan 3 4 1 2 false) (fun _ => 0) (fun _ => 1) 4
    rfl (by decide) (by decide) (by decide) (by decide)

/-! ## CheckResidue (C11, C12, C13) -/

theorem DIST2_NoImage_comm (a b : ℚ × ℚ × ℚ) : DIST2_NoImage a b = DIST2_NoImage b a := by
  unfold DIST2_NoImage
  ring

theorem mem_selfPairs (rstart rstop x y : Nat) :
    (x, y) ∈ selfPairs rstart rstop ↔ rstart ≤ x ∧ x < y ∧ y < rstop := by
  simp only [selfPairs, List.mem_flatMap, List.mem_map, List.mem_range', Prod.mk.injEq]
  constructor
  · rintro ⟨a, ⟨i, hi, rfl⟩, b, ⟨j, hj, rfl⟩, h1, h2⟩
    omega
  · rintro ⟨h1, h2, h3⟩
    exact ⟨x, ⟨x - rstart, by omega, by omega⟩, y, ⟨y - (x + 1), by omega, by omega⟩, rfl, rfl⟩

theorem mem_crossPairs (rstart rstop rstart2 rstop2 x y : Nat) :
    (x, y) ∈ crossPairs rstart rstop rstart2 rstop2 ↔
      (rstart ≤ x ∧ x < rstop) ∧ (rstart2 ≤ y ∧ y < rstop2) := by
  simp only [crossPairs, List.mem_flatMap, List.mem_map, List.mem_range', Prod.mk.injEq]
  constructor
  · rintro ⟨a, ⟨i, hi, rfl⟩, b, ⟨j, hj, rfl⟩, h1, h2⟩
    omega
  · rintro ⟨⟨h1, h2⟩, h3, h4⟩
    exact ⟨x, ⟨x - rstart, by omega, by omega⟩, y, ⟨y - rstart2, by omega, by omega⟩, rfl, rfl⟩

theorem firstClose_eq_none (FrameIn : Frame) (cutoff_ : ℚ) (pairs : List (Nat × Nat)) :
    firstClose FrameIn cutoff_ pairs = none ↔
      ∀ p ∈ pairs, ¬ DIST2_NoImage (FrameIn p.1) (FrameIn p.2) < cutoff_ := by
  simp [firstClose, List.find?_eq_none]

theorem firstClose_some (FrameIn : Frame) (cutoff_ : ℚ) (pairs : List (Nat × Nat))
    (a b : Nat) (h : firstClose FrameIn cutoff_ pairs = some (a, b)) :
    (a, b) ∈ pairs ∧ DIST2_NoImage (FrameIn a) (FrameIn b) < cutoff_ := by
  unfold firstClose at h
  refine ⟨List.mem_of_find?_eq_some h, ?_⟩
  simpa using List.find?_some h

/-- The scans of two residues against each other find a pair below the cutoff
together or not at all. -/
theorem firstClose_crossPairs_none_comm (FrameIn : Frame) (cutoff_ : ℚ)
    (s e s2 e2 : Nat) :
    firstClose FrameIn cutoff_ (crossPairs s e s2 e2) = none ↔
      firstClose FrameIn cutoff_ (crossPairs s2 e2 s e) = none := by
  rw [firstClose_eq_none, firstClose_eq_none]
  constructor
  · rintro h ⟨x, y⟩ hp
    have := h (y, x) ((mem_crossPairs _ _ _ _ _ _).mpr ((mem_crossPairs _ _ _ _ _ _).mp hp).symm)
    rwa [DIST2_NoImage_comm] at this
  · rintro h ⟨x, y⟩ hp
    have := h (y, x) ((mem_crossPairs _ _ _ _ _ _).mpr ((mem_crossPairs _ _ _ _ _ _).mp hp).symm)
    rwa [DIST2_NoImage_comm] at this

/-- Residues in which the loop over the residues finds nothing are passed
over. -/
theorem checkOthers_append_clean (A : Action_DihedralScan) (FrameIn : Frame)
    (dih : DihedralScanType) (rstart rstop rcheck : Nat) (clash : ℚ) (l2 : List Nat) :
    ∀ l1 : List Nat,
      (∀ res ∈ l1, res ≠ dih.resnum → ∃ rc2, A.ResCheck_.get? res = some rc2 ∧
        (DIST2_NoImage (FrameIn rcheck) (FrameIn rc2.checkatom) < A.rescutoff_ →
          firstClose FrameIn A.cutoff_ (crossPairs rstart rstop rc2.start rc2.stop) = none)) →
      checkOthers A FrameIn dih rstart rstop rcheck clash (l1 ++ l2) =
        checkOthers A FrameIn dih rstart rstop rcheck clash l2 := by
  intro l1
  induction l1 with
  | nil => intro _; rfl
  | cons res rest ih =>
    intro h
    have ih' := ih (fun r hr => h r (by simp [hr]))
    rw [List.cons_append, checkOthers]
    by_cases hres : res = dih.resnum
    · rw [if_pos hres]; exact ih'
    · rw [if_neg hres]
      obtain ⟨rc2, hrc2, hclean⟩ := h res (by simp) hres
      rw [hrc2]
      simp only
      by_cases hD : DIST2_NoImage (FrameIn rcheck) (FrameIn rc2.checkatom) < A.rescutoff_
      · rw [if_pos hD, hclean hD]
        exact ih'
      · rw [if_neg hD]; exact ih'

/-- The loop over the residues at a residue in which it finds a pair. -/
theorem checkOthers_cons_found (A : Action_DihedralScan) (FrameIn : Frame)
    (dih : DihedralScanType) (rstart rstop rcheck : Nat) (clash : ℚ) (res : Nat)
    (rest : List Nat) (rc2 : ResidueCheckType) (a b : Nat)
    (hres : res ≠ dih.resnum) (hrc2 : A.ResCheck_.get? res = some rc2)
    (hD : DIST2_NoImage (FrameIn rcheck) (FrameIn rc2.checkatom) < A.rescutoff_)
    (hfirst : firstClose FrameIn A.cutoff_ (crossPairs rstart rstop rc2.start rc2.stop)
      = some (a, b)) :
    checkOthers A FrameIn dih rstart rstop rcheck clash (res :: rest) =
      some (if a ∈ dih.checkAtoms then -1 else 1, DIST2_NoImage (FrameIn a) (FrameIn b)) := by
  rw [checkOthers, if_neg hres, hrc2]
  simp only
  rw [if_pos hD, hfirst]

/-- What the loop over the residues returns when `ResCheck_` has all the
residues of the list: 0 with `*clash` untouched when it finds no pair, and
otherwise 1 or -1 with the squared distance of the first pair found, -1 exactly
when the atom of the own residue is in `checkAtoms`. -/
theorem checkOthers_spec (A : Action_DihedralScan) (FrameIn : Frame)
    (dih : DihedralScanType) (rstart rstop rcheck : Nat) (clash : ℚ) :
    ∀ l : List Nat, (∀ res ∈ l, res < A.ResCheck_.length) →
      ∃ r c, checkOthers A FrameIn dih rstart rstop rcheck clash l = some (r, c) ∧
        ((r = 0 ∧ c = clash ∧ ∀ res ∈ l, res ≠ dih.resnum → ∀ rc2,
            A.ResCheck_.get? res = some rc2 →
            DIST2_NoImage (FrameIn rcheck) (FrameIn rc2.checkatom) < A.rescutoff_ →
            firstClose FrameIn A.cutoff_ (crossPairs rstart rstop rc2.start rc2.stop) = none) ∨
         ((r = 1 ∨ r = -1) ∧ c < A.cutoff_ ∧ ∃ res ∈ l, res ≠ dih.resnum ∧ ∃ rc2,
            A.ResCheck_.get? res = some rc2 ∧
            DIST2_NoImage (FrameIn rcheck) (FrameIn rc2.checkatom) < A.rescutoff_ ∧
            ∃ a b, firstClose FrameIn A.cutoff_
                (crossPairs rstart rstop rc2.start rc2.stop) = some (a, b) ∧
              r = (if a ∈ dih.checkAtoms then -1 else 1) ∧
              c = DIST2_NoImage (FrameIn a) (FrameIn b))) := by
  intro l
  induction l with
  | nil => intro _; exact ⟨0, clash, rfl, Or.inl ⟨rfl, rfl, by simp⟩⟩
  | cons res rest ih =>
    intro hlen
    obtain ⟨r, c, e, hrc⟩ := ih (fun x hx => hlen x (by simp [hx]))
    have lift : ∃ r c, checkOthers A FrameIn dih rstart rstop rcheck clash rest = some (r, c) ∧
        ((r = 0 ∧ c = clash ∧ ∀ res' ∈ rest, res' ≠ dih.resnum → ∀ rc2,
            A.ResCheck_.get? res' = some rc2 →
            DIST2_NoImage (FrameIn rcheck) (FrameIn rc2.checkatom) < A.rescutoff_ →
            firstClose FrameIn A.cutoff_ (crossPairs rstart rstop rc2.start rc2.stop) = none) ∨
         ((r = 1 ∨ r = -1) ∧ c < A.cutoff_ ∧ ∃ res' ∈ res :: rest, res' ≠ dih.resnum ∧ ∃ rc2,
            A.ResCheck_.get? res' = some rc2 ∧
            DIST2_NoImage (FrameIn rcheck) (FrameIn rc2.checkatom) < A.rescutoff_ ∧
            ∃ a b, firstClose FrameIn A.cutoff_
                (crossPairs rstart rstop rc2.start rc2.stop) = some (a, b) ∧
              r = (if a ∈ dih.checkAtoms then -1 else 1) ∧
              c = DIST2_NoImage (FrameIn a) (FrameIn b))) := by
      refine ⟨r, c, e, ?_⟩
      rcases hrc with h | ⟨h1, h2, res', hmem, h3⟩
      · exact Or.inl h
      · exact Or.inr ⟨h1, h2, res', by simp [hmem], h3⟩
    by_cases hres : res = dih.resnum
    · obtain ⟨r, c, e, hrc⟩ := lift
      refine ⟨r, c, by rw [checkOthers, if_pos hres, e], ?_⟩
      rcases hrc with ⟨h1, h2, h3⟩ | h
      · refine Or.inl ⟨h1, h2, ?_⟩
        intro x hx hne
        rcases List.mem_cons.mp hx with rfl | hx
        · exact absurd hres hne
        · exact h3 x hx hne
      · exact Or.inr h
    · have hlt : res < A.ResCheck_.length := hlen res (by simp)
      have hget : A.ResCheck_.get? res = some (A.ResCheck_.get ⟨res, hlt⟩) :=
        List.get?_eq_get hlt
      by_cases hD : DIST2_NoImage (FrameIn rcheck)
          (FrameIn (A.ResCheck_.get ⟨res, hlt⟩).checkatom) < A.rescutoff_
      · cases hf : firstClose FrameIn A.cutoff_ (crossPairs rstart rstop
            (A.ResCheck_.get ⟨res, hlt⟩).start (A.ResCheck_.get ⟨res, hlt⟩).stop) with
        | some p =>
          obtain ⟨a, b⟩ := p
          refine ⟨_, _, checkOthers_cons_found A FrameIn dih rstart rstop rcheck clash res rest
            _ a b hres hget hD hf, Or.inr ⟨?_, (firstClose_some _ _ _ a b hf).2, res, by simp,
            hres, _, hget, hD, a, b, hf, rfl, rfl⟩⟩
          by_cases ha : a ∈ dih.checkAtoms
          · right; rw [if_pos ha]
          · left; rw [if_neg ha]
        | none =>
          obtain ⟨r, c, e, hrc⟩ := lift
          refine ⟨r, c, ?_, ?_⟩
          · rw [checkOthers, if_neg hres, hget]
            simp only
            rw [if_pos hD, hf, e]
          · rcases hrc with ⟨h1, h2, h3⟩ | h
            · refine Or.inl ⟨h1, h2, ?_⟩
              intro x hx hne rc2 hx2 hxD
              rcases List.mem_cons.mp hx with rfl | hx
              · rw [hget] at hx2
                cases hx2
                exact hf
              · exact h3 x hx hne rc2 hx2 hxD
            · exact Or.inr h
      · obtain ⟨r, c, e, hrc⟩ := lift
        refine ⟨r, c, ?_, ?_⟩
        · rw [checkOthers, if_neg hres, hget]
          simp only
          rw [if_neg hD, e]
        · rcases hrc with ⟨h1, h2, h3⟩ | h
          · refine Or.inl ⟨h1, h2, ?_⟩
            intro x hx hne rc2 hx2 hxD
            rcases List.mem_cons.mp hx with rfl | hx
            · rw [hget] at hx2
              cases hx2
              exact absurd hxD hD
            · exact h3 x hx hne rc2 hx2 hxD
          · exact Or.inr h

theorem CheckResidue_self_found (A : Action_DihedralScan) (FrameIn : Frame)
    (dih : DihedralScanType) (nextres : Int) (clash : ℚ) (rc : ResidueCheckType) (a b : Nat)
    (hrc : A.ResCheck_.get? dih.resnum = some rc)
    (hself : firstClose FrameIn A.cutoff_ (selfPairs rc.start rc.stop) = some (a, b)) :
    CheckResidue A FrameIn dih nextres clash =
      some (1, DIST2_NoImage (FrameIn a) (FrameIn b)) := by
  rw [CheckResidue, hrc]
  simp only
  rw [hself]

theorem CheckResidue_self_none (A : Action_DihedralScan) (FrameIn : Frame)
    (dih : DihedralScanType) (nextres : Int) (clash : ℚ) (rc : ResidueCheckType)
    (hrc : A.ResCheck_.get? dih.resnum = some rc)
    (hself : firstClose FrameIn A.cutoff_ (selfPairs rc.start rc.stop) = none) :
    CheckResidue A FrameIn dih nextres clash =
      checkOthers A FrameIn dih rc.start rc.stop rc.checkatom clash
        (List.range (nextres + 1).toNat) := by
  rw [CheckResidue, hrc]
  simp only
  rw [hself]

theorem range_split (n res : Nat) (h : res < n) :
    List.range n = List.range res ++ res :: List.range' (res + 1) (n - (res + 1)) := by
  have hn : n = (n - (res + 1) + 1) + res := by omega
  conv_lhs => rw [hn]
  rw [List.range_eq_range', List.range_eq_range', ← List.range'_append_1, Nat.zero_add,
    List.range'_succ]

/-- Claim C11, as the code has it: when the loop over the residues of
`CheckResidue` comes to its first pair `(a, b)` below the cutoff (`a` in the
residue of the dihedral, `b` in the other residue `res`), it returns -1
(Unresolvable) exactly when `a` is in `checkAtoms` and 1 (Clash) otherwise, and
reports the squared distance of that pair; `b` is not looked up in
`checkAtoms`. When all of `checkAtoms` lies in the range of the residue of the
dihedral and the other residue does not overlap that range, this is the same as
asking whether `a` or `b` is in `checkAtoms`. -/
theorem C11_unresolvable_iff_own_atom_in_checkAtoms (A : Action_DihedralScan)
    (FrameIn : Frame) (dih : DihedralScanType) (nextres : Int) (clash : ℚ)
    (rc rc2 : ResidueCheckType) (res a b : Nat)
    (hrc : A.ResCheck_.get? dih.resnum = some rc)
    (hself : firstClose FrameIn A.cutoff_ (selfPairs rc.start rc.stop) = none)
    (hres : res ≠ dih.resnum) (hlim : (res : Int) ≤ nextres)
    (hrc2 : A.ResCheck_.get? res = some rc2)
    (hD : DIST2_NoImage (FrameIn rc.checkatom) (FrameIn rc2.checkatom) < A.rescutoff_)
    (hearlier : ∀ r, r < res → r ≠ dih.resnum → ∃ rc3, A.ResCheck_.get? r = some rc3 ∧
      (DIST2_NoImage (FrameIn rc.checkatom) (FrameIn rc3.checkatom) < A.rescutoff_ →
        firstClose FrameIn A.cutoff_ (crossPairs rc.start rc.stop rc3.start rc3.stop) = none))
    (hfirst : firstClose FrameIn A.cutoff_ (crossPairs rc.start rc.stop rc2.start rc2.stop)
      = some (a, b)) :
    CheckResidue A FrameIn dih nextres clash =
        some (if a ∈ dih.checkAtoms then -1 else 1, DIST2_NoImage (FrameIn a) (FrameIn b)) ∧
      (rc.start ≤ a ∧ a < rc.stop) ∧ (rc2.start ≤ b ∧ b < rc2.stop) ∧
      DIST2_NoImage (FrameIn a) (FrameIn b) < A.cutoff_ ∧
      ((∀ x ∈ dih.checkAtoms, rc.start ≤ x ∧ x < rc.stop) →
        (rc2.stop ≤ rc.start ∨ rc.stop ≤ rc2.start) →
        (a ∈ dih.checkAtoms ↔ a ∈ dih.checkAtoms ∨ b ∈ dih.checkAtoms)) := by
  obtain ⟨hmem, hlt⟩ := firstClose_some _ _ _ a b hfirst
  have hab := (mem_crossPairs _ _ _ _ _ _).mp hmem
  refine ⟨?_, hab.1, hab.2, hlt, ?_⟩
  · rw [CheckResidue_self_none A FrameIn dih nextres clash rc hrc hself,
      range_split (nextres + 1).toNat res (by omega),
      checkOthers_append_clean A FrameIn dih rc.start rc.stop rc.checkatom clash _
        (List.range res) (fun r hr hne => hearlier r (List.mem_range.mp hr) hne)]
    exact checkOthers_cons_found A FrameIn dih rc.start rc.stop rc.checkatom clash res _ rc2
      a b hres hrc2 hD hfirst
  · intro hin hdisj
    constructor
    · exact Or.inl
    · rintro (h | h)
      · exact h
      · have := hin b h
        omega

/-- Claim C11, an instance: residues `[0, 2)` and `[2, 4)`, the dihedral in
residue 1 with `checkAtoms = [3]`; the first pair below the cutoff is `(3, 0)`
and atom 3 is in `checkAtoms`: the result is -1 with the squared distance 1/4
of that pair. -/
theorem C11_unresolvable_iff_own_atom_in_checkAtoms_witness :
    CheckResidue (checkScan (64/100) 100 [(0, 2), (2, 4)])
      (frameOf [(0, 0, 0), (0, -2, 0), (0, 2, 0), (1/2, 0, 0)]) (dihCheck 1 [3]) 1 0
      = some (-1, 1/4) := by
  have h := (C11_unresolvable_iff_own_atom_in_checkAtoms
    (checkScan (64/100) 100 [(0, 2), (2, 4)])
    (frameOf [(0, 0, 0), (0, -2, 0), (0, 2, 0), (1/2, 0, 0)]) (dihCheck 1 [3]) 1 0
    ⟨2, 2, 4, 1⟩ ⟨0, 0, 2, 0⟩ 0 3 0 (by decide)
    (by norm_num [firstClose, selfPairs, frameOf, DIST2_NoImage, List.range', checkScan,
      Action_DihedralScan.new])
    (by decide) (by decide) (by decide)
    (by norm_num [frameOf, DIST2_NoImage, checkScan, Action_DihedralScan.new])
    (by intro r hr; omega)
    (by norm_num [firstClose, crossPairs, frameOf, DIST2_NoImage, List.range', checkScan,
      Action_DihedralScan.new])).1
  rw [h]
  norm_num [dihCheck, frameOf, DIST2_NoImage]

/-- Claim C11, counterexample: on `H - N - CA - C` with `H`, `N` in residue 0
and `CA`, `C` in residue 1, `Setup` gives the bond `N - CA` the residue 1 and
`checkAtoms = [0, 2]`. With `C` (atom 3) close to `H` (atom 0) the first pair
below the cutoff is `(3, 0)`; atom 0 is in `checkAtoms`, and `CheckResidue`
returns 1 (Clash), not -1. -/
theorem C11_counterexample_other_atom_in_checkAtoms :
    (Setup (checkScan (64/100) 100 []) topHNCaC (some [true, true, true, true]) true).map
        (fun r => (r.1, r.2.BB_dihedrals_.map (fun d => (d.atom1, d.atom2, d.resnum))))
      = some (RetType.OK,
          [(dihHNCaC.atom1, dihHNCaC.atom2, dihHNCaC.resnum), (2, 3, 1)]) ∧
    (Setup (checkScan (64/100) 100 []) topHNCaC (some [true, true, true, true]) true).map
        (fun r => r.2.BB_dihedrals_.map (fun d => (d.Rmask, d.checkAtoms)))
      = some [(dihHNCaC.Rmask, dihHNCaC.checkAtoms), ([2], [3, 3])] ∧
    (Setup (checkScan (64/100) 100 []) topHNCaC (some [true, true, true, true]) true).map
        (fun r => r.2.ResCheck_)
      = some (checkScan (64/100) 100 [(0, 2), (2, 4)]).ResCheck_ ∧
    firstClose (frameOf [(0, 0, 0), (0, -2, 0), (0, 2, 0), (1/2, 0, 0)]) (64/100)
      (crossPairs 2 4 0 2) = some (3, 0) ∧
    0 ∈ dihHNCaC.checkAtoms ∧
    CheckResidue (checkScan (64/100) 100 [(0, 2), (2, 4)])
      (frameOf [(0, 0, 0), (0, -2, 0), (0, 2, 0), (1/2, 0, 0)]) dihHNCaC 1 0
      = some (1, 1/4) := by
  refine ⟨by decide, by decide, by decide, ?_, by decide, ?_⟩
  · norm_num [firstClose, crossPairs, frameOf, DIST2_NoImage, List.range']
  · norm_num [CheckResidue, checkOthers, firstClose, selfPairs, crossPairs, frameOf,
      DIST2_NoImage, List.range', List.range, List.range.loop, checkScan, dihHNCaC,
      Action_DihedralScan.new]

/-- Claim C12: when `ResCheck_` has the residue of the dihedral, and some two
distinct atoms in the range `[start, stop)` of that residue have a squared
distance below `cutoff_`, `CheckResidue` returns 1 (Clash) and reports a squared
distance below `cutoff_`; when no pair of that range and no pair of the residues
that the loop over the residues compares atom by atom has a squared distance
below `cutoff_`, it returns 0 (NoClash) and leaves `*clash` as it was. -/
theorem C12_self_clash_and_noclash (A : Action_DihedralScan) (FrameIn : Frame)
    (dih : DihedralScanType) (nextres : Int) (clash : ℚ) (rc : ResidueCheckType)
    (hrc : A.ResCheck_.get? dih.resnum = some rc) :
    ((∃ x y, x ≠ y ∧ (rc.start ≤ x ∧ x < rc.stop) ∧ (rc.start ≤ y ∧ y < rc.stop) ∧
        DIST2_NoImage (FrameIn x) (FrameIn y) < A.cutoff_) →
      ∃ c, CheckResidue A FrameIn dih nextres clash = some (1, c) ∧ c < A.cutoff_) ∧
    ((∀ p ∈ selfPairs rc.start rc.stop,
        ¬ DIST2_NoImage (FrameIn p.1) (FrameIn p.2) < A.cutoff_) →
      (∀ res : Nat, (res : Int) ≤ nextres → res ≠ dih.resnum →
        ∃ rc2, A.ResCheck_.get? res = some rc2 ∧
          (DIST2_NoImage (FrameIn rc.checkatom) (FrameIn rc2.checkatom) < A.rescutoff_ →
            ∀ p ∈ crossPairs rc.start rc.stop rc2.start rc2.stop,
              ¬ DIST2_NoImage (FrameIn p.1) (FrameIn p.2) < A.cutoff_)) →
      CheckResidue A FrameIn dih nextres clash = some (0, clash)) := by
  constructor
  · rintro ⟨x, y, hne, hx, hy, hlt⟩
    have hsome : firstClose FrameIn A.cutoff_ (selfPairs rc.start rc.stop) ≠ none := by
      rw [Ne, firstClose_eq_none]
      intro hall
      rcases Nat.lt_or_gt_of_ne hne with h | h
      · exact hall (x, y) ((mem_selfPairs _ _ _ _).mpr ⟨hx.1, h, hy.2⟩) hlt
      · exact hall (y, x) ((mem_selfPairs _ _ _ _).mpr ⟨hy.1, h, hx.2⟩)
          (by rw [DIST2_NoImage_comm]; exact hlt)
    cases hf : firstClose FrameIn A.cutoff_ (selfPairs rc.start rc.stop) with
    | none => exact absurd hf hsome
    | some p =>
      obtain ⟨a, b⟩ := p
      exact ⟨_, CheckResidue_self_found A FrameIn dih nextres clash rc a b hrc hf,
        (firstClose_some _ _ _ a b hf).2⟩
  · intro hself hothers
    rw [CheckResidue_self_none A FrameIn dih nextres clash rc hrc
      ((firstClose_eq_none _ _ _).mpr hself)]
    have := checkOthers_append_clean A FrameIn dih rc.start rc.stop rc.checkatom clash []
      (List.range (nextres + 1).toNat) (by
        intro res hmem hne
        have hlt := List.mem_range.mp hmem
        obtain ⟨rc2, h1, h2⟩ := hothers res (by omega) hne
        exact ⟨rc2, h1, fun hD => (firstClose_eq_none _ _ _).mpr (h2 hD)⟩)
    rw [List.append_nil] at this
    rw [this]
    rfl

/-- Claim C12, the instance of the specification: two atoms of one residue at
the squared distance 1/2 give 1 (Clash) with the squared cutoff 0.64 and 0
(NoClash) with the squared cutoff 0.3. -/
theorem C12_self_clash_and_noclash_witness :
    (∃ c, CheckResidue (checkScan (64/100) 100 [(0, 2)])
        (frameOf [(0, 0, 0), (1/2, 1/2, 0)]) (dihCheck 0 [1]) 0 0 = some (1, c) ∧
      c < (checkScan (64/100) 100 [(0, 2)]).cutoff_) ∧
    CheckResidue (checkScan (3/10) 100 [(0, 2)])
        (frameOf [(0, 0, 0), (1/2, 1/2, 0)]) (dihCheck 0 [1]) 0 0 = some (0, 0) :=
  ⟨(C12_self_clash_and_noclash (checkScan (64/100) 100 [(0, 2)])
      (frameOf [(0, 0, 0), (1/2, 1/2, 0)]) (dihCheck 0 [1]) 0 0 ⟨0, 0, 2, 0⟩ (by decide)).1
      ⟨0, 1, by decide, by decide, by decide,
        by norm_num [frameOf, DIST2_NoImage, checkScan, Action_DihedralScan.new]⟩,
   (C12_self_clash_and_noclash (checkScan (3/10) 100 [(0, 2)])
      (frameOf [(0, 0, 0), (1/2, 1/2, 0)]) (dihCheck 0 [1]) 0 0 ⟨0, 0, 2, 0⟩ (by decide)).2
      (by
        intro p hp
        obtain ⟨x, y⟩ := p
        have h : 0 ≤ x ∧ x < y ∧ y < 2 := (mem_selfPairs _ _ _ _).mp hp
        have hx : x = 0 := by omega
        have hy : y = 1 := by omega
        subst hx; subst hy
        norm_num [frameOf, DIST2_NoImage, checkScan, Action_DihedralScan.new])
      (by
        intro res h1 h2
        exact absurd (show res = (dihCheck 0 [1]).resnum by
          have : res = 0 := by omega
          rw [this]; rfl) h2)⟩

/-- What `CheckResidue` returns when `ResCheck_` has the residue of the dihedral
and every residue up to the limit `nextres`: a value among 0, 1 and -1, which is
0 exactly when the check against self and the check of every other residue up
to `nextres` that passes the coarse test find no pair below `cutoff_`; `*clash`
is untouched when 0 is returned and below `cutoff_` otherwise. -/
theorem CheckResidue_spec (A : Action_DihedralScan) (FrameIn : Frame)
    (dih : DihedralScanType) (nextres : Int) (clash : ℚ) (rc : ResidueCheckType)
    (hrc : A.ResCheck_.get? dih.resnum = some rc)
    (hidx : ∀ res : Nat, (res : Int) ≤ nextres → res < A.ResCheck_.length) :
    ∃ r c, CheckResidue A FrameIn dih nextres clash = some (r, c) ∧
      (r = 0 ∨ r = 1 ∨ r = -1) ∧
      (r = 0 ↔ (firstClose FrameIn A.cutoff_ (selfPairs rc.start rc.stop) = none ∧
        ∀ res : Nat, (res : Int) ≤ nextres → res ≠ dih.resnum → ∀ rc2,
          A.ResCheck_.get? res = some rc2 →
          DIST2_NoImage (FrameIn rc.checkatom) (FrameIn rc2.checkatom) < A.rescutoff_ →
          firstClose FrameIn A.cutoff_ (crossPairs rc.start rc.stop rc2.start rc2.stop)
            = none)) ∧
      (r = 0 → c = clash) ∧ (r ≠ 0 → c < A.cutoff_) := by
  cases hself : firstClose FrameIn A.cutoff_ (selfPairs rc.start rc.stop) with
  | some p =>
    obtain ⟨a, b⟩ := p
    refine ⟨1, _, CheckResidue_self_found A FrameIn dih nextres clash rc a b hrc hself,
      Or.inr (Or.inl rfl), ?_, ?_, fun _ => (firstClose_some _ _ _ a b hself).2⟩
    · constructor
      · intro h; cases h
      · rintro ⟨h, _⟩; cases h
    · intro h; cases h
  | none =>
    obtain ⟨r, c, e, hrc'⟩ := checkOthers_spec A FrameIn dih rc.start rc.stop rc.checkatom
      clash (List.range (nextres + 1).toNat) (fun res hmem =>
        hidx res (by have := List.mem_range.mp hmem; omega))
    refine ⟨r, c, by rw [CheckResidue_self_none A FrameIn dih nextres clash rc hrc hself, e],
      ?_⟩
    rcases hrc' with ⟨h0, hc, hall⟩ | ⟨h1, hc, res, hmem, hne, rc2, hrc2, hD, a, b, hf, _, _⟩
    · refine ⟨Or.inl h0, ?_, fun _ => hc, fun h => absurd h0 h⟩
      constructor
      · intro _
        refine ⟨rfl, ?_⟩
        intro res hle hne rc2 hrc2 hD
        exact hall res (List.mem_range.mpr (by omega)) hne rc2 hrc2 hD
      · intro _; exact h0
    · have hr0 : r ≠ 0 := by rcases h1 with h | h <;> rw [h] <;> decide
      refine ⟨Or.inr h1, ?_, fun h => absurd h hr0, fun _ => hc⟩
      constructor
      · intro h; exact absurd h hr0
      · rintro ⟨_, hall⟩
        have hlt := List.mem_range.mp hmem
        have := hall res (by omega) hne rc2 hrc2 hD
        rw [hf] at this
        cases this

/-- Claim C13, counterexample: residues `A = [0, 2)` and `B = [2, 4)` whose only
pair of atoms below the cutoff is `(1, 2)`; the dihedral of `A` has
`checkAtoms = [1]`, the dihedral of `B` has `checkAtoms = [3]`. The call for
`A` returns -1 (Unresolvable), the call for `B` returns 1 (Clash). -/
theorem C13_counterexample_classification_differs :
    CheckResidue (checkScan (64/100) 100 [(0, 2), (2, 4)])
      (frameOf [(0, 0, 0), (1, 0, 0), (3/2, 0, 0), (5/2, 0, 0)]) (dihCheck 0 [1]) 1 0
      = some (-1, 1/4) ∧
    CheckResidue (checkScan (64/100) 100 [(0, 2), (2, 4)])
      (frameOf [(0, 0, 0), (1, 0, 0), (3/2, 0, 0), (5/2, 0, 0)]) (dihCheck 1 [3]) 1 0
      = some (1, 1/4) := by
  constructor
  · norm_num [CheckResidue, checkOthers, firstClose, selfPairs, crossPairs, frameOf,
      DIST2_NoImage, List.range', List.range, List.range.loop, checkScan, dihCheck,
      Action_DihedralScan.new]
  · norm_num [CheckResidue, checkOthers, firstClose, selfPairs, crossPairs, frameOf,
      DIST2_NoImage, List.range', List.range, List.range.loop, checkScan, dihCheck,
      Action_DihedralScan.new]

/-- Claim C13, as the code has it: for two dihedrals of different residues `A`
and `B`, each within the limit of the call for the other, the coarse test and
the search for a pair of atoms below `cutoff_` between the two residues come
out the same in both calls; when the coarse test passes and such a pair
exists, both calls return a value other than 0 (NoClash) and report a squared
distance below `cutoff_`. Whether the value is 1 or -1, and which pair is
reported, is decided in each call by the first pair that its own loops find. -/
theorem C13_clash_detection_symmetric (A : Action_DihedralScan) (FrameIn : Frame)
    (dA dB : DihedralScanType) (nextA nextB : Int) (clashA clashB : ℚ)
    (rcA rcB : ResidueCheckType)
    (hA : A.ResCheck_.get? dA.resnum = some rcA)
    (hB : A.ResCheck_.get? dB.resnum = some rcB)
    (hne : dA.resnum ≠ dB.resnum)
    (hlimA : (dB.resnum : Int) ≤ nextA) (hlimB : (dA.resnum : Int) ≤ nextB)
    (hidxA : ∀ res : Nat, (res : Int) ≤ nextA → res < A.ResCheck_.length)
    (hidxB : ∀ res : Nat, (res : Int) ≤ nextB → res < A.ResCheck_.length) :
    (DIST2_NoImage (FrameIn rcA.checkatom) (FrameIn rcB.checkatom) < A.rescutoff_ ↔
      DIST2_NoImage (FrameIn rcB.checkatom) (FrameIn rcA.checkatom) < A.rescutoff_) ∧
    (firstClose FrameIn A.cutoff_ (crossPairs rcA.start rcA.stop rcB.start rcB.stop) = none ↔
      firstClose FrameIn A.cutoff_ (crossPairs rcB.start rcB.stop rcA.start rcA.stop) = none) ∧
    (DIST2_NoImage (FrameIn rcA.checkatom) (FrameIn rcB.checkatom) < A.rescutoff_ →
      firstClose FrameIn A.cutoff_ (crossPairs rcA.start rcA.stop rcB.start rcB.stop) ≠ none →
      ∃ rA cA rB cB,
        CheckResidue A FrameIn dA nextA clashA = some (rA, cA) ∧
        CheckResidue A FrameIn dB nextB clashB = some (rB, cB) ∧
        (rA = 1 ∨ rA = -1) ∧ (rB = 1 ∨ rB = -1) ∧ cA < A.cutoff_ ∧ cB < A.cutoff_) := by
  have hcomm := DIST2_NoImage_comm (FrameIn rcA.checkatom) (FrameIn rcB.checkatom)
  refine ⟨by rw [hcomm], firstClose_crossPairs_none_comm _ _ _ _ _ _, ?_⟩
  intro hD hsome
  obtain ⟨rA, cA, eA, h3A, h0A, _, hcA⟩ :=
    CheckResidue_spec A FrameIn dA nextA clashA rcA hA hidxA
  obtain ⟨rB, cB, eB, h3B, h0B, _, hcB⟩ :=
    CheckResidue_spec A FrameIn dB nextB clashB rcB hB hidxB
  have hrA : rA ≠ 0 := by
    intro h
    exact hsome ((h0A.mp h).2 dB.resnum hlimA (Ne.symm hne) rcB hB hD)
  have hrB : rB ≠ 0 := by
    intro h
    have := (h0B.mp h).2 dA.resnum hlimB hne rcA hA (by rw [← hcomm]; exact hD)
    exact hsome ((firstClose_crossPairs_none_comm _ _ _ _ _ _).mpr this)
  refine ⟨rA, cA, rB, cB, eA, eB, ?_, ?_, hcA hrA, hcB hrB⟩
  · rcases h3A with h | h
    · exact absurd h hrA
    · exact h
  · rcases h3B with h | h
    · exact absurd h hrB
    · exact h

/-- Claim C13, an instance: on the residues `[0, 2)` and `[2, 4)` with the one
close pair `(1, 2)`, both calls return a value other than 0 and a squared
distance below the cutoff. -/
theorem C13_clash_detection_symmetric_witness :
    ∃ rA cA rB cB,
      CheckResidue (checkScan (64/100) 100 [(0, 2), (2, 4)])
        (frameOf [(0, 0, 0), (1, 0, 0), (3/2, 0, 0), (5/2, 0, 0)]) (dihCheck 0 [1]) 1 7
        = some (rA, cA) ∧
      CheckResidue (checkScan (64/100) 100 [(0, 2), (2, 4)])
        (frameOf [(0, 0, 0), (1, 0, 0), (3/2, 0, 0), (5/2, 0, 0)]) (dihCheck 1 [3]) 1 9
        = some (rB, cB) ∧
      (rA = 1 ∨ rA = -1) ∧ (rB = 1 ∨ rB = -1) ∧
      cA < (checkScan (64/100) 100 [(0, 2), (2, 4)]).cutoff_ ∧
      cB < (checkScan (64/100) 100 [(0, 2), (2, 4)]).cutoff_ :=
  (C13_clash_detection_symmetric (checkScan (64/100) 100 [(0, 2), (2, 4)])
    (frameOf [(0, 0, 0), (1, 0, 0), (3/2, 0, 0), (5/2, 0, 0)]) (dihCheck 0 [1])
    (dihCheck 1 [3]) 1 1 7 9 ⟨0, 0, 2, 0⟩ ⟨2, 2, 4, 1⟩ (by decide) (by decide) (by decide)
    (by decide) (by decide)
    (by intro res h; have : res < 2 := by omega
        exact this)
    (by intro res h; have : res < 2 := by omega
        exact this)).2.2
    (by norm_num [frameOf, DIST2_NoImage, checkScan, Action_DihedralScan.new])
    (by
      have h : firstClose (frameOf [(0, 0, 0), (1, 0, 0), (3/2, 0, 0), (5/2, 0, 0)])
          (checkScan (64/100) 100 [(0, 2), (2, 4)]).cutoff_ (crossPairs 0 2 2 4)
          = some (1, 2) := by
        norm_num [firstClose, crossPairs, frameOf, DIST2_NoImage, List.range', checkScan,
          Action_DihedralScan.new]
      intro hn
      rw [h] at hn
      cases hn)

/-! ## Setup (C14, C15, C16) -/

theorem specPartner_eq_partnerAtom (top : Topology) (a : Nat) :
    specPartner top a = partnerAtom top a := by
  unfold specPartner partnerAtom GetBondedAtomIdx
  rfl

/-- The descriptors pushed by the loop over the atoms are, entry by entry, the
entries of the specification for the atoms of `todo`. -/
theorem setupDihedrals_map (top : Topology) (Mask1_ : List Bool) (iv : ℚ) :
    ∀ todo : List Nat,
      ∃ ds, setupDihedrals top Mask1_ iv todo = some ds ∧
        ds.map (fun d => (d.atom1, d.atom2, d.resnum)) = todo.filterMap (specEntry top Mask1_) ∧
        ∀ d ∈ ds, d.interval = iv ∧ d.maxVal = truncToInt (360 / iv) := by
  intro todo
  induction todo with
  | nil => exact ⟨[], rfl, rfl, by simp⟩
  | cons atom todo ih =>
    obtain ⟨ds, hds, hmap0, hiv⟩ := ih
    have hmap := hmap0
    by_cases hm : Mask1_.getD atom false = true
    · cases hp : partnerAtom top atom with
      | none =>
        refine ⟨ds, ?_, ?_, hiv⟩
        · rw [setupDihedrals, if_pos hm, hp]
          exact hds
        · have he : specEntry top Mask1_ atom = none := by
            rw [specEntry, if_pos hm, specPartner_eq_partnerAtom, hp]
          rw [List.filterMap_cons, he]
          exact hmap
      | some atom2 =>
        by_cases hm2 : Mask1_.getD atom2 false = true
        · obtain ⟨V, hV, _⟩ := visitAroundBond_total top atom atom2
          refine ⟨makeDihedral top iv atom atom2 V :: ds, ?_, ?_, ?_⟩
          rotate_left 2
          · intro d hd
            rcases List.mem_cons.mp hd with rfl | hd
            · exact ⟨rfl, rfl⟩
            · exact hiv d hd
          · rw [setupDihedrals, if_pos hm, hp]
            simp only
            rw [if_pos hm2, hV]
            simp only
            rw [hds]
            rfl
          · have he : specEntry top Mask1_ atom = some (atom, atom2, top.ResNum atom2) := by
              rw [specEntry, if_pos hm, specPartner_eq_partnerAtom, hp]
              simp only
              rw [if_pos hm2]
            rw [List.filterMap_cons, he, List.map_cons, hmap]
            rfl
        · refine ⟨ds, ?_, ?_, hiv⟩
          · rw [setupDihedrals, if_pos hm, hp]
            simp only
            rw [if_neg hm2]
            exact hds
          · have he : specEntry top Mask1_ atom = none := by
              rw [specEntry, if_pos hm, specPartner_eq_partnerAtom, hp]
              simp only
              rw [if_neg hm2]
            rw [List.filterMap_cons, he]
            exact hmap
    · refine ⟨ds, ?_, ?_, hiv⟩
      · rw [setupDihedrals, if_neg hm]
        exact hds
      · have he : specEntry top Mask1_ atom = none := by
          rw [specEntry, if_neg hm]
        rw [List.filterMap_cons, he]
        exact hmap

theorem specEntry_fst (top : Topology) (Mask1_ : List Bool) (a : Nat) (e : Nat × Nat × Nat)
    (h : specEntry top Mask1_ a = some e) : e.1 = a ∧ Mask1_.getD a false = true ∧
      specPartner top a = some e.2.1 ∧ Mask1_.getD e.2.1 false = true ∧
      e.2.2 = top.ResNum e.2.1 := by
  unfold specEntry at h
  by_cases hm : Mask1_.getD a false = true
  · rw [if_pos hm] at h
    cases hp : specPartner top a with
    | none => rw [hp] at h; cases h
    | some b =>
      rw [hp] at h
      simp only at h
      by_cases hm2 : Mask1_.getD b false = true
      · rw [if_pos hm2] at h
        cases h
        exact ⟨rfl, hm, rfl, hm2, rfl⟩
      · rw [if_neg hm2] at h; cases h
  · rw [if_neg hm] at h; cases h

theorem specDihedrals_ascending (top : Topology) (Mask1_ : List Bool) :
    ((specDihedrals top Mask1_).map (fun e => e.1)).Pairwise (fun x y => x < y) := by
  rw [List.pairwise_map]
  unfold specDihedrals
  refine List.Pairwise.filterMap (specEntry top Mask1_) ?_ (List.pairwise_lt_range _)
  intro a a' hlt b hb b' hb'
  rw [(specEntry_fst top Mask1_ a b hb).1, (specEntry_fst top Mask1_ a' b' hb').1]
  exact hlt

/-- The mask test of `Setup` (`Mask1_.None()`) in terms of the atoms. -/
theorem maskNone_iff (top : Topology) (Mask1_ : List Bool) :
    (List.range top.Natom).all (fun atom => !Mask1_.getD atom false) = true ↔
      ∀ a, a < top.Natom → Mask1_.getD a false = false := by
  rw [List.all_eq_true]
  constructor
  · intro h a ha
    have := h a (List.mem_range.mpr ha)
    cases hv : Mask1_.getD a false with
    | false => rfl
    | true => rw [hv] at this; cases this
  · intro h a ha
    rw [h a (List.mem_range.mp ha)]
    rfl

/-- What `Setup` returns when the collaborators succeed: an error and the
members as they were when the mask selects no atom, and otherwise success, with
the new descriptors appended to `BB_dihedrals_`, `max_rotations_` set from the
length of the list, and the residue records appended to `ResCheck_` when
`check_for_clashes_` is set. -/
theorem Setup_ok_spec (A : Action_DihedralScan) (top : Topology) (Mask1_ : List Bool) :
    ((∀ a, a < top.Natom → Mask1_.getD a false = false) →
      Setup A top (some Mask1_) true = some (RetType.ERR, A)) ∧
    (¬ (∀ a, a < top.Natom → Mask1_.getD a false = false) →
      ∃ added A',
        added.map (fun d => (d.atom1, d.atom2, d.resnum)) = specDihedrals top Mask1_ ∧
        (∀ d ∈ added, d.interval = A.interval_ ∧ d.maxVal = truncToInt (360 / A.interval_)) ∧
        Setup A top (some Mask1_) true = some (RetType.OK, A') ∧
        A'.BB_dihedrals_ = A.BB_dihedrals_ ++ added ∧
        A'.max_rotations_ =
          wrapInt32 (wrapInt32 ((A.BB_dihedrals_ ++ added).length : Int) * A.max_factor_) ∧
        A'.ResCheck_ = (if A.check_for_clashes_ then A.ResCheck_ ++ residueChecks top
          else A.ResCheck_)) := by
  constructor
  · intro h
    rw [Setup]
    simp only
    rw [if_pos ((maskNone_iff top Mask1_).mpr h)]
  · intro h
    have hn : ¬ (List.range top.Natom).all (fun atom => !Mask1_.getD atom false) = true :=
      fun hc => h ((maskNone_iff top Mask1_).mp hc)
    obtain ⟨ds, hds, hmap, hiv⟩ :=
      setupDihedrals_map top Mask1_ A.interval_ (List.range top.Natom)
    refine ⟨ds, (if A.check_for_clashes_ = true then
        { A with
          BB_dihedrals_ := A.BB_dihedrals_ ++ ds
          max_rotations_ :=
            wrapInt32 (wrapInt32 ((A.BB_dihedrals_ ++ ds).length : Int) * A.max_factor_)
          ResCheck_ := A.ResCheck_ ++ residueChecks top }
      else
        { A with
          BB_dihedrals_ := A.BB_dihedrals_ ++ ds
          max_rotations_ :=
            wrapInt32 (wrapInt32 ((A.BB_dihedrals_ ++ ds).length : Int) * A.max_factor_) }),
      hmap, hiv, ?_, ?_⟩
    · rw [Setup]
      simp only
      rw [if_neg hn, hds]
      rfl
    · by_cases hc : A.check_for_clashes_ = true
      · rw [if_pos hc, if_pos hc]
        exact ⟨rfl, rfl, rfl⟩
      · rw [if_neg hc, if_neg hc]
        exact ⟨rfl, rfl, rfl⟩

/-- Claim C14: starting from an empty dihedral list, when the collaborators
succeed and the mask selects an atom, `Setup` succeeds and leaves in
`BB_dihedrals_` exactly the list of the specification: one descriptor
`(atom1, atom2, resnum) = (a, b, residue of b)` for each selected atom `a` whose
partner `b` exists and is selected, in strictly ascending order of `atom1`. -/
theorem C14_Setup_list_is_specDihedrals (A : Action_DihedralScan) (top : Topology)
    (Mask1_ : List Bool) (hempty : A.BB_dihedrals_ = [])
    (hmask : ∃ a, a < top.Natom ∧ Mask1_.getD a false = true) :
    ∃ A', Setup A top (some Mask1_) true = some (RetType.OK, A') ∧
      A'.BB_dihedrals_.map (fun d => (d.atom1, d.atom2, d.resnum)) = specDihedrals top Mask1_ ∧
      (A'.BB_dihedrals_.map (fun d => d.atom1)).Pairwise (fun x y => x < y) := by
  obtain ⟨a, ha, hsel⟩ := hmask
  obtain ⟨added, A', hmap, _, hS, hBB, _, _⟩ := (Setup_ok_spec A top Mask1_).2 (by
    intro h
    rw [h a ha] at hsel
    cases hsel)
  rw [hempty, List.nil_append] at hBB
  refine ⟨A', hS, by rw [hBB]; exact hmap, ?_⟩
  have h := specDihedrals_ascending top Mask1_
  rw [← hmap, List.map_map] at h
  rw [hBB]
  exact h

/-- Claim C14, an instance: on `H - N - CA - C` with all atoms selected the list
is `(1, 2, 1), (2, 3, 1)`; the atoms `H` and `C` contribute nothing. -/
theorem C14_Setup_list_is_specDihedrals_witness :
    specDihedrals topHNCaC [true, true, true, true] = [(1, 2, 1), (2, 3, 1)] ∧
    ∃ A', Setup Action_DihedralScan.new topHNCaC (some [true, true, true, true]) true
        = some (RetType.OK, A') ∧
      A'.BB_dihedrals_.map (fun d => (d.atom1, d.atom2, d.resnum))
        = specDihedrals topHNCaC [true, true, true, true] ∧
      (A'.BB_dihedrals_.map (fun d => d.atom1)).Pairwise (fun x y => x < y) :=
  ⟨by decide, C14_Setup_list_is_specDihedrals Action_DihedralScan.new topHNCaC
    [true, true, true, true] rfl ⟨0, by decide, by decide⟩⟩

/-- Claim C15 fails in the code: `Setup` pushes to `BB_dihedrals_` and to
`ResCheck_` without clearing them. On `N - CA - C` with clash checking and
`max_factor_ = 2`, one call leaves 2 descriptors, 1 residue record and
`max_rotations_ = 4`; a second call with the same topology and mask leaves 4
descriptors, 2 residue records and `max_rotations_ = 8`. -/
theorem C15_second_Setup_appends_again :
    (Setup (checkScan 1 1 []) topNCaC (some [true, true, true]) true).map
        (fun r => (r.1, r.2.BB_dihedrals_.map (fun d => (d.atom1, d.atom2, d.resnum)),
          r.2.ResCheck_, r.2.max_rotations_))
      = some (RetType.OK, [(0, 1, 0), (1, 2, 0)], [⟨0, 0, 3, 0⟩], 4) ∧
    ((Setup (checkScan 1 1 []) topNCaC (some [true, true, true]) true).bind
        (fun r => Setup r.2 topNCaC (some [true, true, true]) true)).map
        (fun r => (r.1, r.2.BB_dihedrals_.map (fun d => (d.atom1, d.atom2, d.resnum)),
          r.2.ResCheck_, r.2.max_rotations_))
      = some (RetType.OK, [(0, 1, 0), (1, 2, 0), (0, 1, 0), (1, 2, 0)],
          [⟨0, 0, 3, 0⟩, ⟨0, 0, 3, 0⟩], 8) := by
  constructor
  · decide
  · decide

/-- Claim C16: when the collaborators succeed, `Setup` returns, and it returns
an error exactly when the mask selects no atom of the topology; then the
members (the dihedral list, the residue index, `max_rotations_`) are as they
were. When the mask selects an atom and no selected atom has a selected
partner, `Setup` succeeds and adds no descriptor: a list that was empty stays
empty. -/
theorem C16_Setup_error_iff_mask_empty (A : Action_DihedralScan) (top : Topology)
    (Mask1_ : List Bool) :
    ∃ r A', Setup A top (some Mask1_) true = some (r, A') ∧
      (r = RetType.ERR ↔ ∀ a, a < top.Natom → Mask1_.getD a false = false) ∧
      (r = RetType.ERR → A' = A) ∧
      ((∀ a, a < top.Natom → Mask1_.getD a false = true →
          ∀ b, specPartner top a = some b → Mask1_.getD b false = false) →
        r = RetType.OK → A'.BB_dihedrals_ = A.BB_dihedrals_ ∧
          (A.BB_dihedrals_ = [] → A'.BB_dihedrals_ = [])) := by
  by_cases h : ∀ a, a < top.Natom → Mask1_.getD a false = false
  · refine ⟨RetType.ERR, A, (Setup_ok_spec A top Mask1_).1 h, ⟨fun _ => h, fun _ => rfl⟩,
      fun _ => rfl, ?_⟩
    intro _ hr
    cases hr
  · obtain ⟨added, A', hmap, _, hS, hBB, _, _⟩ := (Setup_ok_spec A top Mask1_).2 h
    refine ⟨RetType.OK, A', hS, ⟨fun hr => (by cases hr), fun hc => absurd hc h⟩,
      fun hr => (by cases hr), ?_⟩
    intro hnop _
    have hnil : specDihedrals top Mask1_ = [] := by
      unfold specDihedrals
      rw [List.filterMap_eq_nil_iff]
      intro a ha
      cases he : specEntry top Mask1_ a with
      | none => rfl
      | some e =>
        obtain ⟨_, h2, h3, h4, _⟩ := specEntry_fst top Mask1_ a e he
        have := hnop a (List.mem_range.mp ha) h2 e.2.1 h3
        rw [this] at h4
        cases h4
    rw [hnil] at hmap
    have hadded : added = [] := List.map_eq_nil_iff.mp hmap
    rw [hadded, List.append_nil] at hBB
    exact ⟨hBB, fun h0 => by rw [hBB, h0]⟩

/-! ## Init in random mode (C17) -/

theorem initRandom_bad (SMALL : ℚ) (A : Action_DihedralScan) (args : InitArgs)
    (hbad : args.backtrack.getD 4 < 0 ∨ args.increment.getD 1 < 1 ∨
      Int.tmod 360 (args.increment.getD 1) ≠ 0) :
    (initRandom SMALL A args).1 = RetType.ERR := by
  unfold initRandom
  simp only
  split_ifs with c1 c2 c3 c4
  · rfl
  · rfl
  · rfl
  · rfl
  · exfalso
    rcases hbad with h | h | h
    · exact c3 h
    · exact c4 (Or.inl h)
    · exact c4 (Or.inr h)

theorem initRandom_good (SMALL : ℚ) (A : Action_DihedralScan) (args : InitArgs)
    (hc : SMALL ≤ args.cutoff.getD (8 / 10)) (hrc : SMALL ≤ args.rescutoff.getD 10)
    (hb : 0 ≤ args.backtrack.getD 4) (hi : 1 ≤ args.increment.getD 1)
    (hm : Int.tmod 360 (args.increment.getD 1) = 0) :
    ∃ A5, initRandom SMALL A args = (RetType.OK, A5) ∧ A5.mode_ = A.mode_ ∧
      A5.outfilename_ = A.outfilename_ ∧
      A5.increment_ = args.increment.getD 1 ∧
      A5.max_increment_ = Int.tdiv 360 (args.increment.getD 1) := by
  unfold initRandom
  simp only
  rw [if_neg (not_lt.mpr hc), if_neg (not_lt.mpr hrc), if_neg (not_lt.mpr hb),
    if_neg (by
      intro h
      rcases h with h | h
      · omega
      · exact h hm)]
  exact ⟨_, rfl, rfl, rfl, rfl, rfl⟩

theorem initFinish_ok (A5 : Action_DihedralScan) (args : InitArgs)
    (hmode : A5.mode_ ≠ ModeType.IMPOSE)
    (hds : args.dataSetAdded = true) (htraj : args.trajSetupOk = true)
    (hcs : args.checkStructureInitOk = true) :
    (initFinish A5 args).1 = RetType.OK ∧
      (initFinish A5 args).2.increment_ = A5.increment_ ∧
      (initFinish A5 args).2.max_increment_ = A5.max_increment_ := by
  unfold initFinish
  rw [if_neg (by rw [hds]; decide), if_neg hmode,
    if_neg (by rintro ⟨_, h⟩; rw [htraj] at h; cases h)]
  simp only
  rw [if_neg (by rw [hcs]; decide)]
  by_cases ho : A5.outfilename_ ≠ ""
  · rw [if_pos ho]
    exact ⟨rfl, rfl, rfl⟩
  · rw [if_neg ho]
    exact ⟨rfl, rfl, rfl⟩

theorem Init_random_unfold (SMALL : ℚ) (A0 : Action_DihedralScan) (args : InitArgs)
    (hmode : initMode A0 args = ModeType.RANDOM) :
    Init SMALL A0 args =
      match initRandom SMALL { A0 with mode_ := ModeType.RANDOM } args with
      | (RetType.ERR, A4) => (RetType.ERR, A4)
      | (RetType.OK, A5) => initFinish A5 args := by
  simp [Init, hmode]

theorem tdiv_360 (inc : Int) (h1 : 1 ≤ inc) (h2 : Int.tmod 360 inc = 0) :
    1 ≤ Int.tdiv 360 inc ∧ Int.tdiv 360 inc * inc = 360 := by
  have hmul := Int.tdiv_mul_cancel_of_tmod_eq_zero h2
  refine ⟨?_, hmul⟩
  have hnn : 0 ≤ Int.tdiv 360 inc := Int.tdiv_nonneg (by decide) (by omega)
  by_contra hlt
  have : Int.tdiv 360 inc = 0 := by omega
  rw [this] at hmul
  simp at hmul

/-- Claim C17: in random mode, with both cutoffs not below `SMALL` and the
collaborators succeeding (the data set, the output trajectory, the structure
check), `Init` returns an error exactly when `backtrack < 0`, or
`increment < 1`, or `360 % increment != 0`; when it succeeds,
`max_increment_ * increment_ = 360` and `max_increment_ >= 1`. -/
theorem C17_Init_random_error_iff (SMALL : ℚ) (A0 : Action_DihedralScan) (args : InitArgs)
    (hmode : initMode A0 args = ModeType.RANDOM)
    (hc : SMALL ≤ args.cutoff.getD (8 / 10)) (hrc : SMALL ≤ args.rescutoff.getD 10)
    (hds : args.dataSetAdded = true) (htraj : args.trajSetupOk = true)
    (hcs : args.checkStructureInitOk = true) :
    ((Init SMALL A0 args).1 = RetType.ERR ↔
      (args.backtrack.getD 4 < 0 ∨ args.increment.getD 1 < 1 ∨
        Int.tmod 360 (args.increment.getD 1) ≠ 0)) ∧
    ((Init SMALL A0 args).1 = RetType.OK →
      (Init SMALL A0 args).2.increment_ = args.increment.getD 1 ∧
      (Init SMALL A0 args).2.max_increment_ * (Init SMALL A0 args).2.increment_ = 360 ∧
      1 ≤ (Init SMALL A0 args).2.max_increment_) := by
  rw [Init_random_unfold SMALL A0 args hmode]
  by_cases hbad : args.backtrack.getD 4 < 0 ∨ args.increment.getD 1 < 1 ∨
      Int.tmod 360 (args.increment.getD 1) ≠ 0
  · have h1 := initRandom_bad SMALL { A0 with mode_ := ModeType.RANDOM } args hbad
    cases hR : initRandom SMALL { A0 with mode_ := ModeType.RANDOM } args with
    | mk r A4 =>
      rw [hR] at h1
      simp only at h1
      subst h1
      simp only
      exact ⟨⟨fun _ => hbad, fun _ => trivial⟩, fun h => by cases h⟩
  · have hb : 0 ≤ args.backtrack.getD 4 := by
      by_contra h; exact hbad (Or.inl (by omega))
    have hi : 1 ≤ args.increment.getD 1 := by
      by_contra h; exact hbad (Or.inr (Or.inl (by omega)))
    have hm : Int.tmod 360 (args.increment.getD 1) = 0 := by
      by_contra h; exact hbad (Or.inr (Or.inr h))
    obtain ⟨A5, hR, h5m, _, h5i, h5x⟩ :=
      initRandom_good SMALL { A0 with mode_ := ModeType.RANDOM } args hc hrc hb hi hm
    rw [hR]
    simp only
    obtain ⟨f1, f2, f3⟩ := initFinish_ok A5 args
      (by rw [h5m]; intro h; cases h) hds htraj hcs
    obtain ⟨k1, k2⟩ := tdiv_360 _ hi hm
    refine ⟨⟨fun h => ?_, fun h => absurd h hbad⟩, fun _ => ?_⟩
    · rw [f1] at h; cases h
    · rw [f2, f3, h5i, h5x]
      exact ⟨rfl, k2, k1⟩

/-- Claim C17, instances: in random mode with the default cutoffs and
`backtrack 4`, `increment 7` is refused and `increment 10` is not. -/
theorem C17_Init_random_error_iff_witness :
    (Init (1/100000000000000) Action_DihedralScan.new (randomArgs 4 7 2 true)).1
        = RetType.ERR ∧
    ¬ (Init (1/100000000000000) Action_DihedralScan.new (randomArgs 4 10 2 true)).1
        = RetType.ERR :=
  ⟨(C17_Init_random_error_iff (1/100000000000000) Action_DihedralScan.new
      (randomArgs 4 7 2 true) rfl
      (by norm_num [randomArgs]) (by norm_num [randomArgs]) rfl rfl rfl).1.mpr
      (Or.inr (Or.inr (by decide))),
   fun h => absurd ((C17_Init_random_error_iff (1/100000000000000) Action_DihedralScan.new
      (randomArgs 4 10 2 true) rfl
      (by norm_num [randomArgs]) (by norm_num [randomArgs]) rfl rfl rfl).1.mp h)
      (by decide)⟩

/-! ## IntervalAngles (C18, C19) -/

theorem rotateAndWrite_append (l1 l2 : List DihedralScanType) :
    ∀ outframe_ : Int, rotateAndWrite (l1 ++ l2) outframe_ =
      rotateAndWrite l1 outframe_ ++ rotateAndWrite l2 (outframe_ + l1.length) := by
  induction l1 with
  | nil => intro o; simp [rotateAndWrite]
  | cons d rest ih =>
    intro o
    rw [List.cons_append, rotateAndWrite, rotateAndWrite, ih (o + 1)]
    simp only [List.cons_append, List.length_cons, Nat.cast_add, Nat.cast_one]
    rw [show o + 1 + (rest.length : Int) = o + ((rest.length : Int) + 1) by ring]

theorem intervalRotated_rotateAndWrite (l : List DihedralScanType) :
    ∀ outframe_ : Int, intervalRotated (rotateAndWrite l outframe_) = l := by
  induction l with
  | nil => intro o; rfl
  | cons d rest ih =>
    intro o
    rw [rotateAndWrite]
    simp only [intervalRotated, List.filterMap_cons]
    exact congrArg (List.cons d) (ih (o + 1))

theorem intervalWritten_rotateAndWrite (l : List DihedralScanType) :
    ∀ outframe_ : Int, intervalWritten (rotateAndWrite l outframe_) =
      (List.range l.length).map (fun j : Nat => outframe_ + (j : Int)) := by
  induction l with
  | nil => intro o; rfl
  | cons d rest ih =>
    intro o
    rw [rotateAndWrite]
    simp only [intervalWritten, List.filterMap_cons, List.length_cons, List.range_succ_eq_map,
      List.map_cons, List.map_map]
    have h := ih (o + 1)
    simp only [intervalWritten] at h
    rw [h]
    simp only [Nat.cast_zero, add_zero, List.cons.injEq, true_and]
    apply List.map_congr_left
    intro j _
    simp only [Function.comp, Nat.cast_succ]
    ring

theorem intervalRotated_map_rotate (l : List DihedralScanType) :
    intervalRotated (l.map IntervalEvent.rotate) = l := by
  induction l with
  | nil => rfl
  | cons d rest ih =>
    simp only [intervalRotated, List.map_cons, List.filterMap_cons]
    exact congrArg (List.cons d) ih

theorem intervalWritten_map_rotate (l : List DihedralScanType) :
    intervalWritten (l.map IntervalEvent.rotate) = [] := by
  induction l with
  | nil => rfl
  | cons d rest ih =>
    simp only [intervalWritten, List.map_cons, List.filterMap_cons]
    exact ih

/-- The loop over the rotations of one dihedral: `todo` rotations of it, each
followed by a write when the trajectory is open. -/
theorem intervalRotations_spec (d : DihedralScanType) (trajIsOpen : Bool) :
    ∀ (todo : Nat) (outframe_ : Int),
      intervalRotations d trajIsOpen todo outframe_ =
        if trajIsOpen then
          (rotateAndWrite (List.replicate todo d) outframe_, outframe_ + todo)
        else ((List.replicate todo d).map IntervalEvent.rotate, outframe_) := by
  intro todo
  induction todo with
  | zero =>
    intro o
    cases trajIsOpen <;> simp [intervalRotations, rotateAndWrite]
  | succ n ih =>
    intro o
    cases trajIsOpen with
    | false =>
      have h := ih o
      simp only [Bool.false_eq_true, if_false] at h
      simp only [intervalRotations, Bool.false_eq_true, if_false, h, List.replicate_succ,
        List.map_cons]
    | true =>
      have h := ih (o + 1)
      simp only [if_true] at h
      simp only [intervalRotations, if_true, h, List.replicate_succ, rotateAndWrite,
        Nat.cast_add, Nat.cast_one, Prod.mk.injEq, true_and]
      ring

/-- The loop over the dihedrals: the rotations of `intervalPlan`, each followed
by a write when the trajectory is open. -/
theorem intervalDihedrals_spec (trajIsOpen : Bool) :
    ∀ (dihs : List DihedralScanType) (outframe_ : Int),
      intervalDihedrals trajIsOpen dihs outframe_ =
        if trajIsOpen then
          (rotateAndWrite (intervalPlan dihs) outframe_,
            outframe_ + ((intervalPlan dihs).length : Int))
        else ((intervalPlan dihs).map IntervalEvent.rotate, outframe_) := by
  intro dihs
  induction dihs with
  | nil =>
    intro o
    cases trajIsOpen <;> simp [intervalDihedrals, intervalPlan, rotateAndWrite]
  | cons d rest ih =>
    intro o
    have hplan : intervalPlan (d :: rest) = List.replicate d.maxVal.toNat d ++ intervalPlan rest := by
      simp [intervalPlan]
    cases trajIsOpen with
    | false =>
      have h := ih o
      simp only [Bool.false_eq_true, if_false] at h
      simp only [intervalDihedrals, intervalRotations_spec, Bool.false_eq_true, if_false, h,
        hplan, List.map_append]
    | true =>
      have h := ih (o + (d.maxVal.toNat : Int))
      simp only [if_true] at h
      simp only [intervalDihedrals, intervalRotations_spec, if_true, h, hplan,
        rotateAndWrite_append, List.length_append, List.length_replicate, Nat.cast_add,
        Prod.mk.injEq, true_and]
      ring

theorem length_intervalPlan (dihs : List DihedralScanType) :
    (intervalPlan dihs).length = (dihs.map (fun d => d.maxVal.toNat)).sum := by
  induction dihs with
  | nil => rfl
  | cons d rest ih =>
    have hplan : intervalPlan (d :: rest) = List.replicate d.maxVal.toNat d ++ intervalPlan rest := by
      simp [intervalPlan]
    rw [hplan, List.length_append, List.length_replicate, ih, List.map_cons, List.sum_cons]

theorem length_intervalPlan_of_nonneg (dihs : List DihedralScanType)
    (h : ∀ d ∈ dihs, 0 ≤ d.maxVal) :
    ((intervalPlan dihs).length : Int) = (dihs.map (fun d => d.maxVal)).sum := by
  rw [length_intervalPlan]
  induction dihs with
  | nil => rfl
  | cons d rest ih =>
    have h1 := h d (by simp)
    have h2 := ih (fun x hx => h x (by simp [hx]))
    simp only [List.map_cons, List.sum_cons, Nat.cast_add]
    rw [h2, Int.toNat_of_nonneg h1]

/-- The calls of `IntervalAngles` with an output file name and an open
trajectory: a write of the frame as it comes, then the rotations of
`intervalPlan`, each followed by a write, the frame indices counting up from
`outframe_`. -/
theorem IntervalAngles_open (A : Action_DihedralScan) (hout : A.outfilename_ ≠ "") :
    (IntervalAngles A true).1 =
        IntervalEvent.write A.outframe_ ::
          rotateAndWrite (intervalPlan A.BB_dihedrals_) (A.outframe_ + 1) ∧
      (IntervalAngles A true).2.outframe_ =
        A.outframe_ + 1 + ((intervalPlan A.BB_dihedrals_).length : Int) := by
  constructor
  · simp [IntervalAngles, hout, intervalDihedrals_spec]
  · simp [IntervalAngles, hout, intervalDihedrals_spec]

/-- The calls of `IntervalAngles` without an output file name and with the
trajectory not open: the rotations of `intervalPlan` and no write. -/
theorem IntervalAngles_closed (A : Action_DihedralScan) (hout : A.outfilename_ = "") :
    (IntervalAngles A false).1 = (intervalPlan A.BB_dihedrals_).map IntervalEvent.rotate ∧
      (IntervalAngles A false).2.outframe_ = A.outframe_ := by
  constructor
  · simp [IntervalAngles, hout, intervalDihedrals_spec]
  · simp [IntervalAngles, hout, intervalDihedrals_spec]

/-- The rotations of `IntervalAngles` are those of `intervalPlan`, whatever the
output. -/
theorem IntervalAngles_rotated (A : Action_DihedralScan) (trajIsOpen : Bool) :
    intervalRotated (IntervalAngles A trajIsOpen).1 = intervalPlan A.BB_dihedrals_ := by
  unfold IntervalAngles
  simp only [intervalDihedrals_spec]
  have hfm : ∀ l1 l2 : List IntervalEvent,
      intervalRotated (l1 ++ l2) = intervalRotated l1 ++ intervalRotated l2 := by
    intro l1 l2
    simp [intervalRotated, List.filterMap_append]
  by_cases hout : A.outfilename_ ≠ ""
  · cases trajIsOpen with
    | true =>
      simp only [if_pos hout, if_true]
      rw [hfm, intervalRotated_rotateAndWrite]
      rfl
    | false =>
      simp only [if_pos hout, Bool.false_eq_true, if_false]
      rw [hfm, intervalRotated_map_rotate]
      rfl
  · cases trajIsOpen with
    | true =>
      simp only [if_neg hout, if_true]
      rw [hfm, intervalRotated_rotateAndWrite]
      rfl
    | false =>
      simp only [if_neg hout, Bool.false_eq_true, if_false]
      rw [hfm, intervalRotated_map_rotate]
      rfl

theorem truncToInt_intCast (n : Int) : truncToInt (n : ℚ) = n := by
  unfold truncToInt
  split_ifs
  · exact Int.floor_intCast n
  · exact Int.ceil_intCast n

theorem Init_intervalArgs (iv : ℚ) :
    Init (1/100000000000000) Action_DihedralScan.new (intervalArgs iv "out.nc")
      = (RetType.OK, intervalInit iv "out.nc") := by
  simp [Init, initMode, initFinish, intervalArgs, intervalInit, Action_DihedralScan.new]

/-- After `Init` on `interval <iv> outtraj out.nc`, `Setup` on `N - CA` leaves
one descriptor, with the step `iv` and `maxVal = (int)(360.0 / iv)`. -/
theorem Setup_intervalInit_topNCa (iv : ℚ) :
    ∃ d A', Setup (intervalInit iv "out.nc") topNCa (some [true, true]) true
        = some (RetType.OK, A') ∧
      A'.BB_dihedrals_ = [d] ∧ d.interval = iv ∧ d.maxVal = truncToInt (360 / iv) ∧
      A'.outfilename_ ≠ "" ∧ A'.outframe_ = 0 := by
  obtain ⟨added, A', hmap, hiv, hS, hBB, _, _⟩ :=
    (Setup_ok_spec (intervalInit iv "out.nc") topNCa [true, true]).2
      (by intro h; have := h 0 (by decide); revert this; decide)
  have hspec : specDihedrals topNCa [true, true] = [(0, 1, 0)] := by decide
  rw [hspec] at hmap
  have hBB1 : A'.BB_dihedrals_ = added := by
    rw [hBB]; rfl
  have hlen : added.length = 1 := by
    have := congrArg List.length hmap
    simpa using this
  obtain ⟨d, hd⟩ := List.length_eq_one.mp hlen
  have hA := Setup_eq_afterSetup _ topNCa (some [true, true]) true RetType.OK A' hS
  have hd2 := hiv d (by rw [hd]; simp)
  refine ⟨d, A', hS, by rw [hBB1, hd], hd2.1, hd2.2, ?_, ?_⟩
  · rw [hA]
    show ("out.nc" : String) ≠ ""
    decide
  · rw [hA]; rfl

/-- Claim C18, counterexample: `Init` accepts `interval -90` with an output
trajectory, `Setup` on `N - CA` then builds one descriptor with
`maxVal = (int)(360.0 / -90.0) = -4`, and `IntervalAngles` applies no rotation
and writes the one snapshot of the starting frame: not `-4` rotations and not
`1 + (-4)` snapshots. -/
theorem C18_counterexample_negative_interval :
    ∃ A0 A', Init (1/100000000000000) Action_DihedralScan.new (intervalArgs (-90) "out.nc")
        = (RetType.OK, A0) ∧
      Setup A0 topNCa (some [true, true]) true = some (RetType.OK, A') ∧
      A'.BB_dihedrals_.map (fun d => d.maxVal) = [-4] ∧
      intervalRotated (IntervalAngles A' true).1 = [] ∧
      intervalWritten (IntervalAngles A' true).1 = [0] := by
  obtain ⟨d, A', hS, hBB, _, hmax, hout, hof⟩ := Setup_intervalInit_topNCa (-90)
  have hdm : d.maxVal = -4 := by
    rw [hmax]
    have h4 : (360 : ℚ) / -90 = ((-4 : Int) : ℚ) := by norm_num
    rw [h4, truncToInt_intCast]
  have hplan : intervalPlan A'.BB_dihedrals_ = [] := by
    rw [hBB]
    simp [intervalPlan, hdm]
  refine ⟨_, A', Init_intervalArgs (-90), hS, by rw [hBB]; simp [hdm], ?_, ?_⟩
  · rw [IntervalAngles_rotated, hplan]
  · rw [(IntervalAngles_open A' hout).1, hplan, hof]
    rfl

/-- Claim C18, as the code has it: `IntervalAngles` applies, for each dihedral
`d_i` of the list in order, `max(m_i, 0)` rotations of `d_i` (by `d_i.interval`
degrees about the axis of `d_i`, on `d_i.Rmask`), where `m_i = d_i.maxVal`, all
of them before any rotation of `d_{i+1}`; this is `Σ m_i` rotations when no
`m_i` is negative. It makes no other call than `Rotate` and `WriteFrame`. With
an output file name and an open trajectory it writes the frame as it comes and
then one snapshot after each rotation, with consecutive frame indices from
`outframe_` on, `1 + Σ max(m_i, 0)` in all; without an output file name and
with the trajectory not open it writes nothing. -/
theorem C18_interval_rotations_and_snapshots (A : Action_DihedralScan) (trajIsOpen : Bool) :
    intervalRotated (IntervalAngles A trajIsOpen).1 =
        A.BB_dihedrals_.flatMap (fun d => List.replicate d.maxVal.toNat d) ∧
    (intervalRotated (IntervalAngles A trajIsOpen).1).length =
        (A.BB_dihedrals_.map (fun d => d.maxVal.toNat)).sum ∧
    ((∀ d ∈ A.BB_dihedrals_, 0 ≤ d.maxVal) →
      ((intervalRotated (IntervalAngles A trajIsOpen).1).length : Int) =
        (A.BB_dihedrals_.map (fun d => d.maxVal)).sum) ∧
    (A.outfilename_ ≠ "" → trajIsOpen = true →
      (IntervalAngles A trajIsOpen).1 =
          IntervalEvent.write A.outframe_ ::
            rotateAndWrite (intervalPlan A.BB_dihedrals_) (A.outframe_ + 1) ∧
        intervalWritten (IntervalAngles A trajIsOpen).1 =
          (List.range (1 + (A.BB_dihedrals_.map (fun d => d.maxVal.toNat)).sum)).map
            (fun j : Nat => A.outframe_ + (j : Int))) ∧
    (A.outfilename_ = "" → trajIsOpen = false →
      intervalWritten (IntervalAngles A trajIsOpen).1 = [] ∧
        (IntervalAngles A trajIsOpen).2.outframe_ = A.outframe_) := by
  have hrot := IntervalAngles_rotated A trajIsOpen
  refine ⟨hrot, ?_, ?_, ?_, ?_⟩
  · rw [hrot, length_intervalPlan]
  · intro h
    rw [hrot]
    exact length_intervalPlan_of_nonneg _ h
  · intro hout hopen
    subst hopen
    have h := (IntervalAngles_open A hout).1
    refine ⟨h, ?_⟩
    rw [h]
    have hw : intervalWritten (IntervalEvent.write A.outframe_ ::
        rotateAndWrite (intervalPlan A.BB_dihedrals_) (A.outframe_ + 1)) =
        A.outframe_ :: intervalWritten
          (rotateAndWrite (intervalPlan A.BB_dihedrals_) (A.outframe_ + 1)) := by
      simp [intervalWritten]
    rw [hw, intervalWritten_rotateAndWrite, length_intervalPlan, Nat.add_comm 1,
      List.range_succ_eq_map, List.map_cons, List.map_map]
    simp only [Nat.cast_zero, add_zero, List.cons.injEq, true_and]
    apply List.map_congr_left
    intro j _
    simp only [Function.comp, Nat.cast_succ]
    ring
  · intro hout hopen
    subst hopen
    obtain ⟨h1, h2⟩ := IntervalAngles_closed A hout
    exact ⟨by rw [h1, intervalWritten_map_rotate], h2⟩

/-- Claim C18, an instance: two dihedrals with 2 and 3 steps and an output
trajectory give 5 rotations, the 2 of the first before the 3 of the second,
and the 6 snapshots 0, ..., 5. -/
theorem C18_interval_rotations_and_snapshots_witness :
    intervalRotated (IntervalAngles
        (intervalScan [dihInterval 180 2, dihInterval 120 3] "out.nc") true).1 =
      [dihInterval 180 2, dihInterval 180 2,
        dihInterval 120 3, dihInterval 120 3, dihInterval 120 3] ∧
    intervalWritten (IntervalAngles
        (intervalScan [dihInterval 180 2, dihInterval 120 3] "out.nc") true).1 =
      [0, 1, 2, 3, 4, 5] := by
  have h := C18_interval_rotations_and_snapshots
    (intervalScan [dihInterval 180 2, dihInterval 120 3] "out.nc") true
  refine ⟨h.1.trans ?_, (h.2.2.2.1 (by decide) rfl).2.trans ?_⟩
  · simp [intervalScan, dihInterval, List.replicate]
  · decide

theorem not_sameState_of (a b : ℚ) (m n : Int) (ha : a = m) (hb : b = n)
    (h : ¬ (360 : Int) ∣ m - n) : ¬ sameState a b := by
  rintro ⟨k, hk⟩
  apply h
  refine ⟨k, ?_⟩
  subst ha hb
  exact_mod_cast hk

/-- The calls of `IntervalAngles` for a list of one dihedral with four steps
and an open output trajectory. -/
theorem IntervalAngles_single_four (A : Action_DihedralScan) (d : DihedralScanType)
    (hBB : A.BB_dihedrals_ = [d]) (hmax : d.maxVal = 4) (hout : A.outfilename_ ≠ "") :
    (IntervalAngles A true).1 =
      [IntervalEvent.write A.outframe_,
        IntervalEvent.rotate d, IntervalEvent.write (A.outframe_ + 1),
        IntervalEvent.rotate d, IntervalEvent.write (A.outframe_ + 1 + 1),
        IntervalEvent.rotate d, IntervalEvent.write (A.outframe_ + 1 + 1 + 1),
        IntervalEvent.rotate d, IntervalEvent.write (A.outframe_ + 1 + 1 + 1 + 1)] := by
  rw [(IntervalAngles_open A hout).1, hBB]
  have hplan : intervalPlan [d] = [d, d, d, d] := by
    simp [intervalPlan, hmax, List.replicate]
  rw [hplan]
  rfl

/-- Claim C19, counterexample: after `Init` on `interval 90` with an output
trajectory and `Setup` on `N - CA` (one dihedral), `IntervalAngles` writes 5
snapshots, at the cumulative rotation angles 0, 90, 180, 270 and 360 degrees;
the last rotated state, at 360 degrees, is the same state as the original, so
the 4 rotated states are not all distinct from the original. -/
theorem C19_counterexample_fourth_state_is_original :
    ∃ A0 A', Init (1/100000000000000) Action_DihedralScan.new (intervalArgs 90 "out.nc")
        = (RetType.OK, A0) ∧
      Setup A0 topNCa (some [true, true]) true = some (RetType.OK, A') ∧
      A'.BB_dihedrals_.length = 1 ∧
      intervalWritten (IntervalAngles A' true).1 = [0, 1, 2, 3, 4] ∧
      snapshotAngles 0 (IntervalAngles A' true).1 = [0, 90, 180, 270, 360] ∧
      sameState 360 0 := by
  obtain ⟨d, A', hS, hBB, hiv, hmax, hout, hof⟩ := Setup_intervalInit_topNCa 90
  have hdm : d.maxVal = 4 := by
    rw [hmax]
    have h4 : (360 : ℚ) / 90 = ((4 : Int) : ℚ) := by norm_num
    rw [h4, truncToInt_intCast]
  have htr := IntervalAngles_single_four A' d hBB hdm hout
  refine ⟨_, A', Init_intervalArgs 90, hS, by rw [hBB]; rfl, ?_, ?_, ⟨1, by norm_num⟩⟩
  · rw [htr, hof]
    rfl
  · rw [htr]
    simp only [snapshotAngles, hiv]
    norm_num

/-- Claim C19, as the code has it: for a list of exactly one dihedral with the
step 90 degrees and `maxVal = (int)(360.0 / 90.0)`, with an output trajectory,
`IntervalAngles` writes 5 snapshots with consecutive frame indices, at the
cumulative rotation angles 0, 90, 180, 270 and 360 degrees. The 4 rotated states
are pairwise distinct and the first three are distinct from the original; the
fourth, at 360 degrees, is the original state again (two states being the same
when their angles are congruent modulo 360 degrees). -/
theorem C19_interval_90_five_snapshots (A : Action_DihedralScan) (d : DihedralScanType)
    (hBB : A.BB_dihedrals_ = [d]) (hiv : d.interval = 90)
    (hmax : d.maxVal = truncToInt (360 / d.interval)) (hout : A.outfilename_ ≠ "") :
    intervalWritten (IntervalAngles A true).1 =
        [A.outframe_, A.outframe_ + 1, A.outframe_ + 1 + 1, A.outframe_ + 1 + 1 + 1,
          A.outframe_ + 1 + 1 + 1 + 1] ∧
    snapshotAngles 0 (IntervalAngles A true).1 = [0, 90, 180, 270, 360] ∧
    List.Pairwise (fun a b => ¬ sameState a b) [(90 : ℚ), 180, 270, 360] ∧
    (¬ sameState 90 0 ∧ ¬ sameState 180 0 ∧ ¬ sameState 270 0) ∧
    sameState 360 0 := by
  have hdm : d.maxVal = 4 := by
    rw [hmax, hiv]
    have h4 : (360 : ℚ) / 90 = ((4 : Int) : ℚ) := by norm_num
    rw [h4, truncToInt_intCast]
  have htr := IntervalAngles_single_four A d hBB hdm hout
  refine ⟨?_, ?_, ?_, ⟨?_, ?_, ?_⟩, ⟨1, by norm_num⟩⟩
  · rw [htr]
    rfl
  · rw [htr]
    simp only [snapshotAngles, hiv]
    norm_num
  · simp only [List.pairwise_cons, List.mem_cons, List.mem_singleton, List.not_mem_nil,
      forall_eq_or_imp, forall_eq, List.Pairwise.nil, and_true, false_imp_iff, implies_true]
    refine ⟨⟨?_, ?_, ?_⟩, ⟨?_, ?_⟩, ?_⟩
    · exact not_sameState_of 90 180 90 180 (by norm_num) (by norm_num) (by decide)
    · exact not_sameState_of 90 270 90 270 (by norm_num) (by norm_num) (by decide)
    · exact not_sameState_of 90 360 90 360 (by norm_num) (by norm_num) (by decide)
    · exact not_sameState_of 180 270 180 270 (by norm_num) (by norm_num) (by decide)
    · exact not_sameState_of 180 360 180 360 (by norm_num) (by norm_num) (by decide)
    · exact not_sameState_of 270 360 270 360 (by norm_num) (by norm_num) (by decide)
  · exact not_sameState_of 90 0 90 0 (by norm_num) (by norm_num) (by decide)
  · exact not_sameState_of 180 0 180 0 (by norm_num) (by norm_num) (by decide)
  · exact not_sameState_of 270 0 270 0 (by norm_num) (by norm_num) (by decide)

/-- Claim C19, an instance: one dihedral with the step 90 degrees and 4 steps,
written to `out.nc`. -/
theorem C19_interval_90_five_snapshots_witness :
    intervalWritten (IntervalAngles (intervalScan [dihInterval 90 4] "out.nc") true).1 =
        [0, 1, 2, 3, 4] ∧
    snapshotAngles 0 (IntervalAngles (intervalScan [dihInterval 90 4] "out.nc") true).1 =
        [0, 90, 180, 270, 360] := by
  have h := C19_interval_90_five_snapshots (intervalScan [dihInterval 90 4] "out.nc")
    (dihInterval 90 4) rfl rfl
    (by
      show (4 : Int) = truncToInt (360 / 90)
      have h4 : (360 : ℚ) / 90 = ((4 : Int) : ℚ) := by norm_num
      rw [h4, truncToInt_intCast])
    (by decide)
  exact ⟨h.1, h.2.1⟩

/-! ## The random angle (C20) -/

theorem truncToInt_bounds (r : ℚ) (h0 : 0 ≤ r) (h1 : r < 1) :
    0 ≤ truncToInt (r * 100000) ∧ truncToInt (r * 100000) < 100000 := by
  have hx : 0 ≤ r * 100000 := by positivity
  unfold truncToInt
  rw [if_pos hx]
  constructor
  · exact Int.floor_nonneg.mpr hx
  · rw [Int.floor_lt]
    have : r * 100000 < 1 * 100000 := by
      apply mul_lt_mul_of_pos_right h1
      norm_num
    simpa using this

/-- In a pass at a list position inside the list, the first call made is the
rotation by the angle of the draw of that pass. -/
theorem visit_first_rotation (A : Action_DihedralScan) (draw ck : Nat → Int) (fuel : Nat)
    (s : ScanState) (d : DihedralScanType) (nr : Int) (o : Option Outcome) (s' : ScanState)
    (hd : dihAt A s.dih = some d) (hnr : nextResnum A s.dih s.next_dih = some nr)
    (h : visit A draw ck fuel s = some (o, s')) :
    ∃ e s3, rotateLoop A ck nr fuel (Int.tmod (draw s.draws) 360 + 1) 0
        { s with number_of_rotations := s.number_of_rotations + 1, draws := s.draws + 1 }
          = some (e, s3) ∧
      s'.trace = s3.trace ∧ s'.checks = s3.checks ∧
      ∃ evs, s'.trace = s.trace ++
        ScanEvent.rotate s.dih (Int.tmod (draw s.draws) 360 + 1) :: evs := by
  cases hR : rotateLoop A ck nr fuel (Int.tmod (draw s.draws) 360 + 1) 0
      { s with number_of_rotations := s.number_of_rotations + 1, draws := s.draws + 1 } with
  | none =>
    rw [visit_loop_none A draw ck fuel s d nr hd hnr hR] at h
    cases h
  | some p =>
    obtain ⟨e, s3⟩ := p
    rw [visit_inrange A draw ck fuel s d nr e s3 hd hnr hR] at h
    obtain ⟨evs, hevs⟩ := (rotateLoop_post A ck nr fuel _ 0 _ e s3 hR).2.2.2.2.2.2.2.2.2
    have key : s'.trace = s3.trace ∧ s'.checks = s3.checks := by
      split_ifs at h
      · cases h; exact ⟨rfl, rfl⟩
      · cases h; exact ⟨rfl, rfl⟩
    exact ⟨e, s3, rfl, key.1, key.2, evs, by rw [key.1, hevs]⟩

/-- Claim C20: for every value `r` of `RN_.rn_gen()` with `0 <= r < 1`, the
angle `((int)(r*100000) % 360) + 1` is a whole number of degrees from 1 to 360,
never 0; and in every pass of `RandomizeAngles` at a position inside the list
whose draw is `r`, the first call made is the rotation by that angle. -/
theorem C20_first_angle_between_1_and_360 (r : ℚ) (h0 : 0 ≤ r) (h1 : r < 1) :
    (1 ≤ drawnAngle r ∧ drawnAngle r ≤ 360 ∧ drawnAngle r ≠ 0) ∧
    ∀ (A : Action_DihedralScan) (rn_gen : Nat → ℚ) (ck : Nat → Int) (fuel : Nat)
      (s : ScanState) (d : DihedralScanType) (nr : Int) (o : Option Outcome) (s' : ScanState),
      rn_gen s.draws = r → dihAt A s.dih = some d →
      nextResnum A s.dih s.next_dih = some nr →
      visit A (fun k => truncToInt (rn_gen k * 100000)) ck fuel s = some (o, s') →
      ∃ evs, s'.trace = s.trace ++ ScanEvent.rotate s.dih (drawnAngle r) :: evs := by
  obtain ⟨hb0, hb1⟩ := truncToInt_bounds r h0 h1
  have hm0 : 0 ≤ Int.tmod (truncToInt (r * 100000)) 360 := Int.tmod_nonneg _ hb0
  have hm1 : Int.tmod (truncToInt (r * 100000)) 360 < 360 :=
    Int.tmod_lt_of_pos _ (by decide)
  refine ⟨⟨?_, ?_, ?_⟩, ?_⟩
  · unfold drawnAngle; omega
  · unfold drawnAngle; omega
  · unfold drawnAngle; omega
  · intro A rn_gen ck fuel s d nr o s' hr hd hnr h
    obtain ⟨_, _, _, _, _, evs, hevs⟩ :=
      visit_first_rotation A _ ck fuel s d nr o s' hd hnr h
    refine ⟨evs, ?_⟩
    rw [hevs]
    simp only [hr, drawnAngle]

/-- Claim C20, instances: the draw 0 gives 1 degree and the draw 0.99999 gives
(99999 % 360) + 1 = 280 degrees. -/
theorem C20_first_angle_between_1_and_360_witness :
    (1 ≤ drawnAngle 0 ∧ drawnAngle 0 ≤ 360 ∧ drawnAngle 0 ≠ 0) ∧
    (1 ≤ drawnAngle (99999/100000) ∧ drawnAngle (99999/100000) ≤ 360 ∧
      drawnAngle (99999/100000) ≠ 0) :=
  ⟨(C20_first_angle_between_1_and_360 0 (by norm_num) (by norm_num)).1,
   (C20_first_angle_between_1_and_360 (99999/100000) (by norm_num) (by norm_num)).1⟩

/-! ## The traversal marks the atoms reachable around the bond (C21) -/

theorem BondPath.ne_avoid {top : Topology} {avoid n x : Nat} (h : BondPath top avoid n x) :
    x ≠ avoid := by
  cases h with
  | start hn => exact hn
  | step _ _ _ _ hx => exact hx

theorem bonds_of_ge (top : Topology) (x : Nat) (h : top.Natom ≤ x) : top.bonds x = [] := by
  unfold Topology.bonds
  rw [List.getD_eq_default _ _ h]
  rfl

/-- A traversal marks only `atm` and atoms that `P` holds for, when `P` holds
for `atm` and goes over from an atom to the atoms bonded to it, the marked atom
`atom` apart. -/
theorem VisitAtom_sound (top : Topology) (atom : Nat) (P : Nat → Prop)
    (hP : ∀ y x, P y → x ∈ top.bonds y → x ≠ atom → P x) :
    ∀ (fuel atm : Nat) (V V' : List Bool),
      VisitAtom top fuel atm V = some V' →
      (atm ≠ atom → P atm) → V.getD atom false = true →
      (∀ x, V.getD x false = true → x ≠ atom → P x) →
      V'.getD atom false = true ∧ ∀ x, V'.getD x false = true → x ≠ atom → P x := by
  intro fuel
  induction fuel with
  | zero =>
    intro atm V V' h
    rw [VisitAtom] at h
    cases h
  | succ fuel ih =>
    intro atm V V' h hatm hatom hinv
    have fold : ∀ (bs : List Nat) (V0 V1 : List Bool),
        (∀ b ∈ bs, b ≠ atom → P b) →
        bs.foldlM (fun V bondedatom => VisitAtom top fuel bondedatom V) V0 = some V1 →
        V0.getD atom false = true →
        (∀ x, V0.getD x false = true → x ≠ atom → P x) →
        V1.getD atom false = true ∧ ∀ x, V1.getD x false = true → x ≠ atom → P x := by
      intro bs
      induction bs with
      | nil =>
        intro V0 V1 _ hf h0 h1
        rw [List.foldlM_nil] at hf
        cases hf
        exact ⟨h0, h1⟩
      | cons b rest ihb =>
        intro V0 V1 hbs hf h0 h1
        rw [List.foldlM_cons] at hf
        cases hv : VisitAtom top fuel b V0 with
        | none =>
          rw [hv] at hf
          cases hf
        | some Vm =>
          rw [hv] at hf
          obtain ⟨hm0, hm1⟩ := ih b V0 Vm hv (hbs b (by simp)) h0 h1
          exact ihb Vm V1 (fun c hc => hbs c (by simp [hc])) hf hm0 hm1
    by_cases hv : V.getD atm false = true
    · rw [VisitAtom, if_pos hv] at h
      cases h
      exact ⟨hatom, hinv⟩
    · rw [VisitAtom, if_neg hv] at h
      have hne : atm ≠ atom := by
        intro he
        rw [he] at hv
        exact hv hatom
      have hPatm := hatm hne
      refine fold (top.bonds atm) (V.set atm true) V' ?_ h (getD_set_mono V atm atom hatom) ?_
      · intro b hb hba
        exact hP atm b hPatm hb hba
      · intro x hx hxa
        by_cases hx0 : V.getD x false = true
        · exact hinv x hx0 hxa
        · have : x = atm := getD_set_new V atm x hx (by simpa using hx0)
          rw [this]
          exact hPatm

/-- The marks left by the loop over the bonds of `atom2` in `Setup`: every
marked atom other than `atom` is on a bond path from an atom bonded to `atom2`,
other than `atom`, that does not pass through `atom`. -/
theorem visitAroundBond_sound (top : Topology) (atom atom2 : Nat) (V : List Bool)
    (hlt : atom < top.Natom) (h : visitAroundBond top atom atom2 = some V) :
    ∀ x, V.getD x false = true → x ≠ atom →
      ∃ n ∈ top.bonds atom2, n ≠ atom ∧ BondPath top atom n x := by
  have hP : ∀ y x, (∃ n ∈ top.bonds atom2, n ≠ atom ∧ BondPath top atom n y) →
      x ∈ top.bonds y → x ≠ atom → ∃ n ∈ top.bonds atom2, n ≠ atom ∧ BondPath top atom n x := by
    rintro y x ⟨n, hn, hna, hp⟩ hx hxa
    exact ⟨n, hn, hna, BondPath.step n y x hp hx hxa⟩
  have fold : ∀ (bs : List Nat) (V0 V1 : List Bool),
      (∀ b ∈ bs, b ∈ top.bonds atom2) →
      bs.foldlM (fun V bndatm =>
        if bndatm ≠ atom then VisitAtom top (top.Natom + 1) bndatm V else some V) V0 = some V1 →
      V0.getD atom false = true →
      (∀ x, V0.getD x false = true → x ≠ atom →
        ∃ n ∈ top.bonds atom2, n ≠ atom ∧ BondPath top atom n x) →
      V1.getD atom false = true ∧ ∀ x, V1.getD x false = true → x ≠ atom →
        ∃ n ∈ top.bonds atom2, n ≠ atom ∧ BondPath top atom n x := by
    intro bs
    induction bs with
    | nil =>
      intro V0 V1 _ hf h0 h1
      rw [List.foldlM_nil] at hf
      cases hf
      exact ⟨h0, h1⟩
    | cons b rest ihb =>
      intro V0 V1 hbs hf h0 h1
      rw [List.foldlM_cons] at hf
      by_cases hb : b ≠ atom
      · rw [if_pos hb] at hf
        cases hv : VisitAtom top (top.Natom + 1) b V0 with
        | none =>
          rw [hv] at hf
          cases hf
        | some Vm =>
          rw [hv] at hf
          obtain ⟨hm0, hm1⟩ := VisitAtom_sound top atom _ hP (top.Natom + 1) b V0 Vm hv
            (fun _ => ⟨b, hbs b (by simp), hb, BondPath.start b hb⟩) h0 h1
          exact ihb Vm V1 (fun c hc => hbs c (by simp [hc])) hf hm0 hm1
      · rw [if_neg hb] at hf
        exact ihb V0 V1 (fun c hc => hbs c (by simp [hc])) hf h0 h1
  unfold visitAroundBond at h
  refine (fold (top.bonds atom2) _ V (fun b hb => hb) h ?_ ?_).2
  · exact getD_set_self _ atom (by rw [List.length_replicate]; exact hlt)
  · intro x hx hxa
    exact absurd (getD_initial_marks _ _ _ hx) hxa

/-- Claim C21: for every topology whose bond lists hold atom indices of the
topology (rings allowed), `Setup` returns, and for every descriptor it pushes
and every atom `x` other than `atom1`: `x` is in `Rmask` exactly when there is
an atom `n` bonded to `atom2`, other than `atom1`, and a bond path from `n` to
`x` that does not pass through `atom1`. -/
theorem C21_Rmask_is_reachable_around_bond (A : Action_DihedralScan) (top : Topology)
    (charMask : Option (List Bool)) (checkStructureOk : Bool)
    (hwf : ∀ y, y < top.Natom → ∀ b ∈ top.bonds y, b < top.Natom) :
    ∃ r A' added, Setup A top charMask checkStructureOk = some (r, A') ∧
      A'.BB_dihedrals_ = A.BB_dihedrals_ ++ added ∧
      ∀ d ∈ added, ∀ x, x ≠ d.atom1 →
        (x ∈ d.Rmask ↔ ∃ n ∈ top.bonds d.atom2, n ≠ d.atom1 ∧ BondPath top d.atom1 n x) := by
  obtain ⟨r, A', added, e, hBB, hd⟩ := Setup_total A top charMask checkStructureOk
  refine ⟨r, A', added, e, hBB, ?_⟩
  intro d hmem x hx
  obtain ⟨Mask1_, _, atom, atom2, V, hlt, _, hp, _, eV, rfl⟩ := hd d hmem
  have hwf' : ∀ y b, b ∈ top.bonds y → b < top.Natom := by
    intro y b hb
    by_cases hy : y < top.Natom
    · exact hwf y hy b hb
    · rw [bonds_of_ge top y (by omega)] at hb
      cases hb
  obtain ⟨V', eV', hlen, _, hseed, hclosed, _⟩ := visitAroundBond_total top atom atom2
  rw [eV] at eV'
  cases eV'
  rw [mem_Rmask_makeDihedral]
  constructor
  · intro hV
    exact visitAroundBond_sound top atom atom2 V hlt eV x hV hx
  · rintro ⟨n, hn, hna, hpath⟩
    induction hpath with
    | start hne => exact hseed n hn hna (hwf' atom2 n hn)
    | step y z hyp hz hza ih =>
      exact hclosed y (ih hyp.ne_avoid) hyp.ne_avoid z hz (hwf' y z hz)

/-- Claim C21, an instance: the chain `N - CA - C`, whose bond lists hold the
indices 0, 1, 2 only. -/
theorem C21_Rmask_is_reachable_around_bond_witness :
    ∃ r A' added,
      Setup Action_DihedralScan.new topNCaC (some [true, true, true]) true = some (r, A') ∧
      A'.BB_dihedrals_ = Action_DihedralScan.new.BB_dihedrals_ ++ added ∧
      ∀ d ∈ added, ∀ x, x ≠ d.atom1 →
        (x ∈ d.Rmask ↔
          ∃ n ∈ topNCaC.bonds d.atom2, n ≠ d.atom1 ∧ BondPath topNCaC d.atom1 n x) :=
  C21_Rmask_is_reachable_around_bond Action_DihedralScan.new topNCaC
    (some [true, true, true]) true (by decide)

/-! ## The calls made within one pass (C22, C23) -/

theorem mem_clashTrace (dih nr : Int) :
    ∀ (k : Nat) (theta theta' : Int) (ev : ScanEvent),
      ev ∈ clashTrace dih nr theta theta' k →
        (∃ t, ev = ScanEvent.rotate dih t) ∨ ev = ScanEvent.check dih nr := by
  intro k
  induction k with
  | zero =>
    intro theta theta' ev h
    simp [clashTrace] at h
  | succ k ih =>
    intro theta theta' ev h
    rw [clashTrace] at h
    rcases List.mem_cons.mp h with rfl | h
    · exact Or.inl ⟨theta, rfl⟩
    · rcases List.mem_cons.mp h with rfl | h
      · exact Or.inr rfl
      · exact ih theta' theta' ev h

theorem rotationAngles_clashTrace (dih nr : Int) :
    ∀ (k : Nat) (theta theta' : Int),
      rotationAngles (clashTrace dih nr theta theta' (k + 1)) =
        theta :: List.replicate k theta' := by
  intro k
  induction k with
  | zero =>
    intro theta theta'
    rfl
  | succ k ih =>
    intro theta theta'
    rw [clashTrace]
    have h := ih theta' theta'
    simp only [rotationAngles, List.filterMap_cons] at h ⊢
    rw [h]
    rfl

theorem sum_take_angles (theta inc : Int) (m j : Nat) (hj : j ≤ m) :
    ((theta :: List.replicate m inc).take (j + 1)).sum = theta + (j : Int) * inc := by
  rw [List.take_succ_cons, List.sum_cons, List.take_replicate, Nat.min_eq_left hj,
    List.sum_replicate]
  simp

/-- The calls of the rotation loop with clash checking: `k` times a rotation
and a check, the first rotation by `theta` and the others by the angle that
the first retry sets; the loop makes no more passes than `max_increment_`
allows, and it is left as exhausted when all its checks return a clash. -/
theorem rotateLoop_trace (A : Action_DihedralScan) (ck : Nat → Int) (nr : Int)
    (hc : A.check_for_clashes_ = true) :
    ∀ (fuel : Nat) (theta c : Int) (s : ScanState) (e : LoopExit) (s' : ScanState),
      0 ≤ c → rotateLoop A ck nr fuel theta c s = some (e, s') →
      ∃ k : Nat, 1 ≤ k ∧
        s'.trace = s.trace ++
          clashTrace s.dih nr theta (if c = 0 then A.increment_ else theta) k ∧
        s'.checks = s.checks + k ∧
        (c < A.max_increment_ → c + (k : Int) ≤ A.max_increment_) ∧
        (e = LoopExit.exhausted → c + (k : Int) = A.max_increment_) ∧
        ((∀ j, j < k → ck (s.checks + j) ≠ 0 ∧ ck (s.checks + j) ≠ -1) →
          e = LoopExit.exhausted) := by
  intro fuel
  induction fuel with
  | zero =>
    intro theta c s e s' _ h
    simp [rotateLoop] at h
  | succ fuel ih =>
    intro theta c s e s' hc0 h
    have one : ∀ t' : Int, s.trace ++ [ScanEvent.rotate s.dih theta] ++
        [ScanEvent.check s.dih nr] = s.trace ++ clashTrace s.dih nr theta t' 1 := by
      intro t'
      simp [clashTrace]
    by_cases hu : ck s.checks = -1
    · rw [rotateLoop_unresolvable A ck nr fuel theta c s hc hu] at h
      cases h
      refine ⟨1, le_refl 1, one _, rfl, ?_, ?_, ?_⟩
      · intro hlt
        have : c + ((1 : Nat) : Int) = c + 1 := by norm_num
        omega
      · intro he; cases he
      · intro hall
        exact absurd hu (hall 0 (by decide)).2
    · by_cases hm : c + 1 = A.max_increment_
      · rw [rotateLoop_exhausted A ck nr fuel theta c s hc hu hm] at h
        cases h
        refine ⟨1, le_refl 1, one _, rfl, ?_, ?_, fun _ => rfl⟩
        · intro _
          have : c + ((1 : Nat) : Int) = c + 1 := by norm_num
          omega
        · intro _
          have : c + ((1 : Nat) : Int) = c + 1 := by norm_num
          omega
      · by_cases h0 : ck s.checks = 0
        · rw [rotateLoop_accepted A ck nr fuel theta c s hc h0 hm] at h
          cases h
          refine ⟨1, le_refl 1, one _, rfl, ?_, ?_, ?_⟩
          · intro hlt
            have : c + ((1 : Nat) : Int) = c + 1 := by norm_num
            omega
          · intro he; cases he
          · intro hall
            exact absurd h0 (hall 0 (by decide)).1
        · rw [rotateLoop_retry A ck nr fuel theta c s hc h0 hu hm] at h
          obtain ⟨k, hk1, htr, hck, hle, hex, hall⟩ :=
            ih (if c = 0 then A.increment_ else theta) (c + 1) _ e s' (by omega) h
          have hc1 : ¬ (c + 1 = 0) := by omega
          rw [if_neg hc1] at htr
          refine ⟨k + 1, by omega, ?_, ?_, ?_, ?_, ?_⟩
          · rw [htr, clashTrace]
            simp
          · rw [hck]
            simp only
            omega
          · intro hlt
            have := hle (by omega)
            push_cast
            omega
          · intro he
            have := hex he
            push_cast
            omega
          · intro hcl
            apply hall
            intro j hj
            have := hcl (j + 1) (by omega)
            simp only
            rw [show s.checks + 1 + j = s.checks + (j + 1) by omega]
            exact this

/-- All the calls of the rotation loop are for the dihedral at `s.dih`, and
its checks are made with the limit `nr`. -/
theorem rotateLoop_events (A : Action_DihedralScan) (ck : Nat → Int) (nr : Int)
    (fuel : Nat) (theta : Int) (s : ScanState) (e : LoopExit) (s' : ScanState)
    (h : rotateLoop A ck nr fuel theta 0 s = some (e, s')) :
    ∃ evs, s'.trace = s.trace ++ evs ∧
      ∀ ev ∈ evs, (∃ t, ev = ScanEvent.rotate s.dih t) ∨ ev = ScanEvent.check s.dih nr := by
  by_cases hc : A.check_for_clashes_ = true
  · obtain ⟨k, _, htr, _⟩ := rotateLoop_trace A ck nr hc fuel theta 0 s e s' (le_refl 0) h
    exact ⟨_, htr, fun ev hev => mem_clashTrace s.dih nr k _ _ ev hev⟩
  · have hf : A.check_for_clashes_ = false := by
      cases hb : A.check_for_clashes_ with
      | true => exact absurd hb hc
      | false => rfl
    have := ((rotateLoop_post A ck nr fuel theta 0 s e s' h).2.2.2.2.2.2.1 hf).1
    refine ⟨_, this, ?_⟩
    intro ev hev
    rw [List.mem_singleton] at hev
    exact Or.inl ⟨theta, hev⟩

/-- A pass at a position inside the list, taken apart: the exit of its rotation
loop, and where the pass leaves the trace, the number of checks and `dih`. -/
theorem visit_inrange_cases (A : Action_DihedralScan) (draw ck : Nat → Int) (fuel : Nat)
    (s : ScanState) (d : DihedralScanType) (nr : Int) (o : Option Outcome) (s' : ScanState)
    (hd : dihAt A s.dih = some d) (hnr : nextResnum A s.dih s.next_dih = some nr)
    (h : visit A draw ck fuel s = some (o, s')) :
    ∃ e s3, rotateLoop A ck nr fuel (Int.tmod (draw s.draws) 360 + 1) 0
        { s with number_of_rotations := s.number_of_rotations + 1, draws := s.draws + 1 }
          = some (e, s3) ∧
      s'.trace = s3.trace ∧ s'.checks = s3.checks ∧ (o = none → s'.dih = s3.dih + 1) := by
  cases hR : rotateLoop A ck nr fuel (Int.tmod (draw s.draws) 360 + 1) 0
      { s with number_of_rotations := s.number_of_rotations + 1, draws := s.draws + 1 } with
  | none =>
    rw [visit_loop_none A draw ck fuel s d nr hd hnr hR] at h
    cases h
  | some p =>
    obtain ⟨e, s3⟩ := p
    rw [visit_inrange A draw ck fuel s d nr e s3 hd hnr hR] at h
    refine ⟨e, s3, rfl, ?_⟩
    split_ifs at h
    · cases h
      exact ⟨rfl, rfl, fun ho => by cases ho⟩
    · cases h
      exact ⟨rfl, rfl, fun _ => rfl⟩

/-- The limit residue at a position inside the list when the look-ahead
iterator is one position after `dih`. -/
theorem nextResnum_succ (A : Action_DihedralScan) (i : Int) (d : DihedralScanType)
    (hd : dihAt A i = some d) :
    ∃ nr, nextResnum A i (i + 1) = some nr ∧
      (i + 1 < (A.BB_dihedrals_.length : Int) →
        ∃ d1, dihAt A (i + 1) = some d1 ∧ nr = (d1.resnum : Int)) ∧
      (i + 1 = (A.BB_dihedrals_.length : Int) → nr = (d.resnum : Int) - 1) := by
  obtain ⟨h0, h1⟩ := dihAt_some A i d hd
  by_cases hN : i + 1 = (A.BB_dihedrals_.length : Int)
  · refine ⟨(d.resnum : Int) - 1, ?_, fun h => by omega, fun _ => rfl⟩
    rw [nextResnum, if_neg (by intro h; exact h hN), hd]
    rfl
  · obtain ⟨d1, hd1⟩ := dihAt_of_lt A (i + 1) (by omega) (by omega)
    refine ⟨(d1.resnum : Int), ?_, fun _ => ⟨d1, hd1, rfl⟩, fun h => absurd h hN⟩
    rw [nextResnum, if_pos hN, hd1]
    rfl

/-- Claim C22: at the head of every pass of `RandomizeAngles` (the first and
those reached after any backtracks) the look-ahead iterator is one position
after `dih`; and in a pass at a position `i` inside the list, which returns when
the fuel covers its rotations, every call of `CheckResidue` is for the dihedral
at `i` and is given as limit the residue of the dihedral at `i + 1` when
`i + 1 < N`, and the residue of the dihedral at `i` minus one when `i` is the
last position. -/
theorem C22_limit_residue_is_that_of_next_dihedral (A : Action_DihedralScan)
    (draw ck : Nat → Int) (fuel : Nat) (s : ScanState) (d : DihedralScanType)
    (hinc : A.check_for_clashes_ = true → 1 ≤ A.max_increment_)
    (hreach : Reaches A draw ck s) (hd : dihAt A s.dih = some d)
    (hfuel : 1 ≤ fuel ∧ perVisit A ≤ fuel) :
    s.next_dih = s.dih + 1 ∧
    ∃ o s' evs, visit A draw ck fuel s = some (o, s') ∧ s'.trace = s.trace ++ evs ∧
      ∀ i nr, ScanEvent.check i nr ∈ evs →
        i = s.dih ∧
        (s.dih + 1 < (A.BB_dihedrals_.length : Int) →
          ∃ d1, dihAt A (s.dih + 1) = some d1 ∧ nr = (d1.resnum : Int)) ∧
        (s.dih + 1 = (A.BB_dihedrals_.length : Int) → nr = (d.resnum : Int) - 1) := by
  have hinv := Reaches.inv hinc hreach
  have hnext : s.next_dih = s.dih + 1 := hinv.1
  refine ⟨hnext, ?_⟩
  obtain ⟨nr0, hnr, hlt, heq⟩ := nextResnum_succ A s.dih d hd
  rw [← hnext] at hnr
  obtain ⟨⟨o, s'⟩, hv⟩ := visit_total A draw ck fuel hinc hfuel s
  obtain ⟨e, s3, hR, htr, _, _⟩ := visit_inrange_cases A draw ck fuel s d nr0 o s' hd hnr hv
  obtain ⟨evs, hevs, hall⟩ := rotateLoop_events A ck nr0 fuel _ _ e s3 hR
  refine ⟨o, s', evs, hv, by rw [htr, hevs], ?_⟩
  intro i nr hmem
  rcases hall _ hmem with ⟨t, ht⟩ | hck
  · cases ht
  · cases hck
    exact ⟨rfl, hlt, heq⟩

/-- Claim C22, an instance: two dihedrals in residues 0 and 1, default keywords
with `check`, at the first pass. -/
theorem C22_limit_residue_is_that_of_next_dihedral_witness :
    ScanState.init.next_dih = ScanState.init.dih + 1 ∧
    ∃ o s' evs, visit (randomScan 2 4 1 2 true) (fun _ => 0) (fun _ => 0) 360
        ScanState.init = some (o, s') ∧
      s'.trace = ScanState.init.trace ++ evs ∧
      ∀ i nr, ScanEvent.check i nr ∈ evs →
        i = ScanState.init.dih ∧
        (ScanState.init.dih + 1 < ((randomScan 2 4 1 2 true).BB_dihedrals_.length : Int) →
          ∃ d1, dihAt (randomScan 2 4 1 2 true) (ScanState.init.dih + 1) = some d1 ∧
            nr = (d1.resnum : Int)) ∧
        (ScanState.init.dih + 1 = ((randomScan 2 4 1 2 true).BB_dihedrals_.length : Int) →
          nr = ((dihOfRes 0).resnum : Int) - 1) :=
  C22_limit_residue_is_that_of_next_dihedral (randomScan 2 4 1 2 true) (fun _ => 0)
    (fun _ => 0) 360 ScanState.init (dihOfRes 0) (fun _ => by decide) Reaches.init
    (by decide) (by decide)

/-- Claim C23: in a pass of `RandomizeAngles` with clash checking at a position
inside the list, with `max_increment_ = 360 / increment_ >= 1` as `Init` leaves
it and fuel for `max_increment_` rotations, the pass returns and its calls are
`k` times a rotation followed by a check, with `1 <= k <= 360 / increment_`:
nothing is rotated back; the first rotation is by the drawn angle and each
later one by `increment_`, so that the angles of the first `j` rotations add up
to `theta + (j - 1) * increment_`. When all the checks of the pass return a
clash, `k = 360 / increment_` and the pass backtracks as exhausted. -/
theorem C23_rotations_within_one_pass (A : Action_DihedralScan) (draw ck : Nat → Int)
    (fuel : Nat) (s : ScanState) (d : DihedralScanType) (nr : Int)
    (hc : A.check_for_clashes_ = true) (hmax : 1 ≤ A.max_increment_)
    (hdiv : A.max_increment_ = Int.tdiv 360 A.increment_)
    (hd : dihAt A s.dih = some d) (hnr : nextResnum A s.dih s.next_dih = some nr)
    (hfuel : A.max_increment_.toNat ≤ fuel) :
    ∃ (o : Option Outcome) (s' : ScanState) (k : Nat) (evs : List ScanEvent),
      visit A draw ck fuel s = some (o, s') ∧
      1 ≤ k ∧ (k : Int) ≤ Int.tdiv 360 A.increment_ ∧
      s'.trace = s.trace ++ evs ∧
      evs = clashTrace s.dih nr (Int.tmod (draw s.draws) 360 + 1) A.increment_ k ∧
      rotations evs = k ∧
      rotationAngles evs =
        (Int.tmod (draw s.draws) 360 + 1) :: List.replicate (k - 1) A.increment_ ∧
      (∀ j : Nat, 1 ≤ j → j ≤ k →
        ((rotationAngles evs).take j).sum =
          (Int.tmod (draw s.draws) 360 + 1) + ((j : Int) - 1) * A.increment_) ∧
      ((∀ j, j < k → ck (s.checks + j) ≠ 0 ∧ ck (s.checks + j) ≠ -1) →
        (k : Int) = Int.tdiv 360 A.increment_ ∧
        (o = none → s'.dih = s.dih - max A.backtrack_ 0 + 1)) := by
  have hper : perVisit A = A.max_increment_.toNat := by
    unfold perVisit
    rw [if_pos hc]
  obtain ⟨⟨o, s'⟩, hv⟩ := visit_total A draw ck fuel (fun _ => hmax)
    ⟨by omega, by rw [hper]; exact hfuel⟩ s
  obtain ⟨e, s3, hR, htr, _, hdih⟩ := visit_inrange_cases A draw ck fuel s d nr o s' hd hnr hv
  obtain ⟨k, hk1, htr3, _, hle, hex, hall⟩ :=
    rotateLoop_trace A ck nr hc fuel _ 0 _ e s3 (le_refl 0) hR
  rw [if_pos rfl] at htr3
  have hk : k = (k - 1) + 1 := by omega
  have hang : rotationAngles
      (clashTrace s.dih nr (Int.tmod (draw s.draws) 360 + 1) A.increment_ k) =
      (Int.tmod (draw s.draws) 360 + 1) :: List.replicate (k - 1) A.increment_ := by
    conv_lhs => rw [hk]
    exact rotationAngles_clashTrace s.dih nr (k - 1) _ _
  refine ⟨o, s', k, _, hv, hk1, ?_, by rw [htr, htr3], rfl, rotations_clashTrace _ _ _ _ _,
    hang, ?_, ?_⟩
  · have := hle (by omega)
    rw [← hdiv]
    omega
  · intro j hj1 hjk
    rw [hang]
    have hj : j = (j - 1) + 1 := by omega
    conv_lhs => rw [hj]
    rw [sum_take_angles _ _ (k - 1) (j - 1) (by omega)]
    have : ((j - 1 : Nat) : Int) = (j : Int) - 1 := by omega
    rw [this]
  · intro hcl
    have he := hall hcl
    have hk2 := hex he
    refine ⟨by rw [← hdiv]; omega, ?_⟩
    intro ho
    rw [hdih ho, ((rotateLoop_post A ck nr fuel _ 0 _ e s3 hR).2.2.2.2.1 he).1]

/-- Claim C23, an instance: one dihedral, keywords `check backtrack 0 increment
120 maxfactor 1`, every check returning a clash: the pass makes the 3
rotations by 1, 120 and 120 degrees. -/
theorem C23_rotations_within_one_pass_witness :
    ∃ (o : Option Outcome) (s' : ScanState) (k : Nat) (evs : List ScanEvent),
      visit (randomScan 1 0 120 1 true) (fun _ => 0) (fun _ => 1) 3
        ScanState.init = some (o, s') ∧
      1 ≤ k ∧ (k : Int) ≤ Int.tdiv 360 (randomScan 1 0 120 1 true).increment_ ∧
      s'.trace = ScanState.init.trace ++ evs ∧
      evs = clashTrace ScanState.init.dih (-1)
        (Int.tmod ((fun _ => 0) ScanState.init.draws) 360 + 1)
        (randomScan 1 0 120 1 true).increment_ k ∧
      rotations evs = k ∧
      rotationAngles evs =
        (Int.tmod ((fun _ => 0) ScanState.init.draws) 360 + 1) ::
          List.replicate (k - 1) (randomScan 1 0 120 1 true).increment_ ∧
      (∀ j : Nat, 1 ≤ j → j ≤ k →
        ((rotationAngles evs).take j).sum =
          (Int.tmod ((fun _ => 0) ScanState.init.draws) 360 + 1) +
            ((j : Int) - 1) * (randomScan 1 0 120 1 true).increment_) ∧
      ((∀ j, j < k → (fun _ => 1) (ScanState.init.checks + j) ≠ (0 : Int) ∧
          (fun _ => 1) (ScanState.init.checks + j) ≠ (-1 : Int)) →
        (k : Int) = Int.tdiv 360 (randomScan 1 0 120 1 true).increment_ ∧
        (o = none → s'.dih = ScanState.init.dih -
          max (randomScan 1 0 120 1 true).backtrack_ 0 + 1)) :=
  C23_rotations_within_one_pass (randomScan 1 0 120 1 true) (fun _ => 0) (fun _ => 1) 3
    ScanState.init (dihOfRes 0) (-1) rfl (by decide) rfl (by decide) (by decide) (by decide)

/-! ## When CheckResidue reports no clash (C24) -/

theorem firstClose_congr (F F' : Frame) (cutoff_ : ℚ) :
    ∀ pairs : List (Nat × Nat), (∀ p ∈ pairs, F' p.1 = F p.1 ∧ F' p.2 = F p.2) →
      firstClose F' cutoff_ pairs = firstClose F cutoff_ pairs := by
  intro pairs
  induction pairs with
  | nil => intro _; rfl
  | cons p rest ih =>
    intro h
    have hp := h p (by simp)
    have hr := ih (fun q hq => h q (by simp [hq]))
    unfold firstClose at hr ⊢
    rw [List.find?_cons, List.find?_cons, hp.1, hp.2, hr]

/-- The loop over the residues gives the same result on two frames that agree
on the atoms of the residue of the dihedral, on the representative atoms, and
on the atoms of the residues that pass the coarse test. -/
theorem checkOthers_congr (A : Action_DihedralScan) (F F' : Frame) (dih : DihedralScanType)
    (rstart rstop rcheck : Nat) (clash : ℚ)
    (hown : ∀ x, rstart ≤ x → x < rstop → F' x = F x) (hrep : F' rcheck = F rcheck) :
    ∀ l : List Nat,
      (∀ res ∈ l, res ≠ dih.resnum → ∀ rc2, A.ResCheck_.get? res = some rc2 →
        F' rc2.checkatom = F rc2.checkatom ∧
        (DIST2_NoImage (F rcheck) (F rc2.checkatom) < A.rescutoff_ →
          ∀ x, rc2.start ≤ x → x < rc2.stop → F' x = F x)) →
      checkOthers A F' dih rstart rstop rcheck clash l =
        checkOthers A F dih rstart rstop rcheck clash l := by
  intro l
  induction l with
  | nil => intro _; rfl
  | cons res rest ih =>
    intro h
    have ih' := ih (fun r hr => h r (by simp [hr]))
    rw [checkOthers, checkOthers]
    by_cases hres : res = dih.resnum
    · rw [if_pos hres, if_pos hres]; exact ih'
    · rw [if_neg hres, if_neg hres]
      cases hg : A.ResCheck_.get? res with
      | none => rfl
      | some rc2 =>
        obtain ⟨h1, h2⟩ := h res (by simp) hres rc2 hg
        simp only
        rw [hrep, h1]
        by_cases hD : DIST2_NoImage (F rcheck) (F rc2.checkatom) < A.rescutoff_
        · rw [if_pos hD, if_pos hD]
          have hagree : ∀ p ∈ crossPairs rstart rstop rc2.start rc2.stop,
              F' p.1 = F p.1 ∧ F' p.2 = F p.2 := by
            rintro ⟨x, y⟩ hp
            have := (mem_crossPairs _ _ _ _ _ _).mp hp
            exact ⟨hown x this.1.1 this.1.2, h2 hD y this.2.1 this.2.2⟩
          rw [firstClose_congr F F' A.cutoff_ _ hagree]
          cases hf : firstClose F A.cutoff_ (crossPairs rstart rstop rc2.start rc2.stop) with
          | none => exact ih'
          | some p =>
            obtain ⟨a, b⟩ := p
            have hab := hagree (a, b) (firstClose_some _ _ _ a b hf).1
            simp only
            rw [hab.1, hab.2]
        · rw [if_neg hD, if_neg hD]; exact ih'

/-- Claim C24: when `ResCheck_` has the residue of the dihedral and every
residue up to the limit, `CheckResidue` returns, and it returns 0 (NoClash)
exactly when (a) no two distinct atoms of the range of the residue of the
dihedral have a squared distance below `cutoff_`, and (b) for every residue
`res <= nextres` other than that of the dihedral, the squared distance of the
two representative atoms is at least `rescutoff_`, or no atom of the own range
and atom of the range of `res` have a squared distance below `cutoff_`. The
result is the same on every frame that agrees with the given one on the atoms
of the own range, on the representative atoms of the residues up to the limit,
and on the atoms of those residues up to the limit that pass the coarse test:
the other atoms play no part. -/
theorem C24_noclash_iff_no_close_pair (A : Action_DihedralScan) (FrameIn : Frame)
    (dih : DihedralScanType) (nextres : Int) (clash : ℚ) (rc : ResidueCheckType)
    (hrc : A.ResCheck_.get? dih.resnum = some rc)
    (hidx : ∀ res : Nat, (res : Int) ≤ nextres → res < A.ResCheck_.length) :
    (∃ r c, CheckResidue A FrameIn dih nextres clash = some (r, c) ∧
      (r = 0 ↔
        (∀ x y, x ≠ y → rc.start ≤ x → x < rc.stop → rc.start ≤ y → y < rc.stop →
          ¬ DIST2_NoImage (FrameIn x) (FrameIn y) < A.cutoff_) ∧
        (∀ res : Nat, (res : Int) ≤ nextres → res ≠ dih.resnum →
          ∀ rc2, A.ResCheck_.get? res = some rc2 →
            A.rescutoff_ ≤ DIST2_NoImage (FrameIn rc.checkatom) (FrameIn rc2.checkatom) ∨
            ∀ x y, rc.start ≤ x → x < rc.stop → rc2.start ≤ y → y < rc2.stop →
              ¬ DIST2_NoImage (FrameIn x) (FrameIn y) < A.cutoff_))) ∧
    (∀ F' : Frame,
      (∀ x, rc.start ≤ x → x < rc.stop → F' x = FrameIn x) →
      F' rc.checkatom = FrameIn rc.checkatom →
      (∀ res : Nat, (res : Int) ≤ nextres → res ≠ dih.resnum →
        ∀ rc2, A.ResCheck_.get? res = some rc2 →
          F' rc2.checkatom = FrameIn rc2.checkatom ∧
          (DIST2_NoImage (FrameIn rc.checkatom) (FrameIn rc2.checkatom) < A.rescutoff_ →
            ∀ x, rc2.start ≤ x → x < rc2.stop → F' x = FrameIn x)) →
      CheckResidue A F' dih nextres clash = CheckResidue A FrameIn dih nextres clash) := by
  constructor
  · obtain ⟨r, c, e, _, h0, _, _⟩ := CheckResidue_spec A FrameIn dih nextres clash rc hrc hidx
    refine ⟨r, c, e, ?_⟩
    rw [h0, firstClose_eq_none]
    constructor
    · rintro ⟨hself, hoth⟩
      constructor
      · intro x y hne hx1 hx2 hy1 hy2
        rcases Nat.lt_or_gt_of_ne hne with h | h
        · exact hself (x, y) ((mem_selfPairs _ _ _ _).mpr ⟨hx1, h, hy2⟩)
        · have := hself (y, x) ((mem_selfPairs _ _ _ _).mpr ⟨hy1, h, hx2⟩)
          rwa [DIST2_NoImage_comm] at this
      · intro res hle hne rc2 hg
        by_cases hD : DIST2_NoImage (FrameIn rc.checkatom) (FrameIn rc2.checkatom)
            < A.rescutoff_
        · right
          intro x y hx1 hx2 hy1 hy2
          exact (firstClose_eq_none _ _ _).mp (hoth res hle hne rc2 hg hD) (x, y)
            ((mem_crossPairs _ _ _ _ _ _).mpr ⟨⟨hx1, hx2⟩, hy1, hy2⟩)
        · left
          exact not_lt.mp hD
    · rintro ⟨hself, hoth⟩
      constructor
      · rintro ⟨x, y⟩ hp
        have := (mem_selfPairs _ _ _ _).mp hp
        exact hself x y (by omega) this.1 (by omega) (by omega) this.2.2
      · intro res hle hne rc2 hg hD
        rw [firstClose_eq_none]
        rintro ⟨x, y⟩ hp
        have hm := (mem_crossPairs _ _ _ _ _ _).mp hp
        rcases hoth res hle hne rc2 hg with h | h
        · exact absurd hD (not_lt.mpr h)
        · exact h x y hm.1.1 hm.1.2 hm.2.1 hm.2.2
  · intro F' hown hrep hoth
    have hself : firstClose F' A.cutoff_ (selfPairs rc.start rc.stop) =
        firstClose FrameIn A.cutoff_ (selfPairs rc.start rc.stop) := by
      apply firstClose_congr
      rintro ⟨x, y⟩ hp
      have := (mem_selfPairs _ _ _ _).mp hp
      exact ⟨hown x this.1 (by omega), hown y (by omega) this.2.2⟩
    cases hf : firstClose FrameIn A.cutoff_ (selfPairs rc.start rc.stop) with
    | some p =>
      obtain ⟨a, b⟩ := p
      rw [CheckResidue_self_found A FrameIn dih nextres clash rc a b hrc hf,
        CheckResidue_self_found A F' dih nextres clash rc a b hrc (by rw [hself, hf])]
      have := (mem_selfPairs _ _ _ _).mp (firstClose_some _ _ _ a b hf).1
      rw [hown a this.1 (by omega), hown b (by omega) this.2.2]
    | none =>
      rw [CheckResidue_self_none A FrameIn dih nextres clash rc hrc hf,
        CheckResidue_self_none A F' dih nextres clash rc hrc (by rw [hself, hf])]
      apply checkOthers_congr A FrameIn F' dih rc.start rc.stop rc.checkatom clash hown hrep
      intro res hmem hne rc2 hg
      have hlt := List.mem_range.mp hmem
      exact hoth res (by omega) hne rc2 hg

/-- Claim C24, an instance: residues `[0, 2)` and `[2, 4)` with the one close
pair `(1, 2)`; the call for the dihedral of residue 0 with the limit 1 does
not return 0, as the pair of atom 1 and atom 2 has a squared distance below the
cutoff. -/
theorem C24_noclash_iff_no_close_pair_witness :
    ∃ r c, CheckResidue (checkScan (64/100) 100 [(0, 2), (2, 4)])
        (frameOf [(0, 0, 0), (1, 0, 0), (3/2, 0, 0), (5/2, 0, 0)]) (dihCheck 0 [1]) 1 0
        = some (r, c) ∧
      (r = 0 ↔
        (∀ x y, x ≠ y → 0 ≤ x → x < 2 → 0 ≤ y → y < 2 →
          ¬ DIST2_NoImage (frameOf [(0, 0, 0), (1, 0, 0), (3/2, 0, 0), (5/2, 0, 0)] x)
            (frameOf [(0, 0, 0), (1, 0, 0), (3/2, 0, 0), (5/2, 0, 0)] y)
            < (checkScan (64/100) 100 [(0, 2), (2, 4)]).cutoff_) ∧
        (∀ res : Nat, (res : Int) ≤ 1 → res ≠ (dihCheck 0 [1]).resnum →
          ∀ rc2, (checkScan (64/100) 100 [(0, 2), (2, 4)]).ResCheck_.get? res = some rc2 →
            (checkScan (64/100) 100 [(0, 2), (2, 4)]).rescutoff_ ≤
              DIST2_NoImage (frameOf [(0, 0, 0), (1, 0, 0), (3/2, 0, 0), (5/2, 0, 0)] 0)
                (frameOf [(0, 0, 0), (1, 0, 0), (3/2, 0, 0), (5/2, 0, 0)] rc2.checkatom) ∨
            ∀ x y, 0 ≤ x → x < 2 → rc2.start ≤ y → y < rc2.stop →
              ¬ DIST2_NoImage (frameOf [(0, 0, 0), (1, 0, 0), (3/2, 0, 0), (5/2, 0, 0)] x)
                (frameOf [(0, 0, 0), (1, 0, 0), (3/2, 0, 0), (5/2, 0, 0)] y)
                < (checkScan (64/100) 100 [(0, 2), (2, 4)]).cutoff_)) :=
  (C24_noclash_iff_no_close_pair (checkScan (64/100) 100 [(0, 2), (2, 4)])
    (frameOf [(0, 0, 0), (1, 0, 0), (3/2, 0, 0), (5/2, 0, 0)]) (dihCheck 0 [1]) 1 0
    ⟨0, 0, 2, 0⟩ (by decide)
    (by intro res h; have : res < 2 := by omega
        exact this)).1
end DihedralScan
